import Mathlib

/-!
# Skin layout of the calculator shell (`gtk/shell_skin.cc`)

A shallow embedding of the skin description parser and of the input
resolution functions of `shell_skin.cc`, followed by theorems about them.

Conventions of the embedding:

* C `int` and `long` values are mathematical integers (`Int`); signed
  overflow is undefined in C and is outside the model. In particular the
  conversion `%d` of `sscanf` yields the value of the digits read; a value
  that does not fit an `int` is undefined behaviour in C. The function
  `strtol` clamps to the range of a 64 bit `long`, as the C library does.
* C `double` values are rationals (`ℚ`). The conversion `%lf` of `sscanf`
  and the arithmetic of `skin_load` (the row clamp and the geometry
  adjustment) round each result to the nearest value of the binary64 format,
  ties to even (`round_double`), with an unbounded exponent: overflow,
  underflow and NaN are outside the model. The point test of `skin_find_key`
  and the painting functions compute on the exact values. The conversion
  `(int) d` truncates toward zero. A division by zero, after which the
  conversion to `int` is undefined in C, has the value 0.
* A C string is the list of its characters before the terminating NUL.
* Arrays and linked lists are `List`s in stored order; a pointer into a
  table is the value it points at, a NULL pointer is `none`.
* Functions of other files (`core_menu`, `parse_keymap_entry`) are
  parameters.
-/

set_option autoImplicit false

namespace ShellSkin

/-! ## Data model -/

/-- The struct `SkinPoint`. -/
structure SkinPoint where
  x : Int
  y : Int
  deriving DecidableEq, Repr

/-- The struct `SkinRect`. -/
structure SkinRect where
  x : Int
  y : Int
  width : Int
  height : Int
  deriving DecidableEq, Repr

/-- The struct `SkinKey`. -/
structure SkinKey where
  code : Int
  shifted_code : Int
  sens_rect : SkinRect
  disp_rect : SkinRect
  src : SkinPoint
  deriving DecidableEq, Repr

/-- The constant `SKIN_MAX_MACRO_LENGTH`. -/
def SKIN_MAX_MACRO_LENGTH : Nat := 63

/-- The struct `SkinMacro`, without its `next` link: the field `macro_` (the array `macro`) holds the
bytes written before the terminating NUL. -/
structure SkinMacro where
  code : Int
  isName : Bool
  macro_ : List Nat
  deriving DecidableEq, Repr

/-- The struct `SkinAnnunciator`. -/
structure SkinAnnunciator where
  disp_rect : SkinRect
  src : SkinPoint
  deriving DecidableEq, Repr

/-- The struct `AltBackground`, without its `next` link. -/
structure AltBackground where
  src_rect : SkinRect
  dst : SkinPoint
  mode : Int
  deriving DecidableEq, Repr

/-- The struct `AltKey`, without its `next` link. -/
structure AltKey where
  src : SkinPoint
  code : Int
  mode : Int
  deriving DecidableEq, Repr

/-- Modelled from the spec: the struct `SkinColor` of `shell_skin.h`, three colour
bytes (the spec: colors are split into R/G/B bytes). -/
structure SkinColor where
  r : Nat
  g : Nat
  b : Nat
  deriving DecidableEq, Repr

/-- Modelled from the spec: the struct `keymap_entry` of `shell_main.h`, holding a
platform key value, the modifier flags ctrl, alt, shift and computed shift, and
the payload macro bytes. -/
structure keymap_entry where
  ctrl : Bool
  alt : Bool
  shift : Bool
  cshift : Bool
  keyval : Nat
  macro_ : List Nat
  deriving DecidableEq, Repr

/-- The file-level static variables of `shell_skin.cc` that describe the layout. -/
structure SkinState where
  alt_bak : List AltBackground
  alt_key : List AltKey
  skin : SkinRect
  display_loc : SkinPoint
  display_scale_x : ℚ
  display_scale_y : ℚ
  display_scale_int : Bool
  display_bg : SkinColor
  display_fg : SkinColor
  keylist : List SkinKey
  macrolist : List SkinMacro
  annunciators : List SkinAnnunciator
  disp_r : Int
  disp_c : Int
  disp_w : Int
  disp_h : Int
  disp_bits : List Nat
  disp_bpl : Int
  keymap : List keymap_entry
  deriving DecidableEq

/-- The value of the static variables at program start (zero initialised). -/
def SkinState.initial : SkinState where
  alt_bak := []
  alt_key := []
  skin := ⟨0, 0, 0, 0⟩
  display_loc := ⟨0, 0⟩
  display_scale_x := 0
  display_scale_y := 0
  display_scale_int := false
  display_bg := ⟨0, 0, 0⟩
  display_fg := ⟨0, 0, 0⟩
  keylist := []
  macrolist := []
  annunciators := List.replicate 7 ⟨⟨0, 0, 0, 0⟩, ⟨0, 0⟩⟩
  disp_r := 0
  disp_c := 0
  disp_w := 0
  disp_h := 0
  disp_bits := []
  disp_bpl := 0
  keymap := []

/-- The number of keys `nkeys`. -/
def SkinState.nkeys (s : SkinState) : Nat := s.keylist.length

/-- The number of keymap entries `keymap_length`. -/
def SkinState.keymap_length (s : SkinState) : Nat := s.keymap.length

/-! ## Input resolution -/

/-- The conversion `(int) d` of a double: truncation toward zero. -/
def double_to_int (d : ℚ) : Int :=
  if 0 ≤ d then ⌊d⌋ else ⌈d⌉

/-- The power `2 ^ e` for an integer exponent. -/
def pow2 (e : Int) : ℚ :=
  if 0 ≤ e then ((2 ^ e.toNat : Nat) : ℚ) else 1 / ((2 ^ (-e).toNat : Nat) : ℚ)

/-- The integer nearest to a rational; the even one of the two nearest when the
rational lies half way between them. -/
def round_half_even (m : ℚ) : Int :=
  if m - (⌊m⌋ : ℚ) < 1 / 2 then ⌊m⌋
  else if 1 / 2 < m - (⌊m⌋ : ℚ) then ⌊m⌋ + 1
  else if ⌊m⌋ % 2 = 0 then ⌊m⌋ else ⌊m⌋ + 1

/-- The loop `while (n >= 2) { n /= 2; e++; }`, run at most `fuel` times: the number
of halvings that take `n` below 2. -/
def log2_loop : Nat → Nat → Nat
  | 0, _ => 0
  | fuel + 1, n => if 2 ≤ n then log2_loop fuel (n / 2) + 1 else 0

/-- The position of the highest bit of a natural number (0 for 0 and 1). -/
def nat_log2 (n : Nat) : Nat := log2_loop n n

/-- The exponent `e` with `2 ^ e <= a < 2 ^ (e + 1)` of a positive rational: the
difference of the bit positions of numerator and denominator, or one less. -/
def binade (a : ℚ) : Int :=
  if pow2 ((nat_log2 a.num.natAbs : Int) - (nat_log2 a.den : Int)) ≤ a then
    (nat_log2 a.num.natAbs : Int) - (nat_log2 a.den : Int)
  else (nat_log2 a.num.natAbs : Int) - (nat_log2 a.den : Int) - 1

/-- The value of type `double` that an arithmetic operation or a conversion
delivers for the exact result `q`: the nearest number with 53 significant bits,
ties to even (IEEE 754 binary64, round to nearest). The values of a `double` are
kept as rationals. Results beyond the exponent range of the format (overflow to
infinity, underflow below `2 ^ -1022`) and NaN are not modelled. -/
def round_double (q : ℚ) : ℚ :=
  if q = 0 then 0
  else if 0 < q then
    (round_half_even (q / pow2 (binade q - 52)) : ℚ) * pow2 (binade q - 52)
  else
    -((round_half_even (-q / pow2 (binade (-q) - 52)) : ℚ) * pow2 (binade (-q) - 52))

/-- The product `a * b` of two doubles. -/
def double_mul (a b : ℚ) : ℚ := round_double (a * b)

/-- The quotient `a / b` of two doubles. -/
def double_div (a b : ℚ) : ℚ := round_double (a / b)

/-- The sum `a + b` of two doubles. -/
def double_add (a b : ℚ) : ℚ := round_double (a + b)

/-- The difference `a - b` of two doubles. -/
def double_sub (a b : ℚ) : ℚ := round_double (a - b)

/-- The rational is a value of the type `double`: an integer of at most 53 bits
times a power of two. -/
def is_double (q : ℚ) : Prop :=
  ∃ n k : Int, |n| < 2 ^ 53 ∧ q = (n : ℚ) * pow2 k

/-- The first condition of `skin_find_key`, apart from `core_menu()`: the point
lies in the band of the soft keys. -/
def soft_key_band (s : SkinState) (x y : Int) : Prop :=
  (x : ℚ) ≥ s.display_loc.x
    ∧ (x : ℚ) < s.display_loc.x + s.disp_w * s.display_scale_x
    ∧ (y : ℚ) ≥ s.display_loc.y + (s.disp_h - 7) * s.display_scale_y
    ∧ (y : ℚ) < s.display_loc.y + s.disp_h * s.display_scale_y

instance (s : SkinState) (x y : Int) : Decidable (soft_key_band s x y) := by
  unfold soft_key_band; infer_instance

/-- The test of the key loop of `skin_find_key`: the point is in the sensitive
rectangle of the key. -/
def sens_hit (x y : Int) (k : SkinKey) : Bool :=
  let rx := x - k.sens_rect.x
  let ry := y - k.sens_rect.y
  decide (rx ≥ 0) && decide (rx < k.sens_rect.width)
    && decide (ry ≥ 0) && decide (ry < k.sens_rect.height)

/-- The point lies in the sensitive rectangle of the key:
`rect.x <= x < rect.x + width` and `rect.y <= y < rect.y + height`. -/
def in_sens_rect (x y : Int) (k : SkinKey) : Prop :=
  k.sens_rect.x ≤ x ∧ x < k.sens_rect.x + k.sens_rect.width
    ∧ k.sens_rect.y ≤ y ∧ y < k.sens_rect.y + k.sens_rect.height

instance (x y : Int) (k : SkinKey) : Decidable (in_sens_rect x y k) := by
  unfold in_sens_rect; infer_instance

/-- The key loop of `skin_find_key`, from index `i` on; the result is the pair
`(*skey, *ckey)`. -/
def skin_find_key_loop (x y : Int) (cshift : Bool) : List SkinKey → Nat → Int × Int
  | [], _ => (-1, 0)
  | k :: rest, i =>
    if sens_hit x y k then
      ((i : Int), if cshift then k.shifted_code else k.code)
    else
      skin_find_key_loop x y cshift rest (i + 1)

/-- The function `skin_find_key`; `core_menu` is the value returned by the call
`core_menu()`, the result is the pair `(*skey, *ckey)`. -/
def skin_find_key (s : SkinState) (core_menu : Bool) (x y : Int) (cshift : Bool) :
    Int × Int :=
  if core_menu = true ∧ soft_key_band s x y then
    let softkey : Int :=
      double_to_int (((x - s.display_loc.x : Int) : ℚ) / (s.disp_c * s.display_scale_x) + 1)
    (-1 - softkey, softkey)
  else
    skin_find_key_loop x y cshift s.keylist 0

/-- The loop of `skin_find_skey`, from index `i` on. -/
def skin_find_skey_loop (ckey : Int) : List SkinKey → Nat → Int
  | [], _ => -1
  | k :: rest, i =>
    if k.code = ckey ∨ k.shifted_code = ckey then (i : Int)
    else skin_find_skey_loop ckey rest (i + 1)

/-- The function `skin_find_skey`. -/
def skin_find_skey (s : SkinState) (ckey : Int) : Int :=
  skin_find_skey_loop ckey s.keylist 0

/-- The loop of `skin_find_macro` over the list; the result is the returned
payload with the value stored in `*is_name`, or `none` for NULL. -/
def skin_find_macro_loop (ckey : Int) : List SkinMacro → Option (List Nat × Bool)
  | [] => none
  | m :: next =>
    if m.code = ckey then some (m.macro_, m.isName)
    else skin_find_macro_loop ckey next

/-- The function `skin_find_macro`. -/
def skin_find_macro (s : SkinState) (ckey : Int) : Option (List Nat × Bool) :=
  skin_find_macro_loop ckey s.macrolist

/-- The outer condition of the loop of `skin_keymap_lookup`. -/
def keymap_match (keyval : Nat) (printable ctrl alt shift : Bool) (entry : keymap_entry) :
    Bool :=
  (ctrl == entry.ctrl) && (alt == entry.alt) && (printable || shift == entry.shift)
    && (keyval == entry.keyval)

/-- The loop of `skin_keymap_lookup`; `found` is the local variable `macro`,
the result is the returned payload (or `none` for NULL) with the value stored in
`*exact`. -/
def skin_keymap_lookup_loop (keyval : Nat) (printable ctrl alt shift cshift : Bool) :
    List keymap_entry → Option (List Nat) → Option (List Nat) × Bool
  | [], found => (found, false)
  | entry :: rest, found =>
    if keymap_match keyval printable ctrl alt shift entry then
      if cshift = entry.cshift then
        (some entry.macro_, true)
      else
        skin_keymap_lookup_loop keyval printable ctrl alt shift cshift rest
          (if cshift then some entry.macro_ else found)
    else
      skin_keymap_lookup_loop keyval printable ctrl alt shift cshift rest found

/-- An entry is an exact match of a keymap query: equal ctrl, alt and key value,
a printable key or equal shift, and equal computed shift. -/
def keymap_exact (keyval : Nat) (printable ctrl alt shift cshift : Bool) (e : keymap_entry) :
    Prop :=
  e.ctrl = ctrl ∧ e.alt = alt ∧ e.keyval = keyval ∧ (printable = true ∨ e.shift = shift)
    ∧ e.cshift = cshift

/-- An entry is a fallback candidate of a keymap query: equal ctrl, alt and key
value, a printable key or equal shift, and a computed shift that is off. -/
def keymap_fallback (keyval : Nat) (printable ctrl alt shift : Bool) (e : keymap_entry) :
    Prop :=
  e.ctrl = ctrl ∧ e.alt = alt ∧ e.keyval = keyval ∧ (printable = true ∨ e.shift = shift)
    ∧ e.cshift = false

instance (keyval : Nat) (printable ctrl alt shift cshift : Bool) (e : keymap_entry) :
    Decidable (keymap_exact keyval printable ctrl alt shift cshift e) := by
  unfold keymap_exact; infer_instance

instance (keyval : Nat) (printable ctrl alt shift : Bool) (e : keymap_entry) :
    Decidable (keymap_fallback keyval printable ctrl alt shift e) := by
  unfold keymap_fallback; infer_instance

/-- The function `skin_keymap_lookup`. -/
def skin_keymap_lookup (s : SkinState) (keyval : Nat) (printable ctrl alt shift cshift : Bool) :
    Option (List Nat) × Bool :=
  skin_keymap_lookup_loop keyval printable ctrl alt shift cshift s.keymap none

/-! ## C library functions used by the parser -/

/-- The function `isspace` in the C locale. -/
def isspace (c : Char) : Bool :=
  c == ' ' || c == '\t' || c == '\n' || c == '\x0b' || c == '\x0c' || c == '\r'

/-- The function `isdigit`. -/
def isdigit (c : Char) : Bool :=
  decide ('0'.toNat ≤ c.toNat) && decide (c.toNat ≤ '9'.toNat)

/-- The function `tolower` in the C locale. -/
def tolower (c : Char) : Char :=
  if 'A'.toNat ≤ c.toNat ∧ c.toNat ≤ 'Z'.toNat then Char.ofNat (c.toNat + 32) else c

/-- The double quote character. -/
def quote_char : Char := Char.ofNat 34

/-- Skips leading white space. -/
def skip_space : List Char → List Char
  | [] => []
  | c :: cs => if isspace c then skip_space cs else c :: cs

/-- Reads the decimal digits at the start of the string: the value read, added to
`acc` shifted left, and the rest of the string. -/
def read_digits (acc : Nat) : List Char → Nat × List Char
  | [] => (acc, [])
  | c :: cs =>
    if isdigit c then read_digits (10 * acc + (c.toNat - '0'.toNat)) cs else (acc, c :: cs)

/-- Takes an optional sign from the start of the string: whether it is a minus
sign, and the rest. -/
def read_sign : List Char → Bool × List Char
  | '-' :: cs => (true, cs)
  | '+' :: cs => (false, cs)
  | cs => (false, cs)

/-- The subject sequence of `strtol` in base 10 (also the input item of the
conversion `%d`): optional white space, an optional sign, decimal digits. The result is
the value and the rest of the string, or `none` when there is no digit. -/
def scan_decimal (s : List Char) : Option (Int × List Char) :=
  match read_sign (skip_space s) with
  | (neg, c :: cs) =>
    if isdigit c then
      match read_digits 0 (c :: cs) with
      | (v, rest) => some (if neg then -(v : Int) else (v : Int), rest)
    else none
  | (_, []) => none

/-- The constant `LONG_MAX` (64 bit `long`). -/
def LONG_MAX : Int := 2 ^ 63 - 1

/-- The constant `LONG_MIN` (64 bit `long`). -/
def LONG_MIN : Int := -(2 ^ 63)

/-- The call `strtol(s, &endptr, 10)`: the value returned and the string at
`endptr`. Without digits the value is 0 and `endptr` is `s`; a value out of range
is clamped. -/
def strtol (s : List Char) : Int × List Char :=
  match scan_decimal s with
  | some (v, rest) => (max LONG_MIN (min LONG_MAX v), rest)
  | none => (0, s)

/-- The value of a hexadecimal digit, if the character is one. -/
def hex_value (c : Char) : Option Nat :=
  if isdigit c then some (c.toNat - '0'.toNat)
  else if 'a'.toNat ≤ c.toNat ∧ c.toNat ≤ 'f'.toNat then some (c.toNat - 'a'.toNat + 10)
  else if 'A'.toNat ≤ c.toNat ∧ c.toNat ≤ 'F'.toNat then some (c.toNat - 'A'.toNat + 10)
  else none

/-- Reads the hexadecimal digits at the start of the string. -/
def read_hex (acc : Nat) : List Char → Nat × List Char
  | [] => (acc, [])
  | c :: cs =>
    match hex_value c with
    | some d => read_hex (16 * acc + d) cs
    | none => (acc, c :: cs)

/-- Takes an optional prefix `0x` or `0X` that is followed by a hexadecimal digit. -/
def read_hex_prefix : List Char → List Char
  | '0' :: x :: c :: cs =>
    if (x = 'x' ∨ x = 'X') ∧ (hex_value c).isSome then c :: cs else '0' :: x :: c :: cs
  | cs => cs

/-- The input item of the conversion `%lx` (as for `strtoul` in base 16), stored in
an `unsigned long` of 64 bits: the value and the rest, or `none` without a digit. -/
def scan_hex (s : List Char) : Option (Nat × List Char) :=
  match read_sign (skip_space s) with
  | (neg, cs) =>
    match read_hex_prefix cs with
    | c :: cs2 =>
      if (hex_value c).isSome then
        match read_hex 0 (c :: cs2) with
        | (v, rest) => some (if neg then (2 ^ 64 - v % 2 ^ 64) % 2 ^ 64 else v % 2 ^ 64, rest)
      else none
    | [] => none

/-- The input item of the conversion `%lf` for plain decimal numbers: optional
white space, an optional sign, digits with an optional fraction, an optional
decimal exponent. Hexadecimal numbers, infinities and NaN are not modelled. -/
def scan_double (s : List Char) : Option (ℚ × List Char) :=
  match read_sign (skip_space s) with
  | (neg, cs) =>
    match read_digits 0 cs with
    | (ip, r1) =>
      let nint := cs.length - r1.length
      let frac : Nat × List Char :=
        match r1 with
        | '.' :: r2 => read_digits 0 r2
        | _ => (0, r1)
      let nfrac : Nat :=
        match r1 with
        | '.' :: r2 => r2.length - frac.2.length
        | _ => 0
      if nint + nfrac = 0 then none
      else
        let mant : ℚ := (ip : ℚ) + (frac.1 : ℚ) / (10 : ℚ) ^ nfrac
        let ex : Int × List Char :=
          match frac.2 with
          | e :: r3 =>
            if e = 'e' ∨ e = 'E' then
              match read_sign r3 with
              | (eneg, d :: r4) =>
                if isdigit d then
                  match read_digits 0 (d :: r4) with
                  | (ev, r5) => (if eneg then -(ev : Int) else (ev : Int), r5)
                else (0, frac.2)
              | (_, []) => (0, frac.2)
            else (0, frac.2)
          | [] => (0, frac.2)
        some ((if neg then -mant else mant) * (10 : ℚ) ^ ex.1, ex.2)

/-- Reads the characters up to the next white space (the conversion `%s`). -/
def read_word : List Char → List Char × List Char
  | [] => ([], [])
  | c :: cs =>
    if isspace c then ([], c :: cs)
    else match read_word cs with
      | (w, rest) => (c :: w, rest)

/-- A directive of a `scanf` format. -/
inductive Directive where
  | space
  | lit (c : Char)
  | conv_d
  | conv_s
  | conv_lf
  | conv_lx
  deriving DecidableEq, Repr

/-- A value assigned by a conversion of `sscanf`. -/
inductive ScanValue where
  | int (v : Int)
  | str (s : List Char)
  | dbl (q : ℚ)
  | ulong (n : Nat)
  deriving DecidableEq

/-- Splits a `scanf` format into its directives. -/
def parse_format : List Char → List Directive
  | [] => []
  | '%' :: 'd' :: r => Directive.conv_d :: parse_format r
  | '%' :: 's' :: r => Directive.conv_s :: parse_format r
  | '%' :: 'l' :: 'f' :: r => Directive.conv_lf :: parse_format r
  | '%' :: 'l' :: 'x' :: r => Directive.conv_lx :: parse_format r
  | c :: r => (if isspace c then Directive.space else Directive.lit c) :: parse_format r

/-- Runs the directives of a format on a string: the values assigned, in order, up
to the first directive that fails. -/
def sscanf_run : List Directive → List Char → List ScanValue
  | [], _ => []
  | Directive.space :: ds, s => sscanf_run ds (skip_space s)
  | Directive.lit c :: ds, s =>
    match s with
    | c2 :: r => if c2 = c then sscanf_run ds r else []
    | [] => []
  | Directive.conv_d :: ds, s =>
    match scan_decimal s with
    | some (v, r) => ScanValue.int v :: sscanf_run ds r
    | none => []
  | Directive.conv_s :: ds, s =>
    match read_word (skip_space s) with
    | ([], _) => []
    | (c :: w, r) => ScanValue.str (c :: w) :: sscanf_run ds r
  | Directive.conv_lf :: ds, s =>
    match scan_double s with
    | some (q, r) => ScanValue.dbl (round_double q) :: sscanf_run ds r
    | none => []
  | Directive.conv_lx :: ds, s =>
    match scan_hex s with
    | some (n, r) => ScanValue.ulong n :: sscanf_run ds r
    | none => []

/-- The call `sscanf(s, format, ...)`: the list of the values assigned; the value
returned by the call is the length of the list (or `EOF` instead of 0 when the
input ends before the first conversion). -/
def sscanf (s : List Char) (format : String) : List ScanValue :=
  sscanf_run (parse_format format.toList) s

/-- The test `strncasecmp(s1, s2, n) == 0`. -/
def strncasecmp_eq (s1 : List Char) (s2 : String) (n : Nat) : Bool :=
  (s1.take n).map tolower == (s2.toList.take n).map tolower

/-- The call `strchr(s, c)` for a character other than NUL: the offset of the first
occurrence, or `none` for NULL. -/
def strchr (s : List Char) (c : Char) : Option Nat :=
  match s with
  | [] => none
  | d :: ds => if d = c then some 0 else (strchr ds c).map (· + 1)

/-- The call `strrchr(s, c)` for a character other than NUL: the offset of the last
occurrence, or `none` for NULL. -/
def strrchr (s : List Char) (c : Char) : Option Nat :=
  match s with
  | [] => none
  | d :: ds =>
    match strrchr ds c with
    | some i => some (i + 1)
    | none => if d = c then some 0 else none

/-- The tokens returned by the calls `strtok(s, " \t")`, `strtok(NULL, " \t")`, ...
in order, before the call that returns NULL; `cur` is the token being read, in
reverse. -/
def strtok_tokens (cur : List Char) : List Char → List (List Char)
  | [] => if cur = [] then [] else [cur.reverse]
  | c :: cs =>
    if c = ' ' ∨ c = '\t' then
      (if cur = [] then strtok_tokens [] cs else cur.reverse :: strtok_tokens [] cs)
    else strtok_tokens (c :: cur) cs

/-! ## The skin description parser of `skin_load` -/

/-- The layout variables together with the local variables of `skin_load` that
the parse loop reads and writes. -/
structure LoadState where
  g : SkinState
  lineno : Int
  disp_rows : Int
  disp_cols : Int
  fl : Int
  alt_disp_y : Int
  alt_pixel_height : Int
  max_r : Int
  dup_first_y : Int
  dup_last_y : Int
  deriving DecidableEq

/-- The statements of `skin_load` between the opening of the layout file and the
parse loop: the key table, the lists and the keymap are emptied and the local
variables get their defaults. The variable `lineno`, which is initialised at the
start of `skin_load`, has its value of the first pass, 0. -/
def skin_load_reset (old : SkinState) : LoadState where
  g := { old with keylist := [], alt_bak := [], alt_key := [], macrolist := [], keymap := [] }
  lineno := 0
  disp_rows := 2
  disp_cols := 22
  fl := 0
  alt_disp_y := -1
  alt_pixel_height := -1
  max_r := -1
  dup_first_y := 0
  dup_last_y := 0

/-- The loop over the tokens of a keystroke record in the `macro:` branch. The
state is the local variable `macro` (`none` for NULL), as the pair of its code and
of the `len` steps stored so far; the result is its value when the loop is left. -/
def macro_steps_loop : List (List Char) → Option (Int × List Nat) → Option (Int × List Nat)
  | [], cur => cur
  | tok :: toks, cur =>
    match strtol tok with
    | (n, endptr) =>
      if endptr ≠ [] ∧ cur.isSome then
        none
      else
        match cur with
        | none =>
          if n < 38 ∨ n > 255 then none
          else macro_steps_loop toks (some (n, []))
        | some (code, steps) =>
          if steps.length < SKIN_MAX_MACRO_LENGTH then
            if n < 1 ∨ n > 37 then none
            else macro_steps_loop toks (some (code, steps ++ [n.toNat]))
          else macro_steps_loop toks (some (code, steps))

/-- The `macro:` branch of the parse loop, on the text after the label: the macro
that the branch links in front of `macrolist`, if any. -/
def parse_macro_record (payload : List Char) : Option SkinMacro :=
  match strchr payload quote_char with
  | some quot1 =>
    match strrchr payload quote_char with
    | some quot2 =>
      if quot2 ≠ quot1 then
        let len : Nat := min (quot2 - quot1 - 1) SKIN_MAX_MACRO_LENGTH
        match sscanf payload "%d" with
        | [ScanValue.int n] =>
          if n ≥ 38 ∧ n ≤ 255 then
            some ⟨n, true, ((payload.drop (quot1 + 1)).take len).map Char.toNat⟩
          else none
        | _ => none
      else none
    | none => none
  | none =>
    match macro_steps_loop (strtok_tokens [] payload) none with
    | some (code, steps) => some ⟨code, false, steps⟩
    | none => none

/-- The `key:` branch of the parse loop, on the text after the label: the key that
the branch stores at `keylist + nkeys`, if any. The token read by `%s` is taken to
fit the buffer `keynumbuf`. -/
def parse_key_record (payload : List Char) : Option SkinKey :=
  match sscanf payload " %s %d,%d,%d,%d %d,%d,%d,%d %d,%d" with
  | [ScanValue.str keynumbuf,
      ScanValue.int sens_x, ScanValue.int sens_y, ScanValue.int sens_width,
      ScanValue.int sens_height,
      ScanValue.int disp_x, ScanValue.int disp_y, ScanValue.int disp_width,
      ScanValue.int disp_height,
      ScanValue.int act_x, ScanValue.int act_y] =>
    match sscanf keynumbuf "%d,%d" with
    | [ScanValue.int keynum] =>
      some ⟨keynum, keynum, ⟨sens_x, sens_y, sens_width, sens_height⟩,
        ⟨disp_x, disp_y, disp_width, disp_height⟩, ⟨act_x, act_y⟩⟩
    | [ScanValue.int keynum, ScanValue.int shifted_keynum] =>
      some ⟨keynum, shifted_keynum, ⟨sens_x, sens_y, sens_width, sens_height⟩,
        ⟨disp_x, disp_y, disp_width, disp_height⟩, ⟨act_x, act_y⟩⟩
    | _ => none
  | _ => none

/-- The body of the parse loop of `skin_load` for one line returned by
`skin_gets`. The function `parse_keymap_entry` of `shell_main.cc` is a parameter;
allocations are taken to succeed. -/
def skin_load_line (parse_keymap_entry : List Char → Int → Option keymap_entry)
    (st : LoadState) (line : List Char) : LoadState :=
  let ls : LoadState := { st with lineno := st.lineno + 1 }
  if line = [] then ls
  else if strncasecmp_eq line "skin:" 5 then
    match sscanf (line.drop 5) " %d,%d,%d,%d" with
    | [ScanValue.int x, ScanValue.int y, ScanValue.int width, ScanValue.int height] =>
      { ls with g := { ls.g with skin := ⟨x, y, width, height⟩ } }
    | _ => ls
  else if strncasecmp_eq line "display:" 8 then
    match sscanf (line.drop 8) " %d,%d %lf %lf %lx %lx" with
    | [ScanValue.int x, ScanValue.int y, ScanValue.dbl xscale, ScanValue.dbl yscale,
        ScanValue.ulong bg, ScanValue.ulong fg] =>
      { ls with g := { ls.g with
          display_loc := ⟨x, y⟩
          display_scale_x := xscale
          display_scale_y := yscale
          display_bg := ⟨(bg >>> 16) % 256, (bg >>> 8) % 256, bg % 256⟩
          display_fg := ⟨(fg >>> 16) % 256, (fg >>> 8) % 256, fg % 256⟩ } }
    | _ => ls
  else if strncasecmp_eq line "displaysize:" 12 then
    match sscanf (line.drop 12) " %d,%d %d %d %d" with
    | ScanValue.int c :: ScanValue.int r :: more =>
      if c ≥ 22 ∧ r ≥ 2 then
        { ls with
          disp_rows := r
          disp_cols := c
          alt_disp_y :=
            match more with
            | ScanValue.int n :: _ => if n ≠ -1 then n else ls.alt_disp_y
            | _ => ls.alt_disp_y
          alt_pixel_height :=
            match more with
            | _ :: ScanValue.int p :: _ => if p ≠ -1 then p else ls.alt_pixel_height
            | _ => ls.alt_pixel_height
          max_r :=
            match more with
            | _ :: _ :: ScanValue.int m :: _ => if m ≠ -1 then m else ls.max_r
            | _ => ls.max_r }
      else ls
    | _ => ls
  else if strncasecmp_eq line "displayexpansionzone:" 21 then
    match sscanf (line.drop 21) " %d %d" with
    | [ScanValue.int first, ScanValue.int last] =>
      { ls with dup_first_y := first, dup_last_y := last }
    | _ => ls
  else if strncasecmp_eq line "key:" 4 then
    match parse_key_record (line.drop 4) with
    | some key => { ls with g := { ls.g with keylist := ls.g.keylist ++ [key] } }
    | none => ls
  else if strncasecmp_eq line "macro:" 6 then
    match parse_macro_record (line.drop 6) with
    | some m => { ls with g := { ls.g with macrolist := m :: ls.g.macrolist } }
    | none => ls
  else if strncasecmp_eq line "annunciator:" 12 then
    match sscanf (line.drop 12) " %d %d,%d,%d,%d %d,%d" with
    | [ScanValue.int annnum, ScanValue.int disp_x, ScanValue.int disp_y,
        ScanValue.int disp_width, ScanValue.int disp_height,
        ScanValue.int act_x, ScanValue.int act_y] =>
      if annnum ≥ 1 ∧ annnum ≤ 7 then
        { ls with g := { ls.g with
            annunciators := ls.g.annunciators.set (annnum - 1).toNat
              ⟨⟨disp_x, disp_y, disp_width, disp_height⟩, ⟨act_x, act_y⟩⟩ } }
      else ls
    | _ => ls
  else if strncasecmp_eq line "gtkkey:" 7 then
    match parse_keymap_entry (line.drop 7) ls.lineno with
    | some entry => { ls with g := { ls.g with keymap := ls.g.keymap ++ [entry] } }
    | none => ls
  else if strncasecmp_eq line "flags:" 6 then
    match sscanf (line.drop 6) "%d" with
    | [ScanValue.int v] => { ls with fl := v }
    | _ => ls
  else if strncasecmp_eq line "altbkgd:" 8 then
    match sscanf (line.drop 8) " %d %d,%d,%d,%d %d,%d" with
    | [ScanValue.int mode, ScanValue.int src_x, ScanValue.int src_y,
        ScanValue.int src_width, ScanValue.int src_height,
        ScanValue.int dst_x, ScanValue.int dst_y] =>
      { ls with g := { ls.g with
          alt_bak := ls.g.alt_bak ++ [⟨⟨src_x, src_y, src_width, src_height⟩, ⟨dst_x, dst_y⟩, mode⟩] } }
    | _ => ls
  else if strncasecmp_eq line "altkey:" 7 then
    match sscanf (line.drop 8) " %d %d %d,%d" with
    | [ScanValue.int mode, ScanValue.int code, ScanValue.int src_x, ScanValue.int src_y] =>
      { ls with g := { ls.g with alt_key := ls.g.alt_key ++ [⟨⟨src_x, src_y⟩, code, mode⟩] } }
    | _ => ls
  else ls

/-- The parse loop of the first pass of `skin_load`, with the statements that
precede it, on the lines that the successive calls of `skin_gets` return. -/
def skin_load_records (parse_keymap_entry : List Char → Int → Option keymap_entry)
    (old : SkinState) (lines : List (List Char)) : LoadState :=
  lines.foldl (skin_load_line parse_keymap_entry) (skin_load_reset old)

/-- The parse loop of a pass of `skin_load` that starts with the value `lineno` in
the local variable `lineno`: 0 in the first pass, and the number of the lines read
so far in a pass after a fallback, because `lineno` is initialised before the label
`fallback_on_1st_builtin_skin` and a jump to the label does not reset it. -/
def skin_load_records_from (parse_keymap_entry : List Char → Int → Option keymap_entry)
    (lineno : Int) (old : SkinState) (lines : List (List Char)) : LoadState :=
  lines.foldl (skin_load_line parse_keymap_entry) { skin_load_reset old with lineno := lineno }

/-- The macro that a line of the description defines, if any: the line is a valid
`macro:` record when this is not `none`. -/
def macro_record (line : List Char) : Option SkinMacro :=
  if strncasecmp_eq line "macro:" 6 then parse_macro_record (line.drop 6) else none

/-- The value of a text made of decimal digits only, at least one. -/
def digits_value (ds : List Char) : Option Nat :=
  if ds ≠ [] ∧ ds.all isdigit = true then
    some (ds.foldl (fun acc c => 10 * acc + (c.toNat - '0'.toNat)) 0)
  else none

/-- The value of a text that is a decimal integer: an optional sign followed by
decimal digits, at least one, and nothing else. -/
def decimal_value : List Char → Option Int
  | '-' :: ds =>
    match digits_value ds with
    | some n => some (-(Int.ofNat n))
    | none => none
  | '+' :: ds =>
    match digits_value ds with
    | some n => some (Int.ofNat n)
    | none => none
  | ds =>
    match digits_value ds with
    | some n => some (Int.ofNat n)
    | none => none

/-- The text that follows does not go on with a decimal digit. -/
def not_digit_head (rest : List Char) : Prop :=
  ∀ c ∈ rest.head?, isdigit c = false

/-- A keystroke record with the code 100 and 64 steps: 63 times the step 1, then
the step 99. -/
def long_keystroke_record : List Char :=
  "macro: 100".toList ++ (List.replicate 63 " 1".toList).flatten ++ " 99".toList

/-! ## The geometry adjustment of `skin_load` -/

/-- The conditional expression that `skin_load` uses three times to choose the
pixel height of a row, with `max_r`, `requested_rows` and `disp_rows` as the row
count `rows`: `rows == 2 ? display_scale_y : alt_pixel_height != -1 ?
alt_pixel_height : display_scale_x`. -/
def row_scale (ls : LoadState) (rows : Int) : ℚ :=
  if rows = 2 then ls.g.display_scale_y
  else if ls.alt_pixel_height ≠ -1 then (ls.alt_pixel_height : ℚ)
  else ls.g.display_scale_x

/-- The local variable `max_h` of `skin_load`. -/
def skin_load_max_h (ls : LoadState) : Int :=
  if ls.max_r ≠ -1 then double_to_int (double_mul (ls.max_r : ℚ) (row_scale ls ls.max_r))
  else -1

/-- The local variable `r2` of `skin_load`: the product and the quotient are
operations on doubles. -/
def skin_load_r2 (ls : LoadState) (requested_cols : Int) : ℚ :=
  double_div
    (double_mul
      (if ls.alt_pixel_height ≠ -1 then (ls.alt_pixel_height : ℚ) else ls.g.display_scale_x)
      (ls.disp_cols : ℚ))
    (requested_cols : ℚ)

/-- The value of `requested_rows` after the block `if (max_r != -1)` of
`skin_load`. -/
def skin_load_clamp_rows (ls : LoadState) (requested_rows requested_cols : Int) : Int :=
  if ls.max_r ≠ -1 then
    if double_mul (requested_rows : ℚ) (skin_load_r2 ls requested_cols)
        > (skin_load_max_h ls : ℚ) then
      double_to_int (double_div (skin_load_max_h ls : ℚ) (skin_load_r2 ls requested_cols))
    else requested_rows
  else requested_rows

/-- The local variable `available` of `skin_load`. -/
def skin_load_available (ls : LoadState) : Int :=
  double_to_int (double_mul (double_mul (row_scale ls ls.disp_rows) (ls.disp_rows : ℚ)) 8)

/-- The final value of the local variable `xs` of `skin_load`. -/
def skin_load_xs (ls : LoadState) (requested_cols : Int) : ℚ :=
  double_div (double_mul ls.g.display_scale_x (ls.disp_cols : ℚ)) (requested_cols : ℚ)

/-- The final value of the local variable `ys` of `skin_load`; `rows` is the value
of `requested_rows` after the clamp. -/
def skin_load_ys (ls : LoadState) (rows requested_cols : Int) : ℚ :=
  double_div (double_mul (row_scale ls rows) (ls.disp_cols : ℚ)) (requested_cols : ℚ)

/-- The value computed for the local variable `extra` of `skin_load`, before the
test of its sign; `rows` is the value of `requested_rows` after the clamp. -/
def skin_load_extra (ls : LoadState) (rows requested_cols : Int) : Int :=
  double_to_int
    (double_sub (double_mul (double_mul (rows : ℚ) (skin_load_ys ls rows requested_cols)) 8)
      (skin_load_available ls : ℚ))

/-- The statement `if (y > dup_first_y) y += extra;` on one coordinate. -/
def shift_y (dup_first_y extra y : Int) : Int :=
  if y > dup_first_y then y + extra else y

/-- The body of the loop over the annunciators in the block `Fix coordinates`. -/
def shift_annunciator (dup_first_y extra : Int) (ann : SkinAnnunciator) : SkinAnnunciator :=
  { ann with
    disp_rect := { ann.disp_rect with y := shift_y dup_first_y extra ann.disp_rect.y }
    src := { ann.src with y := shift_y dup_first_y extra ann.src.y } }

/-- The body of the loop over the keys in the block `Fix coordinates`. -/
def shift_key (dup_first_y extra : Int) (key : SkinKey) : SkinKey :=
  { key with
    sens_rect := { key.sens_rect with y := shift_y dup_first_y extra key.sens_rect.y }
    disp_rect := { key.disp_rect with y := shift_y dup_first_y extra key.disp_rect.y }
    src := { key.src with y := shift_y dup_first_y extra key.src.y } }

/-- The body of the loop over the list `alt_bak` in the block `Fix coordinates`. -/
def shift_alt_bak (dup_first_y extra : Int) (ab : AltBackground) : AltBackground :=
  { ab with
    src_rect := { ab.src_rect with y := shift_y dup_first_y extra ab.src_rect.y }
    dst := { ab.dst with y := shift_y dup_first_y extra ab.dst.y } }

/-- The body of the loop over the list `alt_key` in the block `Fix coordinates`. -/
def shift_alt_key (dup_first_y extra : Int) (ak : AltKey) : AltKey :=
  { ak with src := { ak.src with y := shift_y dup_first_y extra ak.src.y } }

/-- The value of `dup_first_y` in the block `if (extra > 0)`: the zone start of the
description, or the display origin when no zone was given. -/
def zone_first_y (ls : LoadState) : Int :=
  if ls.dup_first_y = 0 ∧ ls.dup_last_y = 0 then ls.g.display_loc.y else ls.dup_first_y

/-- The value of `dup_last_y` in the block `if (extra > 0)`. -/
def zone_last_y (ls : LoadState) : Int :=
  if ls.dup_first_y = 0 ∧ ls.dup_last_y = 0 then
    double_to_int (double_add (ls.g.display_loc.y : ℚ) (double_mul ls.g.display_scale_y 16))
  else ls.dup_last_y

/-- The block `Fix coordinates` of `skin_load`, run when `extra > 0`. -/
def fix_coordinates (g : SkinState) (dup_first_y extra : Int) : SkinState :=
  { g with
    skin := { g.skin with height := g.skin.height + extra }
    annunciators := g.annunciators.map (shift_annunciator dup_first_y extra)
    keylist := g.keylist.map (shift_key dup_first_y extra)
    alt_bak := g.alt_bak.map (shift_alt_bak dup_first_y extra)
    alt_key := g.alt_key.map (shift_alt_key dup_first_y extra) }

/-- The variables of `skin_load` after the geometry adjustment, at the call of
`shell_loadimage(extra, dup_first_y, dup_last_y)`. -/
structure Adjusted where
  g : SkinState
  disp_rows : Int
  disp_cols : Int
  extra : Int
  wasted : Int
  dup_first_y : Int
  dup_last_y : Int
  fl : Int
  deriving DecidableEq

/-- The statements of `skin_load` from `int max_h = -1;` to the assignment of
`display_scale_int`, on the state left by the parse loop. -/
def skin_load_adjust (ls : LoadState) (requested_rows requested_cols : Int) : Adjusted :=
  let rows := skin_load_clamp_rows ls requested_rows requested_cols
  let xs := skin_load_xs ls requested_cols
  let ys := skin_load_ys ls rows requested_cols
  let extra := skin_load_extra ls rows requested_cols
  let wasted : Int := if extra > 0 then 0 else if extra < 0 then -extra else 0
  let g1 : SkinState := if extra > 0 then fix_coordinates ls.g (zone_first_y ls) extra else ls.g
  let g2 : SkinState :=
    if rows > 2 ∧ ls.alt_disp_y ≠ -1 then
      { g1 with display_loc := { g1.display_loc with y := ls.alt_disp_y + wasted } }
    else g1
  { g := { g2 with
      display_scale_x := xs
      display_scale_y := ys
      display_scale_int := decide (xs = (double_to_int xs : ℚ) ∧ ys = (double_to_int ys : ℚ)) }
    disp_rows := rows
    disp_cols := requested_cols
    extra := if extra > 0 then extra else 0
    wasted := wasted
    dup_first_y := if extra > 0 then zone_first_y ls else ls.dup_first_y
    dup_last_y := if extra > 0 then zone_last_y ls else ls.dup_last_y
    fl := ls.fl }

/-- The values that `skin_load` stores through its pointer arguments. -/
structure LoadOutput where
  width : Int
  height : Int
  rows : Int
  cols : Int
  flags : Int
  deriving DecidableEq, Repr

/-- The statements of `skin_load` after a successful call of `shell_loadimage`:
the outputs are stored and the display bitmap is rebuilt. -/
def skin_load_finish (a : Adjusted) : SkinState × LoadOutput :=
  let disp_w : Int := a.disp_cols * 6 - 1
  let disp_h : Int := a.disp_rows * 8
  let disp_bpl : Int := (disp_w + 7) >>> 3
  let size : Int := disp_bpl * disp_h
  ({ a.g with
      disp_r := a.disp_rows
      disp_c := a.disp_cols
      disp_w := disp_w
      disp_h := disp_h
      disp_bpl := disp_bpl
      disp_bits := List.replicate size.toNat 0 },
    { width := a.g.skin.width
      height := a.g.skin.height
      rows := a.disp_rows
      cols := a.disp_cols
      flags := a.fl })

/-- The first pass of `skin_load` when `skin_open` and `shell_loadimage` succeed in
it, on the lines that `skin_gets` returns: parse, geometry adjustment, final
statements. -/
def skin_load_pass (parse_keymap_entry : List Char → Int → Option keymap_entry)
    (old : SkinState) (lines : List (List Char)) (requested_rows requested_cols : Int) :
    SkinState × LoadOutput :=
  skin_load_finish
    (skin_load_adjust (skin_load_records parse_keymap_entry old lines)
      requested_rows requested_cols)

/-- One pass of `skin_load` that starts with the value `lineno` in the local
variable `lineno` and in which `skin_open` and `shell_loadimage` succeed. -/
def skin_load_pass_from (parse_keymap_entry : List Char → Int → Option keymap_entry)
    (lineno : Int) (old : SkinState) (lines : List (List Char))
    (requested_rows requested_cols : Int) : SkinState × LoadOutput :=
  skin_load_finish
    (skin_load_adjust (skin_load_records_from parse_keymap_entry lineno old lines)
      requested_rows requested_cols)

/-- A Y coordinate `old` has become `new` by the shift of the adjustment: it is
`old + extra` if `old > first`, and `old` if `old <= first`. -/
def y_shifted (first extra old new : Int) : Prop :=
  (old > first → new = old + extra) ∧ (old ≤ first → new = old)

/-- A key after the shift: its three Y coordinates are shifted, every other field
is unchanged. -/
def key_shifted (first extra : Int) (k k2 : SkinKey) : Prop :=
  k2.code = k.code ∧ k2.shifted_code = k.shifted_code
    ∧ k2.sens_rect.x = k.sens_rect.x ∧ k2.sens_rect.width = k.sens_rect.width
    ∧ k2.sens_rect.height = k.sens_rect.height
    ∧ y_shifted first extra k.sens_rect.y k2.sens_rect.y
    ∧ k2.disp_rect.x = k.disp_rect.x ∧ k2.disp_rect.width = k.disp_rect.width
    ∧ k2.disp_rect.height = k.disp_rect.height
    ∧ y_shifted first extra k.disp_rect.y k2.disp_rect.y
    ∧ k2.src.x = k.src.x ∧ y_shifted first extra k.src.y k2.src.y

/-- An annunciator after the shift: its two Y coordinates are shifted, every other
field is unchanged. -/
def annunciator_shifted (first extra : Int) (a a2 : SkinAnnunciator) : Prop :=
  a2.disp_rect.x = a.disp_rect.x ∧ a2.disp_rect.width = a.disp_rect.width
    ∧ a2.disp_rect.height = a.disp_rect.height
    ∧ y_shifted first extra a.disp_rect.y a2.disp_rect.y
    ∧ a2.src.x = a.src.x ∧ y_shifted first extra a.src.y a2.src.y

/-- An alternate background after the shift: its source and destination Y
coordinates are shifted, every other field is unchanged. -/
def alt_bak_shifted (first extra : Int) (b b2 : AltBackground) : Prop :=
  b2.mode = b.mode
    ∧ b2.src_rect.x = b.src_rect.x ∧ b2.src_rect.width = b.src_rect.width
    ∧ b2.src_rect.height = b.src_rect.height
    ∧ y_shifted first extra b.src_rect.y b2.src_rect.y
    ∧ b2.dst.x = b.dst.x ∧ y_shifted first extra b.dst.y b2.dst.y

/-- An alternate key after the shift: its source Y coordinate is shifted, every
other field is unchanged. -/
def alt_key_shifted (first extra : Int) (k k2 : AltKey) : Prop :=
  k2.mode = k.mode ∧ k2.code = k.code ∧ k2.src.x = k.src.x
    ∧ y_shifted first extra k.src.y k2.src.y

/-! ## The passes of `skin_load` -/

/-- What the collaborators of `skin_load` do during one pass: the lines that
`skin_gets` returns when `skin_open` opens the layout (`none` when it fails),
whether `skin_open` opens the bitmap, and the value returned by
`shell_loadimage`. -/
structure PassBehaviour where
  layout : Option (List (List Char))
  bitmap_open : Bool
  image_ok : Bool

/-- A pass succeeds when the layout and the bitmap are opened and the image is
loaded. -/
def PassBehaviour.ok (b : PassBehaviour) : Bool :=
  b.layout.isSome && b.bitmap_open && b.image_ok

/-- The state in which `skin_load` returns: the layout variables, the outputs,
the skin name in `state.skinName`, the static variables `last_req_rows` and
`last_req_cols`, and the number of jumps to `fallback_on_1st_builtin_skin` made. -/
structure LoadResult where
  g : SkinState
  out : LoadOutput
  skinName : List Char
  last_req : Int × Int
  fallbacks : Nat

/-- The passes of `skin_load` from the call of `skin_open` for the layout on. The
collaborators are the function `env` of the pass number, the skin name and
`force_builtin`; `builtin0` is `skin_name[0]`; `k` counts the jumps to
`fallback_on_1st_builtin_skin` made so far. A jump starts the next pass with the
first built-in skin, the layout variables as the failed pass left them, the
clamped `requested_rows` and the value of `lineno` that the failed pass reached.
The result is `none` when `skin_load` has not returned after `fuel` passes. -/
def skin_load_loop (parse_keymap_entry : List Char → Int → Option keymap_entry)
    (env : Nat → List Char → Bool → PassBehaviour) (builtin0 : List Char)
    (last_req : Int × Int) (requested_cols : Int) :
    Nat → Nat → List Char → Bool → SkinState → Int → Int → Option LoadResult
  | 0, _, _, _, _, _, _ => none
  | fuel + 1, k, name, force_builtin, g, requested_rows, lineno =>
    match (env k name force_builtin).layout with
    | none =>
      skin_load_loop parse_keymap_entry env builtin0 last_req requested_cols
        fuel (k + 1) builtin0 true g requested_rows lineno
    | some lines =>
      if (env k name force_builtin).bitmap_open = true
          ∧ (env k name force_builtin).image_ok = true then
        some
          { g := (skin_load_finish (skin_load_adjust
              (skin_load_records_from parse_keymap_entry lineno g lines)
              requested_rows requested_cols)).1
            out := (skin_load_finish (skin_load_adjust
              (skin_load_records_from parse_keymap_entry lineno g lines)
              requested_rows requested_cols)).2
            skinName := name
            last_req := last_req
            fallbacks := k }
      else
        skin_load_loop parse_keymap_entry env builtin0 last_req requested_cols
          fuel (k + 1) builtin0 true
          (skin_load_adjust (skin_load_records_from parse_keymap_entry lineno g lines)
            requested_rows requested_cols).g
          (skin_load_adjust (skin_load_records_from parse_keymap_entry lineno g lines)
            requested_rows requested_cols).disp_rows
          (skin_load_records_from parse_keymap_entry lineno g lines).lineno

/-- The function `skin_load`, called with `*rows = rows` and `*cols = cols`, with
the skin name `skinName` in `state.skinName` and `last_req` in the static
variables `last_req_rows` and `last_req_cols`. -/
def skin_load (parse_keymap_entry : List Char → Int → Option keymap_entry)
    (env : Nat → List Char → Bool → PassBehaviour) (builtin0 : List Char)
    (fuel : Nat) (skinName : List Char) (g : SkinState) (last_req : Int × Int)
    (rows cols : Int) : Option LoadResult :=
  skin_load_loop parse_keymap_entry env builtin0
    (if rows = -1 then last_req else (rows, cols))
    (if rows = -1 then last_req.2 else cols)
    fuel 0
    (if skinName = [] then builtin0 else skinName)
    (decide (skinName = []))
    g
    (if rows = -1 then last_req.1 else rows)
    0

/-- The skin name of pass `j` of `skin_load`: the selected skin in the first pass,
the first built-in skin after a fallback. -/
def pass_name (name builtin0 : List Char) (j : Nat) : List Char :=
  if j = 0 then name else builtin0

/-- The value of `force_builtin` in pass `j` of `skin_load`. -/
def pass_force (force_builtin : Bool) (j : Nat) : Bool :=
  if j = 0 then force_builtin else true

/-- The layout variables and the values of `requested_rows` and `lineno` with
which a pass of `skin_load` starts after `n` passes that did not succeed, the first
of them being pass `k` with the skin `name`; the other arguments are those of
`skin_load_loop`. A pass that cannot open its layout leaves the three as they are;
a pass that fails after the parse leaves the parsed and adjusted layout, the
clamped `requested_rows` and the `lineno` it reached. -/
def skin_load_failed (parse_keymap_entry : List Char → Int → Option keymap_entry)
    (env : Nat → List Char → Bool → PassBehaviour) (builtin0 : List Char)
    (requested_cols : Int) :
    Nat → Nat → List Char → Bool → SkinState → Int → Int → SkinState × Int × Int
  | 0, _, _, _, g, requested_rows, lineno => (g, requested_rows, lineno)
  | n + 1, k, name, force_builtin, g, requested_rows, lineno =>
    match (env k name force_builtin).layout with
    | none =>
      skin_load_failed parse_keymap_entry env builtin0 requested_cols
        n (k + 1) builtin0 true g requested_rows lineno
    | some lines =>
      skin_load_failed parse_keymap_entry env builtin0 requested_cols
        n (k + 1) builtin0 true
        (skin_load_adjust (skin_load_records_from parse_keymap_entry lineno g lines)
          requested_rows requested_cols).g
        (skin_load_adjust (skin_load_records_from parse_keymap_entry lineno g lines)
          requested_rows requested_cols).disp_rows
        (skin_load_records_from parse_keymap_entry lineno g lines).lineno

/-- The layout variables and the values of `requested_rows` and `lineno` with
which pass `n` of a call of `skin_load` starts, the passes before it having failed;
the arguments are those of `skin_load`. For `n = 0` they are the layout of before
the call, the requested row count and 0. -/
def skin_load_start (parse_keymap_entry : List Char → Int → Option keymap_entry)
    (env : Nat → List Char → Bool → PassBehaviour) (builtin0 : List Char)
    (skinName : List Char) (g : SkinState) (last_req : Int × Int) (rows cols : Int)
    (n : Nat) : SkinState × Int × Int :=
  skin_load_failed parse_keymap_entry env builtin0
    (if rows = -1 then last_req.2 else cols)
    n 0
    (if skinName = [] then builtin0 else skinName)
    (decide (skinName = []))
    g
    (if rows = -1 then last_req.1 else rows)
    0

/-! ## The effect of a line of the description -/

/-- What one line of the description does to the variables of `skin_load`: the
branch of the parse loop that the line takes, with the values it scans. -/
inductive LineEffect where
  | nothing
  | skin (r : SkinRect)
  | display (loc : SkinPoint) (xscale yscale : ℚ) (bg fg : SkinColor)
  | displaysize (c r : Int) (more : List ScanValue)
  | zone (first last : Int)
  | key (k : SkinKey)
  | add_macro (m : SkinMacro)
  | annunciator (n : Int) (a : SkinAnnunciator)
  | keymap (e : keymap_entry)
  | flags (v : Int)
  | altbkgd (b : AltBackground)
  | altkey (k : AltKey)

/-- The effect of a line, read off the branches of `skin_load_line`; `lineno` is
the line number after its increment. -/
def line_effect (parse_keymap_entry : List Char → Int → Option keymap_entry)
    (line : List Char) (lineno : Int) : LineEffect :=
  if line = [] then LineEffect.nothing
  else if strncasecmp_eq line "skin:" 5 then
    match sscanf (line.drop 5) " %d,%d,%d,%d" with
    | [ScanValue.int x, ScanValue.int y, ScanValue.int width, ScanValue.int height] =>
      LineEffect.skin ⟨x, y, width, height⟩
    | _ => LineEffect.nothing
  else if strncasecmp_eq line "display:" 8 then
    match sscanf (line.drop 8) " %d,%d %lf %lf %lx %lx" with
    | [ScanValue.int x, ScanValue.int y, ScanValue.dbl xscale, ScanValue.dbl yscale,
        ScanValue.ulong bg, ScanValue.ulong fg] =>
      LineEffect.display ⟨x, y⟩ xscale yscale
        ⟨(bg >>> 16) % 256, (bg >>> 8) % 256, bg % 256⟩
        ⟨(fg >>> 16) % 256, (fg >>> 8) % 256, fg % 256⟩
    | _ => LineEffect.nothing
  else if strncasecmp_eq line "displaysize:" 12 then
    match sscanf (line.drop 12) " %d,%d %d %d %d" with
    | ScanValue.int c :: ScanValue.int r :: more =>
      if c ≥ 22 ∧ r ≥ 2 then LineEffect.displaysize c r more else LineEffect.nothing
    | _ => LineEffect.nothing
  else if strncasecmp_eq line "displayexpansionzone:" 21 then
    match sscanf (line.drop 21) " %d %d" with
    | [ScanValue.int first, ScanValue.int last] => LineEffect.zone first last
    | _ => LineEffect.nothing
  else if strncasecmp_eq line "key:" 4 then
    match parse_key_record (line.drop 4) with
    | some key => LineEffect.key key
    | none => LineEffect.nothing
  else if strncasecmp_eq line "macro:" 6 then
    match parse_macro_record (line.drop 6) with
    | some m => LineEffect.add_macro m
    | none => LineEffect.nothing
  else if strncasecmp_eq line "annunciator:" 12 then
    match sscanf (line.drop 12) " %d %d,%d,%d,%d %d,%d" with
    | [ScanValue.int annnum, ScanValue.int disp_x, ScanValue.int disp_y,
        ScanValue.int disp_width, ScanValue.int disp_height,
        ScanValue.int act_x, ScanValue.int act_y] =>
      if annnum ≥ 1 ∧ annnum ≤ 7 then
        LineEffect.annunciator annnum ⟨⟨disp_x, disp_y, disp_width, disp_height⟩, ⟨act_x, act_y⟩⟩
      else LineEffect.nothing
    | _ => LineEffect.nothing
  else if strncasecmp_eq line "gtkkey:" 7 then
    match parse_keymap_entry (line.drop 7) lineno with
    | some entry => LineEffect.keymap entry
    | none => LineEffect.nothing
  else if strncasecmp_eq line "flags:" 6 then
    match sscanf (line.drop 6) "%d" with
    | [ScanValue.int v] => LineEffect.flags v
    | _ => LineEffect.nothing
  else if strncasecmp_eq line "altbkgd:" 8 then
    match sscanf (line.drop 8) " %d %d,%d,%d,%d %d,%d" with
    | [ScanValue.int mode, ScanValue.int src_x, ScanValue.int src_y,
        ScanValue.int src_width, ScanValue.int src_height,
        ScanValue.int dst_x, ScanValue.int dst_y] =>
      LineEffect.altbkgd ⟨⟨src_x, src_y, src_width, src_height⟩, ⟨dst_x, dst_y⟩, mode⟩
    | _ => LineEffect.nothing
  else if strncasecmp_eq line "altkey:" 7 then
    match sscanf (line.drop 8) " %d %d %d,%d" with
    | [ScanValue.int mode, ScanValue.int code, ScanValue.int src_x, ScanValue.int src_y] =>
      LineEffect.altkey ⟨⟨src_x, src_y⟩, code, mode⟩
    | _ => LineEffect.nothing
  else LineEffect.nothing

/-- The assignments that an effect stands for. -/
def apply_effect (e : LineEffect) (ls : LoadState) : LoadState :=
  match e with
  | LineEffect.nothing => ls
  | LineEffect.skin r => { ls with g := { ls.g with skin := r } }
  | LineEffect.display loc xscale yscale bg fg =>
    { ls with g := { ls.g with
        display_loc := loc
        display_scale_x := xscale
        display_scale_y := yscale
        display_bg := bg
        display_fg := fg } }
  | LineEffect.displaysize c r more =>
    { ls with
      disp_rows := r
      disp_cols := c
      alt_disp_y :=
        match more with
        | ScanValue.int n :: _ => if n ≠ -1 then n else ls.alt_disp_y
        | _ => ls.alt_disp_y
      alt_pixel_height :=
        match more with
        | _ :: ScanValue.int p :: _ => if p ≠ -1 then p else ls.alt_pixel_height
        | _ => ls.alt_pixel_height
      max_r :=
        match more with
        | _ :: _ :: ScanValue.int m :: _ => if m ≠ -1 then m else ls.max_r
        | _ => ls.max_r }
  | LineEffect.zone first last => { ls with dup_first_y := first, dup_last_y := last }
  | LineEffect.key k => { ls with g := { ls.g with keylist := ls.g.keylist ++ [k] } }
  | LineEffect.add_macro m => { ls with g := { ls.g with macrolist := m :: ls.g.macrolist } }
  | LineEffect.annunciator n a =>
    { ls with g := { ls.g with annunciators := ls.g.annunciators.set (n - 1).toNat a } }
  | LineEffect.keymap e => { ls with g := { ls.g with keymap := ls.g.keymap ++ [e] } }
  | LineEffect.flags v => { ls with fl := v }
  | LineEffect.altbkgd b => { ls with g := { ls.g with alt_bak := ls.g.alt_bak ++ [b] } }
  | LineEffect.altkey k => { ls with g := { ls.g with alt_key := ls.g.alt_key ++ [k] } }

/-- The rectangle that a line sets as the skin rectangle, if the line is a valid
`skin:` record. -/
def skin_record (line : List Char) : Option SkinRect :=
  if strncasecmp_eq line "skin:" 5 then
    match sscanf (line.drop 5) " %d,%d,%d,%d" with
    | [ScanValue.int x, ScanValue.int y, ScanValue.int width, ScanValue.int height] =>
      some ⟨x, y, width, height⟩
    | _ => none
  else none

/-- The display origin, scales and colours that a line sets, if the line is a
valid `display:` record. -/
def display_record (line : List Char) : Option (SkinPoint × ℚ × ℚ × SkinColor × SkinColor) :=
  if strncasecmp_eq line "display:" 8 then
    match sscanf (line.drop 8) " %d,%d %lf %lf %lx %lx" with
    | [ScanValue.int x, ScanValue.int y, ScanValue.dbl xscale, ScanValue.dbl yscale,
        ScanValue.ulong bg, ScanValue.ulong fg] =>
      some (⟨x, y⟩, xscale, yscale,
        ⟨(bg >>> 16) % 256, (bg >>> 8) % 256, bg % 256⟩,
        ⟨(fg >>> 16) % 256, (fg >>> 8) % 256, fg % 256⟩)
    | _ => none
  else none

/-- The annunciator number and the annunciator that a line gives, if the line is
an `annunciator:` record with its 7 fields. -/
def annunciator_record (line : List Char) : Option (Int × SkinAnnunciator) :=
  if strncasecmp_eq line "annunciator:" 12 then
    match sscanf (line.drop 12) " %d %d,%d,%d,%d %d,%d" with
    | [ScanValue.int annnum, ScanValue.int disp_x, ScanValue.int disp_y,
        ScanValue.int disp_width, ScanValue.int disp_height,
        ScanValue.int act_x, ScanValue.int act_y] =>
      some (annnum, ⟨⟨disp_x, disp_y, disp_width, disp_height⟩, ⟨act_x, act_y⟩⟩)
    | _ => none
  else none

/-- The description has a valid `annunciator:` record for the slot `n` (1..7). -/
def references_annunciator (lines : List (List Char)) (n : Int) : Prop :=
  ∃ line ∈ lines, ∃ a, annunciator_record line = some (n, a)

/-- The variables of the parse loop other than the skin rectangle, the display
origin, scales and colours, the annunciators and the display bitmap. -/
def load_core (ls : LoadState) :=
  (ls.lineno, ls.disp_rows, ls.disp_cols, ls.fl, ls.alt_disp_y, ls.alt_pixel_height,
    ls.max_r, ls.dup_first_y, ls.dup_last_y,
    ls.g.keylist, ls.g.macrolist, ls.g.alt_bak, ls.g.alt_key, ls.g.keymap)

/-- The display origin, scales and colours. -/
def load_display (ls : LoadState) :=
  (ls.g.display_loc, ls.g.display_scale_x, ls.g.display_scale_y, ls.g.display_bg,
    ls.g.display_fg)

/-- The layout variables other than the skin rectangle and the annunciators. -/
def layout_rebuilt (g : SkinState) :=
  (g.alt_bak, g.alt_key, g.display_loc, g.display_scale_x, g.display_scale_y,
    g.display_scale_int, g.display_bg, g.display_fg, g.keylist, g.macrolist,
    g.disp_r, g.disp_c, g.disp_w, g.disp_h, g.disp_bits, g.disp_bpl, g.keymap)

/-- Two states of the parse loop agree on the variables of `load_core`, on the
skin rectangle if `sk`, on the display variables if `dp` and on the annunciator
slots `i` with `an i`. -/
def same_parse (sk dp : Prop) (an : Nat → Prop) (a b : LoadState) : Prop :=
  load_core a = load_core b
    ∧ (sk → a.g.skin = b.g.skin)
    ∧ (dp → load_display a = load_display b)
    ∧ a.g.annunciators.length = b.g.annunciators.length
    ∧ ∀ i, an i → a.g.annunciators[i]? = b.g.annunciators[i]?

/-- The effect sets the skin rectangle. -/
def sets_skin : LineEffect → Prop
  | LineEffect.skin _ => True
  | _ => False

/-- The effect sets the display variables. -/
def sets_display : LineEffect → Prop
  | LineEffect.display _ _ _ _ _ => True
  | _ => False

/-- The effect sets the annunciator slot with index `i`. -/
def sets_annunciator (e : LineEffect) (i : Nat) : Prop :=
  match e with
  | LineEffect.annunciator n _ => (n - 1).toNat = i
  | _ => False

/-- The layout variables with the display bitmap variables and
`display_scale_int`, which every load assigns, cleared. -/
def clear_assigned (ls : LoadState) : LoadState :=
  { ls with g := { ls.g with
      display_scale_int := false
      disp_r := 0
      disp_c := 0
      disp_w := 0
      disp_h := 0
      disp_bits := []
      disp_bpl := 0 } }

/-! ## Reading lines: `skin_getchar` and `skin_gets` -/

/-- The function `skin_getchar` on the bytes that are left in the open file (or in
the built-in data): the next byte and the bytes left after it, or `none` for `EOF`. -/
def skin_getchar (stream : List Char) : Option Char × List Char :=
  match stream with
  | [] => (none, [])
  | c :: cs => (some c, cs)

/-- The loop of `skin_gets`, with the final value of its variables. `buf` holds the
`p` characters stored so far, `eof` is the local variable of that name (-1, 0 or
1), `comment` is the flag of that name; the result is the text stored in the
buffer, the final `eof` and the bytes left in the stream. -/
def skin_gets_loop (buflen : Int) :
    List Char → List Char → Int → Bool → List Char × Int × List Char
  | [], buf, eof, _ =>
    if (buf.length : Int) < buflen - 1 then (buf, if eof = -1 then 1 else eof, [])
    else (buf, eof, [])
  | c :: cs, buf, eof, comment =>
    if (buf.length : Int) < buflen - 1 then
      if c = '\n' ∨ c = '\r' then (buf, if eof = -1 then 0 else eof, cs)
      else if (comment || c == '#') = true then
        skin_gets_loop buflen cs buf (if eof = -1 then 0 else eof) true
      else if buf.length = 0 ∧ isspace c = true then
        skin_gets_loop buflen cs buf (if eof = -1 then 0 else eof) false
      else
        skin_gets_loop buflen cs (buf ++ [c]) (if eof = -1 then 0 else eof) false
    else (buf, eof, c :: cs)

/-- The call `skin_gets(buf, buflen)`: the text stored in `buf` before the
terminating NUL, the value returned (`p > 1 || !eof`, as a truth value) and the
bytes left in the stream. -/
def skin_gets (stream : List Char) (buflen : Int) : List Char × Bool × List Char :=
  match skin_gets_loop buflen stream [] (-1) false with
  | (buf, eof, rest) => (buf, decide (buf.length + 1 > 1) || decide (eof = 0), rest)

/-- The bytes that follow a line in the stream: nothing (end of the stream) or a
line terminator and the rest. -/
def line_end (rest : List Char) : Prop :=
  rest = [] ∨ ∃ t tail, rest = t :: tail ∧ (t = '\n' ∨ t = '\r')

/-- The text of a line as the description format defines it: the characters that
precede the first `#`, without the leading white space. -/
def line_text (line : List Char) : List Char :=
  (line.takeWhile (fun c => c != '#')).dropWhile isspace

/-- The text held by the buffer of `skin_gets` after the bytes `line` were read:
`buf` was stored before them and `comment` is the flag before them. -/
def stored_text (buf : List Char) (comment : Bool) (line : List Char) : List Char :=
  buf ++ (if comment = true then []
    else if buf = [] then line_text line
    else line.takeWhile (fun c => c != '#'))

/-- The array `buf` of the caller after the call `skin_gets(buf, buflen)`: the
stored characters from index 0 on, the NUL that `buf[p++] = 0` writes after them,
and behind it what the array `old` held before the call. -/
def skin_gets_buf (old : List Char) (stream : List Char) (buflen : Int) : List Char :=
  ((skin_gets stream buflen).1 ++ [Char.ofNat 0])
    ++ old.drop ((skin_gets stream buflen).1.length + 1)

/-! ## The display bitmap -/

/-- The values `lo, lo + 1, ..., lo + n - 1` that the variable of a loop
`for (i = lo; i < lo + n; i++)` takes, in order. -/
def int_range (lo n : Int) : List Int :=
  (List.range n.toNat).map (fun (i : Nat) => lo + Int.ofNat i)

/-- The dots `(h, v)` that the nested loops `for (v = y; v < y + height; v++)
for (h = x; h < x + width; h++)` visit, in order. -/
def rect_dots (x y width height : Int) : List (Int × Int) :=
  (int_range y height).flatMap (fun v => (int_range x width).map (fun h => (h, v)))

/-- The byte `mem[i]` of a byte array. A read outside of the array is not defined
in C; here it gives 0. -/
def byte_at (mem : List Nat) (i : Int) : Nat :=
  if i < 0 then 0 else mem.getD i.toNat 0

/-- The store `mem[i] = b` into a byte array. A store outside of the array is not
defined in C; here it leaves the array as it is. -/
def byte_store (mem : List Nat) (i : Int) (b : Nat) : List Nat :=
  if i < 0 then mem else mem.set i.toNat b

/-- The mask `1 << (h & 7)` of the dot column `h`. -/
def dot_mask (h : Int) : Nat :=
  1 <<< (h % 8).toNat

/-- The index `v * bytesperline + (h >> 3)` of the byte that holds the dot
`(h, v)` in a bitmap with `bytesperline` bytes per line. -/
def dot_index (bytesperline h v : Int) : Int :=
  v * bytesperline + (h >>> 3)

/-- The test `(bits[v * bytesperline + (h >> 3)] & (1 << (h & 7))) != 0`. -/
def dot_bit (bits : List Nat) (bytesperline h v : Int) : Bool :=
  (byte_at bits (dot_index bytesperline h v) &&& dot_mask h) != 0

/-- The body of the loops of `skin_display_invalidater` for the dot `d = (h, v)`:
`disp_bits[...] |= 1 << (h & 7)` when the dot is set in `bits`, and
`disp_bits[...] &= ~(1 << (h & 7))` when it is not. The byte `b & ~m` is written
`b ^^^ (b &&& m)`: the bits of `b` that are not in `m`. -/
def invalidate_dot (bits : List Nat) (bytesperline disp_bpl : Int) (disp_bits : List Nat)
    (d : Int × Int) : List Nat :=
  if dot_bit bits bytesperline d.1 d.2 = true then
    byte_store disp_bits (dot_index disp_bpl d.1 d.2)
      (byte_at disp_bits (dot_index disp_bpl d.1 d.2) ||| dot_mask d.1)
  else
    byte_store disp_bits (dot_index disp_bpl d.1 d.2)
      (byte_at disp_bits (dot_index disp_bpl d.1 d.2)
        ^^^ (byte_at disp_bits (dot_index disp_bpl d.1 d.2) &&& dot_mask d.1))

/-- The function `skin_display_invalidater`, as far as the layout state goes: the
loops that copy the rectangle from `bits` to `disp_bits`. The requests to redraw the
window that follow them change no variable of this file. -/
def skin_display_invalidater (g : SkinState) (bits : List Nat)
    (bytesperline x y width height : Int) : SkinState :=
  { g with
    disp_bits := (rect_dots x y width height).foldl
      (invalidate_dot bits bytesperline g.disp_bpl) g.disp_bits }

/-- The display bitmap is as `skin_load` builds it: `disp_bpl` is
`(disp_w + 7) >> 3` and `disp_bits` has `disp_bpl * disp_h` bytes. -/
def display_bitmap_ok (g : SkinState) : Prop :=
  0 ≤ g.disp_w ∧ 0 ≤ g.disp_h ∧ g.disp_bpl = (g.disp_w + 7) >>> 3
    ∧ (g.disp_bits.length : Int) = g.disp_bpl * g.disp_h

/-! ## Painting -/

/-- The calls that the paint functions make on the cairo context `cr`, with their
arguments; `set_source_pixbuf` is `gdk_cairo_set_source_pixbuf(cr, skin_image, x, y)`. -/
inductive CairoOp where
  | save
  | restore
  | translate (tx ty : ℚ)
  | scale (sx sy : ℚ)
  | rectangle (x y width height : Int)
  | clip
  | set_source_rgb (r g b : ℚ)
  | set_source_pixbuf (x y : Int)
  | paint
  | fill
  deriving DecidableEq

/-- The function `skin_repaint_display`: the calls it makes on the cairo context.
`display_enabled` is the static variable of that name. -/
def skin_repaint_display (g : SkinState) (display_enabled : Bool) : List CairoOp :=
  if display_enabled = false then []
  else
    [CairoOp.save,
      CairoOp.translate g.display_loc.x g.display_loc.y,
      CairoOp.scale g.display_scale_x g.display_scale_y,
      CairoOp.rectangle (-1) (-1) (g.disp_w + 2) (g.disp_h + 2),
      CairoOp.clip,
      CairoOp.set_source_rgb ((g.display_bg.r : ℚ) / 255) ((g.display_bg.g : ℚ) / 255)
        ((g.display_bg.b : ℚ) / 255),
      CairoOp.paint,
      CairoOp.set_source_rgb ((g.display_fg.r : ℚ) / 255) ((g.display_fg.g : ℚ) / 255)
        ((g.display_fg.b : ℚ) / 255)]
    ++ (rect_dots 0 0 g.disp_w g.disp_h).flatMap (fun d =>
        if dot_bit g.disp_bits g.disp_bpl d.1 d.2 = true then
          [CairoOp.rectangle d.1 d.2 1 1, CairoOp.fill]
        else [])
    ++ [CairoOp.restore]

/-- The rectangle `x, y, width, height` of dots that `skin_repaint_key` computes for
the soft key with the handle `key` (-7..-2). -/
def soft_key_rect (g : SkinState) (key : Int) : SkinRect :=
  let key := -1 - key
  { x := (key - 1) * g.disp_c
    y := g.disp_h - 7
    width := g.disp_c - 1
    height := 7 }

/-- The soft key branch of `skin_repaint_key`, after the test of `display_enabled`.
The dot loop reads `disp_bits[v * 17 + (h >> 3)]`. -/
def skin_repaint_soft_key (g : SkinState) (key : Int) (state : Bool) : List CairoOp :=
  let r := soft_key_rect g key
  [CairoOp.save,
    CairoOp.translate g.display_loc.x g.display_loc.y,
    CairoOp.scale g.display_scale_x g.display_scale_y,
    CairoOp.rectangle r.x r.y r.width r.height,
    CairoOp.clip,
    CairoOp.set_source_rgb ((g.display_bg.r : ℚ) / 255) ((g.display_bg.g : ℚ) / 255)
      ((g.display_bg.b : ℚ) / 255),
    CairoOp.paint,
    CairoOp.set_source_rgb ((g.display_fg.r : ℚ) / 255) ((g.display_fg.g : ℚ) / 255)
      ((g.display_fg.b : ℚ) / 255)]
  ++ (rect_dots r.x r.y r.width r.height).flatMap (fun d =>
      if dot_bit g.disp_bits 17 d.1 d.2 ≠ state then
        [CairoOp.rectangle d.1 d.2 1 1, CairoOp.fill]
      else [])
  ++ [CairoOp.restore]

/-- The loop over `alt_key` in `skin_repaint_key`: the source point of the first
overlay with the active mode and the code of the key, or the source point so far. -/
def alt_key_src (skin_mode code : Int) (src : SkinPoint) : List AltKey → SkinPoint
  | [] => src
  | ak :: rest =>
    if ak.mode = skin_mode ∧ ak.code = code then ak.src
    else alt_key_src skin_mode code src rest

/-- The test of the loop over `alt_bak` in `skin_repaint_key`. -/
def alt_bak_applies (skin_mode : Int) (k : SkinKey) (ab : AltBackground) : Bool :=
  decide (ab.mode = skin_mode)
    && decide (k.disp_rect.x ≥ ab.dst.x) && decide (k.disp_rect.x < ab.dst.x + ab.src_rect.width)
    && decide (k.disp_rect.y ≥ ab.dst.y) && decide (k.disp_rect.y < ab.dst.y + ab.src_rect.height)

/-- The loop over `alt_bak` in `skin_repaint_key`. -/
def repaint_alt_bak (g : SkinState) (skin_mode : Int) (k : SkinKey) :
    List AltBackground → List CairoOp
  | [] => []
  | ab :: rest =>
    (if alt_bak_applies skin_mode k ab = true then
      [CairoOp.set_source_pixbuf (k.disp_rect.x - ab.dst.x + ab.src_rect.x - g.skin.x)
          (k.disp_rect.y - ab.dst.y + ab.src_rect.y - g.skin.y),
        CairoOp.paint]
    else [])
    ++ repaint_alt_bak g skin_mode k rest

/-- The function `skin_repaint_key`: the calls it makes on the cairo context.
`display_enabled` and `skin_mode` are the static variables of those names. -/
def skin_repaint_key (g : SkinState) (display_enabled : Bool) (skin_mode : Int) (key : Int)
    (state : Bool) : List CairoOp :=
  if key ≥ -7 ∧ key ≤ -2 then
    if display_enabled = false then [] else skin_repaint_soft_key g key state
  else if key < 0 ∨ key ≥ (g.nkeys : Int) then []
  else
    match g.keylist[key.toNat]? with
    | none => []
    | some k =>
      [CairoOp.save,
        CairoOp.rectangle k.disp_rect.x k.disp_rect.y k.disp_rect.width k.disp_rect.height,
        CairoOp.clip]
      ++ (if state = true then
          let s := if skin_mode ≠ 0 then alt_key_src skin_mode k.code k.src g.alt_key else k.src
          [CairoOp.set_source_pixbuf (k.disp_rect.x - s.x - g.skin.x)
              (k.disp_rect.y - s.y - g.skin.y),
            CairoOp.paint]
        else
          [CairoOp.set_source_pixbuf (-g.skin.x) (-g.skin.y), CairoOp.paint]
          ++ (if skin_mode ≠ 0 then repaint_alt_bak g skin_mode k g.alt_bak else []))
      ++ [CairoOp.restore]

/-! ## The skin image -/

/-- Modelled from the spec: the encodings of a scanline (1-bit monochrome, 8-bit
grayscale, 8-bit palette-indexed, 24-bit truecolor). The constant `IMGTYPE_MONO` of
`shell_loadimage.h`, which is not among the sources. -/
def IMGTYPE_MONO : Int := 1

/-- Modelled from the spec: the constant `IMGTYPE_GRAY` of `shell_loadimage.h`. -/
def IMGTYPE_GRAY : Int := 2

/-- Modelled from the spec: the constant `IMGTYPE_COLORMAPPED` of
`shell_loadimage.h`. -/
def IMGTYPE_COLORMAPPED : Int := 3

/-- Modelled from the spec: the constant `IMGTYPE_TRUECOLOR` of
`shell_loadimage.h`. -/
def IMGTYPE_TRUECOLOR : Int := 4

/-- A `GdkPixbuf` with three 8-bit samples per pixel: its width, height and
rowstride and its array of pixel bytes. -/
structure Pixbuf where
  width : Int
  height : Int
  rowstride : Int
  pixels : List Nat
  deriving DecidableEq

/-- The call `gdk_pixbuf_new(GDK_COLORSPACE_RGB, FALSE, 8, width, height)`: no
pixbuf when a dimension is not positive; otherwise rows of `3 * width` bytes padded
to a multiple of 4. The library leaves the pixel bytes undefined; here they are 0. -/
def gdk_pixbuf_new (width height : Int) : Option Pixbuf :=
  if width ≤ 0 ∨ height ≤ 0 then none
  else
    some
      { width := width
        height := height
        rowstride := (width * 3 + 3) / 4 * 4
        pixels := List.replicate ((width * 3 + 3) / 4 * 4 * height).toNat 0 }

/-- The static variables `skin_image`, `skin_y`, `skin_type` and `skin_cmap`. -/
structure ImageState where
  skin_image : Option Pixbuf
  skin_y : Int
  skin_type : Int
  skin_cmap : List SkinColor
  deriving DecidableEq

/-- The function `skin_init_image`: the new state and the value returned. -/
def skin_init_image (type _ncolors : Int) (colors : List SkinColor) (width height : Int) :
    ImageState × Int :=
  ({ skin_image := gdk_pixbuf_new width height
     skin_y := 0
     skin_type := type
     skin_cmap := colors }, 1)

/-- The three stores `*p++ = r; *p++ = g; *p++ = b;` on the pixel array and the
pointer `p`, kept as an index into the array. -/
def put_rgb (s : List Nat × Int) (r g b : Nat) : List Nat × Int :=
  (byte_store (byte_store (byte_store s.1 s.2 r) (s.2 + 1) g) (s.2 + 2) b, s.2 + 3)

/-- The body of the loop of `skin_put_pixels` for `IMGTYPE_MONO`. -/
def put_pixel_mono (data : List Nat) (s : List Nat × Int) (x : Nat) : List Nat × Int :=
  let c : Nat := if (data.getD (x >>> 3) 0 &&& (1 <<< (x &&& 7))) = 0 then 0 else 255
  put_rgb s c c c

/-- The body of the loop of `skin_put_pixels` for `IMGTYPE_GRAY`. -/
def put_pixel_gray (data : List Nat) (s : List Nat × Int) (x : Nat) : List Nat × Int :=
  let c : Nat := data.getD x 0
  put_rgb s c c c

/-- The body of the loop of `skin_put_pixels` for `IMGTYPE_COLORMAPPED`. -/
def put_pixel_colormapped (skin_cmap : List SkinColor) (data : List Nat) (s : List Nat × Int)
    (x : Nat) : List Nat × Int :=
  let c : Nat := data.getD x 0
  put_rgb s (skin_cmap.getD c ⟨0, 0, 0⟩).r (skin_cmap.getD c ⟨0, 0, 0⟩).g
    (skin_cmap.getD c ⟨0, 0, 0⟩).b

/-- The body of the last loop of `skin_put_pixels` (truecolor); the state holds the
counter `xx` as well. -/
def put_pixel_truecolor (data : List Nat) (s : (List Nat × Int) × Nat) (_x : Nat) :
    (List Nat × Int) × Nat :=
  (put_rgb s.1 (data.getD s.2 0) (data.getD (s.2 + 1) 0) (data.getD (s.2 + 2) 0), s.2 + 3)

/-- The function `skin_put_pixels`. Without a pixbuf the library calls give no
pixels and the width -1, so that only `skin_y` changes. -/
def skin_put_pixels (data : List Nat) (st : ImageState) : ImageState :=
  match st.skin_image with
  | none => { st with skin_y := st.skin_y + 1 }
  | some img =>
    let p : Int := st.skin_y * img.rowstride
    let xs := List.range img.width.toNat
    let pix : List Nat :=
      if st.skin_type = IMGTYPE_MONO then
        (xs.foldl (put_pixel_mono data) (img.pixels, p)).1
      else if st.skin_type = IMGTYPE_GRAY then
        (xs.foldl (put_pixel_gray data) (img.pixels, p)).1
      else if st.skin_type = IMGTYPE_COLORMAPPED then
        (xs.foldl (put_pixel_colormapped st.skin_cmap data) (img.pixels, p)).1
      else
        (xs.foldl (put_pixel_truecolor data) ((img.pixels, p), 0)).1.1
    { st with skin_image := some { img with pixels := pix }, skin_y := st.skin_y + 1 }

/-- The three bytes of the pixel `x` of the row `row` of a pixbuf. -/
def pixel_rgb (img : Pixbuf) (x row : Int) : Nat × Nat × Nat :=
  (byte_at img.pixels (row * img.rowstride + x * 3),
    byte_at img.pixels (row * img.rowstride + x * 3 + 1),
    byte_at img.pixels (row * img.rowstride + x * 3 + 2))

/-- The three bytes that the spec gives to the pixel `x` of a scanline `data` of the
encoding `type`. -/
def scanline_rgb (type : Int) (cmap : List SkinColor) (data : List Nat) (x : Nat) :
    Nat × Nat × Nat :=
  if type = IMGTYPE_MONO then
    if Nat.testBit (data.getD (x / 8) 0) (x % 8) = false then (0, 0, 0) else (255, 255, 255)
  else if type = IMGTYPE_GRAY then (data.getD x 0, data.getD x 0, data.getD x 0)
  else if type = IMGTYPE_COLORMAPPED then
    ((cmap.getD (data.getD x 0) ⟨0, 0, 0⟩).r, (cmap.getD (data.getD x 0) ⟨0, 0, 0⟩).g,
      (cmap.getD (data.getD x 0) ⟨0, 0, 0⟩).b)
  else (data.getD (3 * x) 0, data.getD (3 * x + 1) 0, data.getD (3 * x + 2) 0)

/-- The stored Y coordinates of a layout, the ones that the block `Fix coordinates`
of `skin_load` visits: of the annunciators (display rectangle, source), of the keys
(sensitive rectangle, display rectangle, source), of the alternate backgrounds
(source rectangle, destination) and of the alternate keys (source). -/
def stored_ys (g : SkinState) : List Int :=
  g.annunciators.flatMap (fun a => [a.disp_rect.y, a.src.y])
    ++ g.keylist.flatMap (fun k => [k.sens_rect.y, k.disp_rect.y, k.src.y])
    ++ g.alt_bak.flatMap (fun b => [b.src_rect.y, b.dst.y])
    ++ g.alt_key.flatMap (fun k => [k.src.y])

/-- The bit `j` of the byte `i` of a byte array. -/
def bit_at (mem : List Nat) (i j : Nat) : Bool :=
  Nat.testBit (mem.getD i 0) j

/-- The place of a dot in a bitmap with `bpl` bytes per line: the index of its byte
and the number of its bit in that byte. -/
def dot_loc (bpl : Int) (d : Int × Int) : Nat × Nat :=
  ((dot_index bpl d.1 d.2).toNat, (d.1 % 8).toNat)

/-- The state of the image variables after `skin_init_image` and `n` calls of
`skin_put_pixels`: a pixbuf of the size asked for, whose pixel array has
`rowstride * height` bytes, and the row cursor `n`. -/
def image_rows (type : Int) (colors : List SkinColor) (width height : Int) (n : Nat)
    (st : ImageState) : Prop :=
  st.skin_y = (n : Int) ∧ st.skin_type = type ∧ st.skin_cmap = colors
    ∧ ∃ img, st.skin_image = some img ∧ img.width = width ∧ img.height = height
      ∧ img.rowstride = (width * 3 + 3) / 4 * 4
      ∧ (img.pixels.length : Int) = img.rowstride * img.height

/-! ## Keymap lookup -/

theorem keymap_match_iff (keyval : Nat) (printable ctrl alt shift : Bool) (e : keymap_entry) :
    keymap_match keyval printable ctrl alt shift e = true ↔
      (e.ctrl = ctrl ∧ e.alt = alt ∧ e.keyval = keyval ∧ (printable = true ∨ e.shift = shift)) := by
  unfold keymap_match
  simp only [Bool.and_eq_true, Bool.or_eq_true, beq_iff_eq]
  constructor
  · rintro ⟨⟨⟨h1, h2⟩, h3⟩, h4⟩
    exact ⟨h1.symm, h2.symm, h4.symm, h3.imp id Eq.symm⟩
  · rintro ⟨h1, h2, h3, h4⟩
    exact ⟨⟨⟨h1.symm, h2.symm⟩, h4.imp id Eq.symm⟩, h3.symm⟩

/-- Entries that are not exact matches only change the remembered fallback. -/
theorem keymap_loop_skip (keyval : Nat) (printable ctrl alt shift cshift : Bool)
    (pre rest : List keymap_entry)
    (hpre : ∀ x ∈ pre, ¬ keymap_exact keyval printable ctrl alt shift cshift x)
    (found : Option (List Nat)) :
    ∃ found2, skin_keymap_lookup_loop keyval printable ctrl alt shift cshift (pre ++ rest) found
      = skin_keymap_lookup_loop keyval printable ctrl alt shift cshift rest found2 := by
  induction pre generalizing found with
  | nil => exact ⟨found, rfl⟩
  | cons a pre ih =>
    have hpre2 : ∀ x ∈ pre, ¬ keymap_exact keyval printable ctrl alt shift cshift x :=
      fun x hx => hpre x (List.mem_cons_of_mem _ hx)
    have ha := hpre a (List.mem_cons_self _ _)
    simp only [List.cons_append, skin_keymap_lookup_loop]
    by_cases hm : keymap_match keyval printable ctrl alt shift a = true
    · have hc : ¬ cshift = a.cshift := by
        intro hc
        obtain ⟨h1, h2, h3, h4⟩ := (keymap_match_iff _ _ _ _ _ _).1 hm
        exact ha ⟨h1, h2, h3, h4, hc.symm⟩
      rw [if_pos hm, if_neg hc]
      exact ih hpre2 _
    · rw [if_neg hm]
      exact ih hpre2 _

/-- Without a fallback candidate (or with the computed shift off) and without an
exact match the loop returns the fallback it started with. -/
theorem keymap_loop_none (keyval : Nat) (printable ctrl alt shift cshift : Bool)
    (l : List keymap_entry)
    (hno : ∀ x ∈ l, ¬ keymap_exact keyval printable ctrl alt shift cshift x)
    (hc : cshift = false ∨ ∀ x ∈ l, ¬ keymap_fallback keyval printable ctrl alt shift x)
    (found : Option (List Nat)) :
    skin_keymap_lookup_loop keyval printable ctrl alt shift cshift l found = (found, false) := by
  induction l generalizing found with
  | nil => rfl
  | cons a l ih =>
    have hno2 : ∀ x ∈ l, ¬ keymap_exact keyval printable ctrl alt shift cshift x :=
      fun x hx => hno x (List.mem_cons_of_mem _ hx)
    have hc2 : cshift = false ∨ ∀ x ∈ l, ¬ keymap_fallback keyval printable ctrl alt shift x :=
      hc.imp id (fun h x hx => h x (List.mem_cons_of_mem _ hx))
    have ha := hno a (List.mem_cons_self _ _)
    simp only [skin_keymap_lookup_loop]
    by_cases hm : keymap_match keyval printable ctrl alt shift a = true
    · obtain ⟨h1, h2, h3, h4⟩ := (keymap_match_iff _ _ _ _ _ _).1 hm
      have hne : ¬ cshift = a.cshift := fun h => ha ⟨h1, h2, h3, h4, h.symm⟩
      rw [if_pos hm, if_neg hne]
      have hcs : cshift = false := by
        rcases hc with hc | hc
        · exact hc
        · have hf : ¬ a.cshift = false := fun h =>
            hc a (List.mem_cons_self _ _) ⟨h1, h2, h3, h4, h⟩
          cases hcv : cshift
          · rfl
          · exfalso
            apply hne
            rw [hcv]
            cases hav : a.cshift
            · exact absurd hav hf
            · rfl
      rw [hcs] at ih ⊢
      simpa using ih (by simpa [hcs] using hno2) (Or.inl rfl) found
    · rw [if_neg hm]
      exact ih hno2 hc2 found

/-- C1: if some entry of the keymap table is an exact match of the query (equal
ctrl, alt and key value, a printable key or equal shift, equal computed shift),
`skin_keymap_lookup` returns the payload of the first such entry in stored order
with `exact = true`, whatever entries precede it. -/
theorem skin_keymap_lookup_first_exact (s : SkinState) (keyval : Nat)
    (printable ctrl alt shift cshift : Bool) (pre post : List keymap_entry) (e : keymap_entry)
    (hs : s.keymap = pre ++ e :: post)
    (hpre : ∀ x ∈ pre, ¬ keymap_exact keyval printable ctrl alt shift cshift x)
    (he : keymap_exact keyval printable ctrl alt shift cshift e) :
    skin_keymap_lookup s keyval printable ctrl alt shift cshift = (some e.macro_, true) := by
  unfold skin_keymap_lookup
  rw [hs]
  obtain ⟨found2, h2⟩ :=
    keymap_loop_skip keyval printable ctrl alt shift cshift pre (e :: post) hpre none
  rw [h2]
  obtain ⟨h1, h2, h3, h4, h5⟩ := he
  have hm : keymap_match keyval printable ctrl alt shift e = true :=
    (keymap_match_iff _ _ _ _ _ _).2 ⟨h1, h2, h3, h4⟩
  simp only [skin_keymap_lookup_loop]
  rw [if_pos hm, if_pos h5.symm]

/-- C1 at the scenario of the specification: the second entry differs from the
first only in its computed shift and is returned as an exact match. -/
theorem skin_keymap_lookup_first_exact_witness :
    (∀ x ∈ [(⟨false, false, false, false, 65, [1]⟩ : keymap_entry)],
        ¬ keymap_exact 65 false false false false true x)
      ∧ keymap_exact 65 false false false false true ⟨false, false, false, true, 65, [2]⟩
      ∧ skin_keymap_lookup
          { SkinState.initial with
            keymap := [⟨false, false, false, false, 65, [1]⟩, ⟨false, false, false, true, 65, [2]⟩] }
          65 false false false false true = (some [2], true) :=
  ⟨by decide, by decide,
    skin_keymap_lookup_first_exact _ 65 false false false false true
      [⟨false, false, false, false, 65, [1]⟩] [] ⟨false, false, false, true, 65, [2]⟩
      rfl (by decide) (by decide)⟩

/-- C2: when no entry of the keymap table is an exact match of the query,
`skin_keymap_lookup` sets `exact = false`; with the computed shift of the query on
it returns the payload of the last entry in stored order that matches on ctrl,
alt, key value and (printable or shift) and has its computed shift off; it returns
NULL when there is no such entry, and for every query with the computed shift
off. -/
theorem skin_keymap_lookup_fallback (s : SkinState) (keyval : Nat)
    (printable ctrl alt shift cshift : Bool)
    (hno : ∀ x ∈ s.keymap, ¬ keymap_exact keyval printable ctrl alt shift cshift x) :
    (skin_keymap_lookup s keyval printable ctrl alt shift cshift).2 = false
      ∧ (cshift = false →
          (skin_keymap_lookup s keyval printable ctrl alt shift cshift).1 = none)
      ∧ ((∀ x ∈ s.keymap, ¬ keymap_fallback keyval printable ctrl alt shift x) →
          (skin_keymap_lookup s keyval printable ctrl alt shift cshift).1 = none)
      ∧ (cshift = true → ∀ (pre post : List keymap_entry) (e : keymap_entry),
          s.keymap = pre ++ e :: post →
          keymap_fallback keyval printable ctrl alt shift e →
          (∀ x ∈ post, ¬ keymap_fallback keyval printable ctrl alt shift x) →
          (skin_keymap_lookup s keyval printable ctrl alt shift cshift).1 = some e.macro_) := by
  have hsnd : ∀ (l : List keymap_entry) (found : Option (List Nat)),
      (∀ x ∈ l, ¬ keymap_exact keyval printable ctrl alt shift cshift x) →
      (skin_keymap_lookup_loop keyval printable ctrl alt shift cshift l found).2 = false := by
    intro l
    induction l with
    | nil => intro found _; rfl
    | cons a l ih =>
      intro found h
      have h2 : ∀ x ∈ l, ¬ keymap_exact keyval printable ctrl alt shift cshift x :=
        fun x hx => h x (List.mem_cons_of_mem _ hx)
      have ha := h a (List.mem_cons_self _ _)
      simp only [skin_keymap_lookup_loop]
      by_cases hm : keymap_match keyval printable ctrl alt shift a = true
      · obtain ⟨h1, h2', h3, h4⟩ := (keymap_match_iff _ _ _ _ _ _).1 hm
        have hne : ¬ cshift = a.cshift := fun h => ha ⟨h1, h2', h3, h4, h.symm⟩
        rw [if_pos hm, if_neg hne]
        exact ih _ h2
      · rw [if_neg hm]
        exact ih _ h2
  refine ⟨hsnd _ _ hno, ?_, ?_, ?_⟩
  · intro hc
    unfold skin_keymap_lookup
    rw [keymap_loop_none keyval printable ctrl alt shift cshift s.keymap hno (Or.inl hc) none]
  · intro hc
    unfold skin_keymap_lookup
    rw [keymap_loop_none keyval printable ctrl alt shift cshift s.keymap hno (Or.inr hc) none]
  · intro hc pre post e hs he hpost
    unfold skin_keymap_lookup
    rw [hs] at hno ⊢
    have hpre : ∀ x ∈ pre, ¬ keymap_exact keyval printable ctrl alt shift cshift x :=
      fun x hx => hno x (List.mem_append_left _ hx)
    have hpost2 : ∀ x ∈ post, ¬ keymap_exact keyval printable ctrl alt shift cshift x :=
      fun x hx => hno x (List.mem_append_right _ (List.mem_cons_of_mem _ hx))
    obtain ⟨found2, h2⟩ :=
      keymap_loop_skip keyval printable ctrl alt shift cshift pre (e :: post) hpre none
    rw [h2]
    obtain ⟨h1, h2', h3, h4, h5⟩ := he
    have hm : keymap_match keyval printable ctrl alt shift e = true :=
      (keymap_match_iff _ _ _ _ _ _).2 ⟨h1, h2', h3, h4⟩
    have hne : ¬ cshift = e.cshift := by rw [hc, h5]; decide
    simp only [skin_keymap_lookup_loop]
    rw [if_pos hm, if_neg hne,
      keymap_loop_none keyval printable ctrl alt shift cshift post hpost2 (Or.inr hpost) _, hc]
    rfl

/-- C2 at the scenario of the specification: a single entry with the computed
shift off, queried with the computed shift on, is returned as a fallback. -/
theorem skin_keymap_lookup_fallback_witness :
    (∀ x ∈ [(⟨false, false, false, false, 65, [1]⟩ : keymap_entry)],
        ¬ keymap_exact 65 false false false false true x)
      ∧ skin_keymap_lookup
          { SkinState.initial with keymap := [⟨false, false, false, false, 65, [1]⟩] }
          65 false false false false true = (some [1], false) :=
  ⟨by decide, by
    have h := skin_keymap_lookup_fallback
      { SkinState.initial with keymap := [⟨false, false, false, false, 65, [1]⟩] }
      65 false false false false true (by decide)
    exact Prod.ext (h.2.2.2 rfl [] [] _ rfl (by decide) (by decide)) h.1⟩

/-! ## Pointer hit test -/

theorem sens_hit_iff (x y : Int) (k : SkinKey) :
    sens_hit x y k = true ↔ in_sens_rect x y k := by
  unfold sens_hit in_sens_rect
  simp only [Bool.and_eq_true, decide_eq_true_eq]
  constructor
  · rintro ⟨⟨⟨h1, h2⟩, h3⟩, h4⟩
    exact ⟨by omega, by omega, by omega, by omega⟩
  · rintro ⟨h1, h2, h3, h4⟩
    exact ⟨⟨⟨by omega, by omega⟩, by omega⟩, by omega⟩

/-- The key loop returns the first index whose sensitive rectangle has the point. -/
theorem skin_find_key_loop_first (x y : Int) (cshift : Bool) (l : List SkinKey) (i0 i : Nat)
    (k : SkinKey) (hk : l[i]? = some k) (hin : in_sens_rect x y k)
    (hmin : ∀ j k2, j < i → l[j]? = some k2 → ¬ in_sens_rect x y k2) :
    skin_find_key_loop x y cshift l i0
      = (((i0 + i : Nat) : Int), if cshift then k.shifted_code else k.code) := by
  induction l generalizing i0 i with
  | nil => simp at hk
  | cons a l ih =>
    cases i with
    | zero =>
      simp only [List.getElem?_cons_zero, Option.some.injEq] at hk
      subst hk
      simp only [skin_find_key_loop]
      rw [if_pos ((sens_hit_iff x y a).2 hin)]
      rfl
    | succ i =>
      have ha : ¬ sens_hit x y a = true := fun h =>
        hmin 0 a (Nat.succ_pos i) (by simp) ((sens_hit_iff x y a).1 h)
      simp only [skin_find_key_loop]
      rw [if_neg ha]
      rw [ih (i0 + 1) i (by simpa using hk)
        (fun j k2 hj hk2 => hmin (j + 1) k2 (Nat.succ_lt_succ hj) (by simpa using hk2))]
      congr 2
      omega

/-- The key loop finds nothing when no sensitive rectangle has the point. -/
theorem skin_find_key_loop_none (x y : Int) (cshift : Bool) (l : List SkinKey) (i0 : Nat)
    (hno : ∀ k ∈ l, ¬ in_sens_rect x y k) :
    skin_find_key_loop x y cshift l i0 = (-1, 0) := by
  induction l generalizing i0 with
  | nil => rfl
  | cons a l ih =>
    have ha : ¬ sens_hit x y a = true := fun h =>
      hno a (List.mem_cons_self _ _) ((sens_hit_iff x y a).1 h)
    simp only [skin_find_key_loop]
    rw [if_neg ha]
    exact ih (i0 + 1) (fun k hk => hno k (List.mem_cons_of_mem _ hk))

/-- The loop of `skin_find_skey` returns the first index with the code. -/
theorem skin_find_skey_loop_first (ckey : Int) (l : List SkinKey) (i0 i : Nat) (k : SkinKey)
    (hk : l[i]? = some k) (hin : k.code = ckey ∨ k.shifted_code = ckey)
    (hmin : ∀ j k2, j < i → l[j]? = some k2 → ¬ (k2.code = ckey ∨ k2.shifted_code = ckey)) :
    skin_find_skey_loop ckey l i0 = ((i0 + i : Nat) : Int) := by
  induction l generalizing i0 i with
  | nil => simp at hk
  | cons a l ih =>
    cases i with
    | zero =>
      simp only [List.getElem?_cons_zero, Option.some.injEq] at hk
      subst hk
      simp only [skin_find_skey_loop]
      rw [if_pos hin]
      rfl
    | succ i =>
      have ha : ¬ (a.code = ckey ∨ a.shifted_code = ckey) :=
        hmin 0 a (Nat.succ_pos i) (by simp)
      simp only [skin_find_skey_loop]
      rw [if_neg ha]
      rw [ih (i0 + 1) i (by simpa using hk)
        (fun j k2 hj hk2 => hmin (j + 1) k2 (Nat.succ_lt_succ hj) (by simpa using hk2))]
      congr 1
      omega

/-- The loop of `skin_find_skey` returns -1 or an index of the table that has the
code. -/
theorem skin_find_skey_loop_range (ckey : Int) (l : List SkinKey) (i0 : Nat) :
    (skin_find_skey_loop ckey l i0 = -1
        ∧ ∀ k ∈ l, ¬ (k.code = ckey ∨ k.shifted_code = ckey))
      ∨ (∃ i k, l[i]? = some k ∧ (k.code = ckey ∨ k.shifted_code = ckey)
          ∧ skin_find_skey_loop ckey l i0 = ((i0 + i : Nat) : Int)) := by
  induction l generalizing i0 with
  | nil => exact Or.inl ⟨rfl, fun k hk => by simp at hk⟩
  | cons a l ih =>
    simp only [skin_find_skey_loop]
    by_cases ha : a.code = ckey ∨ a.shifted_code = ckey
    · rw [if_pos ha]
      exact Or.inr ⟨0, a, by simp, ha, rfl⟩
    · rw [if_neg ha]
      rcases ih (i0 + 1) with ⟨h1, h2⟩ | ⟨i, k, h1, h2, h3⟩
      · refine Or.inl ⟨h1, fun k hk => ?_⟩
        rcases List.mem_cons.1 hk with rfl | hk
        · exact ha
        · exact h2 k hk
      · refine Or.inr ⟨i + 1, k, by simpa using h1, h2, ?_⟩
        rw [h3]
        congr 1
        omega

/-- C6: `skin_find_skey` returns the smallest index of a key whose unshifted or
shifted code is the queried code; it returns -1 if and only if no key has the
code; a result that is not negative is smaller than `nkeys`. -/
theorem skin_find_skey_first (s : SkinState) (ckey : Int) :
    (∀ (i : Nat) (k : SkinKey), s.keylist[i]? = some k →
        (k.code = ckey ∨ k.shifted_code = ckey) →
        (∀ j k2, j < i → s.keylist[j]? = some k2 →
          ¬ (k2.code = ckey ∨ k2.shifted_code = ckey)) →
        skin_find_skey s ckey = (i : Int))
      ∧ (skin_find_skey s ckey = -1
          ↔ ∀ k ∈ s.keylist, ¬ (k.code = ckey ∨ k.shifted_code = ckey))
      ∧ (0 ≤ skin_find_skey s ckey → skin_find_skey s ckey < (s.nkeys : Int)) := by
  unfold skin_find_skey SkinState.nkeys
  refine ⟨?_, ?_, ?_⟩
  · intro i k hk hin hmin
    rw [skin_find_skey_loop_first ckey s.keylist 0 i k hk hin hmin]
    simp
  · constructor
    · intro h
      rcases skin_find_skey_loop_range ckey s.keylist 0 with ⟨_, h2⟩ | ⟨i, k, _, _, h3⟩
      · exact h2
      · rw [h3] at h
        omega
    · intro h
      rcases skin_find_skey_loop_range ckey s.keylist 0 with ⟨h1, _⟩ | ⟨i, k, h1, h2, _⟩
      · exact h1
      · exact absurd h2 (h k (List.mem_iff_getElem?.2 ⟨i, h1⟩))
  · intro h
    rcases skin_find_skey_loop_range ckey s.keylist 0 with ⟨h1, _⟩ | ⟨i, k, h1, _, h3⟩
    · rw [h1] at h
      omega
    · rw [h3]
      have hi : i < s.keylist.length := by
        by_contra hcon
        rw [List.getElem?_eq_none (by omega)] at h1
        simp at h1
      omega

/-- C6 on a table of three keys, two of which have the code 5: the first of them
is returned. -/
theorem skin_find_skey_first_witness :
    skin_find_skey
        { SkinState.initial with
          keylist := [⟨1, 2, ⟨0, 0, 1, 1⟩, ⟨0, 0, 1, 1⟩, ⟨0, 0⟩⟩,
                      ⟨3, 5, ⟨0, 0, 1, 1⟩, ⟨0, 0, 1, 1⟩, ⟨0, 0⟩⟩,
                      ⟨5, 6, ⟨0, 0, 1, 1⟩, ⟨0, 0, 1, 1⟩, ⟨0, 0⟩⟩] } 5 = 1 :=
  (skin_find_skey_first _ 5).1 1 ⟨3, 5, ⟨0, 0, 1, 1⟩, ⟨0, 0, 1, 1⟩, ⟨0, 0⟩⟩ rfl (by decide)
    (fun j k2 hj hk2 => by
      have hj0 : j = 0 := by omega
      subst hj0
      simp only [List.getElem?_cons_zero, Option.some.injEq] at hk2
      subst hk2
      decide)

/-! ## Macro lookup -/

/-- A line that passes the label test starts, up to case, with the first character
of the label. -/
theorem label_first_char (line : List Char) (label : String) (n : Nat) (c : Char)
    (rest : List Char) (hl : label.toList = c :: rest) (hn : 0 < n)
    (h : strncasecmp_eq line label n = true) :
    (line.head?).map tolower = some (tolower c) := by
  unfold strncasecmp_eq at h
  rw [hl] at h
  obtain ⟨m, rfl⟩ : ∃ m, n = m + 1 := ⟨n - 1, by omega⟩
  cases line with
  | nil => simp at h
  | cons a as =>
    simp only [List.take_succ_cons, List.map_cons, beq_iff_eq, List.cons.injEq] at h
    simp [h.1]

/-- The effect of one line of the description on the macro list: a valid `macro:`
record links its macro in front, any other line leaves the list as it is. -/
theorem skin_load_line_macrolist (pke : List Char → Int → Option keymap_entry)
    (st : LoadState) (line : List Char) :
    (skin_load_line pke st line).g.macrolist
      = match macro_record line with
        | some m => m :: st.g.macrolist
        | none => st.g.macrolist := by
  have hm : ∀ (label : String) (n : Nat) (c : Char) (rest : List Char),
      label.toList = c :: rest → 0 < n → tolower c ≠ 'm' →
      strncasecmp_eq line label n = true → strncasecmp_eq line "macro:" 6 = false := by
    intro label n c rest hl hn hc h
    have h1 := label_first_char line label n c rest hl hn h
    by_contra h2
    rw [Bool.not_eq_false] at h2
    have h3 := label_first_char line "macro:" 6 'm' "acro:".toList rfl (by decide) h2
    rw [h1] at h3
    exact hc (by simpa using h3)
  unfold skin_load_line macro_record
  by_cases h0 : line = []
  · subst h0
    simp [strncasecmp_eq]
  simp only [h0, if_false]
  by_cases h1 : strncasecmp_eq line "skin:" 5 = true
  · rw [if_pos h1, hm "skin:" 5 's' "kin:".toList rfl (by decide) (by decide) h1]
    split <;> rfl
  rw [if_neg h1]
  by_cases h2 : strncasecmp_eq line "display:" 8 = true
  · rw [if_pos h2, hm "display:" 8 'd' "isplay:".toList rfl (by decide) (by decide) h2]
    split <;> rfl
  rw [if_neg h2]
  by_cases h3 : strncasecmp_eq line "displaysize:" 12 = true
  · rw [if_pos h3, hm "displaysize:" 12 'd' "isplaysize:".toList rfl (by decide) (by decide) h3]
    split
    · split <;> rfl
    · rfl
  rw [if_neg h3]
  by_cases h4 : strncasecmp_eq line "displayexpansionzone:" 21 = true
  · rw [if_pos h4, hm "displayexpansionzone:" 21 'd' "isplayexpansionzone:".toList rfl
      (by decide) (by decide) h4]
    split <;> rfl
  rw [if_neg h4]
  by_cases h5 : strncasecmp_eq line "key:" 4 = true
  · rw [if_pos h5, hm "key:" 4 'k' "ey:".toList rfl (by decide) (by decide) h5]
    split <;> rfl
  rw [if_neg h5]
  by_cases h6 : strncasecmp_eq line "macro:" 6 = true
  · rw [if_pos h6]
    simp only [h6, if_true]
    split <;> simp_all
  rw [if_neg h6]
  simp only [h6]
  split
  · split
    · split <;> rfl
    · rfl
  · split
    · split <;> rfl
    · split
      · split <;> rfl
      · split
        · split <;> rfl
        · split
          · split <;> rfl
          · rfl

/-- The macro list after the parse loop: the macros of the valid `macro:` records,
the last record first. -/
theorem skin_load_records_macrolist (pke : List Char → Int → Option keymap_entry)
    (old : SkinState) (lines : List (List Char)) :
    (skin_load_records pke old lines).g.macrolist = (lines.filterMap macro_record).reverse := by
  have h : ∀ (ls : List (List Char)) (st : LoadState),
      (ls.foldl (skin_load_line pke) st).g.macrolist
        = (ls.filterMap macro_record).reverse ++ st.g.macrolist := by
    intro ls
    induction ls with
    | nil => intro st; simp
    | cons l ls ih =>
      intro st
      rw [List.foldl_cons, ih, skin_load_line_macrolist]
      cases hl : macro_record l with
      | none => simp [List.filterMap_cons, hl]
      | some m => simp [List.filterMap_cons, hl]
  unfold skin_load_records
  rw [h]
  simp [skin_load_reset]

/-- The lookup loop on a reversed list returns the last element with the code. -/
theorem skin_find_macro_loop_reverse (ckey : Int) (l : List SkinMacro) :
    skin_find_macro_loop ckey l.reverse
      = ((l.filter (fun m => decide (m.code = ckey))).getLast?).map
          (fun m => (m.macro_, m.isName)) := by
  induction l using List.reverseRecOn with
  | nil => rfl
  | append_singleton l a ih =>
    have hr : (l ++ [a]).reverse = a :: l.reverse := by simp
    rw [hr, List.filter_append]
    simp only [skin_find_macro_loop]
    by_cases ha : a.code = ckey
    · rw [if_pos ha]
      simp [List.filter_cons, ha]
    · rw [if_neg ha, ih]
      simp [List.filter_cons, ha]

/-- C5: after the parse of a description, `skin_find_macro` returns the payload and
the name flag of the last valid `macro:` record of the description that has the
queried code as its trigger (the records are linked in front of the list and the
lookup returns the first match), and NULL if no valid `macro:` record has it. -/
theorem skin_find_macro_last_record (pke : List Char → Int → Option keymap_entry)
    (old : SkinState) (lines : List (List Char)) (ckey : Int) :
    skin_find_macro (skin_load_records pke old lines).g ckey
      = ((((lines.filterMap macro_record).filter (fun m => decide (m.code = ckey))).getLast?).map
          (fun m => (m.macro_, m.isName))) := by
  unfold skin_find_macro
  rw [skin_load_records_macrolist, skin_find_macro_loop_reverse]

/-- C5 on the description of the specification: after the records `macro: 100 "A"`
and `macro: 100 "B"` the lookup of 100 returns the name `B`. -/
theorem skin_find_macro_last_record_witness :
    skin_find_macro
        (skin_load_records (fun _ _ => none) SkinState.initial
          ["macro: 100 \"A\"".toList, "macro: 100 \"B\"".toList]).g 100
      = some (['B'.toNat], true) :=
  (skin_find_macro_last_record (fun _ _ => none) SkinState.initial
    ["macro: 100 \"A\"".toList, "macro: 100 \"B\"".toList] 100).trans (by decide)

/-! ## Decimal integers -/

theorem isdigit_bounds (c : Char) (h : isdigit c = true) : 48 ≤ c.toNat ∧ c.toNat ≤ 57 := by
  unfold isdigit at h
  simp only [Bool.and_eq_true, decide_eq_true_eq] at h
  exact h

theorem isdigit_not_space (c : Char) (h : isdigit c = true) : isspace c = false := by
  have hb := isdigit_bounds c h
  unfold isspace
  simp only [Bool.or_eq_false_iff, beq_eq_false_iff_ne, ne_eq]
  refine ⟨⟨⟨⟨⟨?_, ?_⟩, ?_⟩, ?_⟩, ?_⟩, ?_⟩ <;>
    (intro hc; rw [hc] at hb; revert hb; decide)

theorem read_digits_append (ds rest : List Char) (acc : Nat)
    (hds : ds.all isdigit = true) (hrest : not_digit_head rest) :
    read_digits acc (ds ++ rest)
      = (ds.foldl (fun a c => 10 * a + (c.toNat - '0'.toNat)) acc, rest) := by
  induction ds generalizing acc with
  | nil =>
    cases rest with
    | nil => rfl
    | cons r rs =>
      have hr : isdigit r = false := hrest r (by simp)
      simp [read_digits, hr]
  | cons d ds ih =>
    simp only [List.all_cons, Bool.and_eq_true] at hds
    simp only [List.cons_append, read_digits, hds.1, if_true, List.foldl_cons]
    exact ih _ hds.2

theorem digits_value_spec (ds : List Char) (n : Nat) (h : digits_value ds = some n) :
    ∃ d rest, ds = d :: rest ∧ isdigit d = true ∧ (d :: rest).all isdigit = true
      ∧ n = (d :: rest).foldl (fun a c => 10 * a + (c.toNat - '0'.toNat)) 0 := by
  unfold digits_value at h
  split at h
  · rename_i hc
    cases ds with
    | nil => exact absurd rfl hc.1
    | cons d rest =>
      have hall := hc.2
      have hd : isdigit d = true := by
        simp only [List.all_cons, Bool.and_eq_true] at hall
        exact hall.1
      exact ⟨d, rest, rfl, hd, hall, by simpa using h.symm⟩
  · simp at h

/-- The scanner reads a decimal integer in full and returns its value, when the
text that follows does not go on with a digit. -/
theorem scan_decimal_append (t rest : List Char) (v : Int)
    (h : decimal_value t = some v) (hrest : not_digit_head rest) :
    scan_decimal (t ++ rest) = some (v, rest) := by
  have key : ∀ (ds : List Char) (n : Nat) (neg : Bool), digits_value ds = some n →
      ∀ pre : List Char, skip_space (pre ++ ds ++ rest) = pre ++ ds ++ rest →
      read_sign (pre ++ ds ++ rest) = (neg, ds ++ rest) →
      scan_decimal (pre ++ ds ++ rest)
        = some (if neg then -(n : Int) else (n : Int), rest) := by
    intro ds n neg hn pre hsk hsg
    obtain ⟨d, r, rfl, hd, hall, hval⟩ := digits_value_spec ds n hn
    unfold scan_decimal
    rw [hsk, hsg]
    simp only [List.cons_append, hd, if_true]
    have := read_digits_append (d :: r) rest 0 hall hrest
    simp only [List.cons_append] at this
    rw [this, hval]
  cases t with
  | nil => simp [decimal_value, digits_value] at h
  | cons c cs =>
    by_cases hminus : c = '-'
    · subst hminus
      cases hn : digits_value cs with
      | none => simp [decimal_value, hn] at h
      | some n =>
        simp only [decimal_value, hn, Option.some.injEq] at h
        have := key cs n true hn ['-'] (by simp [skip_space, isspace]) (by simp [read_sign])
        rw [← h]
        simpa using this
    · by_cases hplus : c = '+'
      · subst hplus
        cases hn : digits_value cs with
        | none => simp [decimal_value, hn] at h
        | some n =>
          simp only [decimal_value, hn, Option.some.injEq] at h
          have := key cs n false hn ['+'] (by simp [skip_space, isspace]) (by simp [read_sign])
          rw [← h]
          simpa using this
      · have h2 : decimal_value (c :: cs)
            = (match digits_value (c :: cs) with
              | some n => some (Int.ofNat n)
              | none => none) := by
          unfold decimal_value
          split
          · rename_i heq; simp only [List.cons.injEq] at heq; exact absurd heq.1 hminus
          · rename_i heq; simp only [List.cons.injEq] at heq; exact absurd heq.1 hplus
          · rfl
        rw [h2] at h
        cases hn : digits_value (c :: cs) with
        | none => simp [hn] at h
        | some n =>
        simp only [hn, Option.some.injEq] at h
        obtain ⟨d, r, hdr, hd, _, _⟩ := digits_value_spec (c :: cs) n hn
        simp only [List.cons.injEq] at hdr
        obtain ⟨rfl, rfl⟩ := hdr
        rw [← h]
        have hsp := isdigit_not_space c hd
        have hsg : read_sign (c :: cs ++ rest) = (false, c :: cs ++ rest) := by
          unfold read_sign
          split
          · rename_i heq; simp only [List.cons_append, List.cons.injEq] at heq
            exact absurd heq.1 hminus
          · rename_i heq; simp only [List.cons_append, List.cons.injEq] at heq
            exact absurd heq.1 hplus
          · rfl
        have := key (c :: cs) n false hn [] (by simp [skip_space, hsp]) (by simpa using hsg)
        simpa using this

theorem not_digit_head_nil : not_digit_head [] := by
  intro c hc
  simp at hc

theorem not_digit_head_comma (t : List Char) : not_digit_head (',' :: t) := by
  intro c hc
  simp only [List.head?_cons, Option.mem_def, Option.some.injEq] at hc
  subst hc
  decide

/-- The scan of the code token of a `key:` record that is a single integer. -/
theorem sscanf_code_single (tok : List Char) (k : Int) (h : decimal_value tok = some k) :
    sscanf tok "%d,%d" = [ScanValue.int k] := by
  have hfmt : parse_format "%d,%d".toList
      = [Directive.conv_d, Directive.lit ',', Directive.conv_d] := by decide
  have hs := scan_decimal_append tok [] k h not_digit_head_nil
  rw [List.append_nil] at hs
  unfold sscanf
  rw [hfmt]
  simp only [sscanf_run, hs]

/-- The scan of the code token of a `key:` record that is a pair of integers. -/
theorem sscanf_code_pair (t1 t2 : List Char) (k s : Int) (h1 : decimal_value t1 = some k)
    (h2 : decimal_value t2 = some s) :
    sscanf (t1 ++ ',' :: t2) "%d,%d" = [ScanValue.int k, ScanValue.int s] := by
  have hfmt : parse_format "%d,%d".toList
      = [Directive.conv_d, Directive.lit ',', Directive.conv_d] := by decide
  have hs1 := scan_decimal_append t1 (',' :: t2) k h1 (not_digit_head_comma t2)
  have hs2 := scan_decimal_append t2 [] s h2 not_digit_head_nil
  rw [List.append_nil] at hs2
  unfold sscanf
  rw [hfmt]
  simp only [sscanf_run, hs1, hs2, if_true]

/-- The effect of a line with the label `key:` on the key table. -/
theorem skin_load_line_key (pke : List Char → Int → Option keymap_entry)
    (st : LoadState) (line : List Char) (hlabel : strncasecmp_eq line "key:" 4 = true) :
    (skin_load_line pke st line).g.keylist
      = match parse_key_record (line.drop 4) with
        | some key => st.g.keylist ++ [key]
        | none => st.g.keylist := by
  have hk : ∀ (label : String) (n : Nat) (c : Char) (rest : List Char),
      label.toList = c :: rest → 0 < n → tolower c ≠ 'k' →
      ¬ strncasecmp_eq line label n = true := by
    intro label n c rest hl hn hc h
    have h1 := label_first_char line label n c rest hl hn h
    have h3 := label_first_char line "key:" 4 'k' "ey:".toList rfl (by decide) hlabel
    rw [h1] at h3
    exact hc (by simpa using h3)
  have h0 : line ≠ [] := by
    intro h
    subst h
    simp [strncasecmp_eq] at hlabel
  unfold skin_load_line
  simp only [h0, if_false]
  rw [if_neg (hk "skin:" 5 's' "kin:".toList rfl (by decide) (by decide)),
    if_neg (hk "display:" 8 'd' "isplay:".toList rfl (by decide) (by decide)),
    if_neg (hk "displaysize:" 12 'd' "isplaysize:".toList rfl (by decide) (by decide)),
    if_neg (hk "displayexpansionzone:" 21 'd' "isplayexpansionzone:".toList rfl
      (by decide) (by decide)),
    if_pos hlabel]
  split <;> simp_all

/-- C7: a valid `key:` record (the scan of its 11 fields succeeds, the code token
fits its buffer) whose code token is a single integer appends a key whose shifted
code equals its code; when the token is `code,shiftedCode` the two stored codes
are the two integers given; in both cases exactly one key is appended, at index
`nkeys`, with the rectangles and the point of the record. -/
theorem key_record_codes (pke : List Char → Int → Option keymap_entry) (st : LoadState)
    (line tok : List Char) (sens disp : SkinRect) (src : SkinPoint)
    (hlabel : strncasecmp_eq line "key:" 4 = true)
    (hscan : sscanf (line.drop 4) " %s %d,%d,%d,%d %d,%d,%d,%d %d,%d"
      = [ScanValue.str tok,
          ScanValue.int sens.x, ScanValue.int sens.y, ScanValue.int sens.width,
          ScanValue.int sens.height,
          ScanValue.int disp.x, ScanValue.int disp.y, ScanValue.int disp.width,
          ScanValue.int disp.height,
          ScanValue.int src.x, ScanValue.int src.y])
    (_hfit : tok.length < 20) :
    (∀ k : Int, decimal_value tok = some k →
        (skin_load_line pke st line).g.keylist = st.g.keylist ++ [⟨k, k, sens, disp, src⟩]
        ∧ (skin_load_line pke st line).g.nkeys = st.g.nkeys + 1
        ∧ (skin_load_line pke st line).g.keylist[st.g.nkeys]? = some ⟨k, k, sens, disp, src⟩)
      ∧ (∀ (t1 t2 : List Char) (k s : Int), tok = t1 ++ ',' :: t2 →
        decimal_value t1 = some k → decimal_value t2 = some s →
        (skin_load_line pke st line).g.keylist = st.g.keylist ++ [⟨k, s, sens, disp, src⟩]
        ∧ (skin_load_line pke st line).g.nkeys = st.g.nkeys + 1
        ∧ (skin_load_line pke st line).g.keylist[st.g.nkeys]? = some ⟨k, s, sens, disp, src⟩) := by
  have happ : ∀ key : SkinKey, parse_key_record (line.drop 4) = some key →
      (skin_load_line pke st line).g.keylist = st.g.keylist ++ [key]
        ∧ (skin_load_line pke st line).g.nkeys = st.g.nkeys + 1
        ∧ (skin_load_line pke st line).g.keylist[st.g.nkeys]? = some key := by
    intro key hkey
    have h := skin_load_line_key pke st line hlabel
    rw [hkey] at h
    simp only at h
    refine ⟨h, ?_, ?_⟩
    · simp [SkinState.nkeys, h]
    · simp [SkinState.nkeys, h]
  refine ⟨?_, ?_⟩
  · intro k hk
    apply happ
    unfold parse_key_record
    rw [hscan]
    simp only [sscanf_code_single tok k hk]
  · intro t1 t2 k s htok hk hs
    apply happ
    unfold parse_key_record
    rw [hscan]
    simp only [htok, sscanf_code_pair t1 t2 k s hk hs]

/-- C7 on the record `key: 1 0,0,10,10 0,0,10,10 0,0` of the specification, parsed
into an empty key table: the key has code 1 and shifted code 1. -/
theorem key_record_codes_witness :
    strncasecmp_eq "key: 1 0,0,10,10 0,0,10,10 0,0".toList "key:" 4 = true
      ∧ decimal_value "1".toList = some 1
      ∧ (skin_load_line (fun _ _ => none) (skin_load_reset SkinState.initial)
          "key: 1 0,0,10,10 0,0,10,10 0,0".toList).g.keylist
        = [⟨1, 1, ⟨0, 0, 10, 10⟩, ⟨0, 0, 10, 10⟩, ⟨0, 0⟩⟩] :=
  ⟨by decide, by decide,
    ((key_record_codes (fun _ _ => none) (skin_load_reset SkinState.initial)
      "key: 1 0,0,10,10 0,0,10,10 0,0".toList "1".toList ⟨0, 0, 10, 10⟩ ⟨0, 0, 10, 10⟩ ⟨0, 0⟩
      (by decide) (by decide) (by decide)).1 1 (by decide)).1⟩

/-! ## Macro records -/

theorem strrchr_of_mem (s : List Char) (c : Char) (h : 1 ≤ s.count c) :
    ∃ j, strrchr s c = some j := by
  induction s with
  | nil => simp at h
  | cons d ds ih =>
    unfold strrchr
    cases hr : strrchr ds c with
    | some j => exact ⟨j + 1, rfl⟩
    | none =>
      by_cases hd : d = c
      · exact ⟨0, by simp [hd]⟩
      · have hcount : 1 ≤ ds.count c := by
          rw [List.count_cons] at h
          simpa [hd] using h
        obtain ⟨j, hj⟩ := ih hcount
        rw [hj] at hr
        simp at hr

/-- With two occurrences of a character, `strchr` and `strrchr` find different
places. -/
theorem strchr_lt_strrchr (s : List Char) (c : Char) (h : 2 ≤ s.count c) :
    ∃ i j, strchr s c = some i ∧ strrchr s c = some j ∧ i < j := by
  induction s with
  | nil => simp at h
  | cons d ds ih =>
    by_cases hd : d = c
    · have hcount : 1 ≤ ds.count c := by
        rw [List.count_cons] at h
        simp only [hd, beq_self_eq_true, if_true] at h
        omega
      obtain ⟨j, hj⟩ := strrchr_of_mem ds c hcount
      refine ⟨0, j + 1, ?_, ?_, Nat.succ_pos j⟩
      · simp [strchr, hd]
      · simp [strrchr, hj]
    · have hcount : 2 ≤ ds.count c := by
        rw [List.count_cons] at h
        simpa [hd] using h
      obtain ⟨i, j, hi, hj, hij⟩ := ih hcount
      refine ⟨i + 1, j + 1, ?_, ?_, Nat.succ_lt_succ hij⟩
      · simp [strchr, hd, hi]
      · simp [strrchr, hj]

/-- The scan of one integer at the start of a text. -/
theorem sscanf_d (s : List Char) :
    sscanf s "%d"
      = match scan_decimal s with
        | some (v, _) => [ScanValue.int v]
        | none => [] := by
  have hfmt : parse_format "%d".toList = [Directive.conv_d] := by decide
  unfold sscanf
  rw [hfmt]
  simp only [sscanf_run]

/-- The effect of a line with the label `macro:` on the macro list. -/
theorem skin_load_line_macro_label (pke : List Char → Int → Option keymap_entry)
    (st : LoadState) (line : List Char) (hlabel : strncasecmp_eq line "macro:" 6 = true) :
    (skin_load_line pke st line).g.macrolist
      = match parse_macro_record (line.drop 6) with
        | some m => m :: st.g.macrolist
        | none => st.g.macrolist := by
  rw [skin_load_line_macrolist]
  unfold macro_record
  rw [if_pos hlabel]

theorem strchr_of_mem (s : List Char) (c : Char) (h : c ∈ s) : ∃ i, strchr s c = some i := by
  induction s with
  | nil => simp at h
  | cons d ds ih =>
    by_cases hd : d = c
    · exact ⟨0, by simp [strchr, hd]⟩
    · have hm : c ∈ ds := by
        rcases List.mem_cons.1 h with h1 | h1
        · exact absurd h1.symm hd
        · exact h1
      obtain ⟨i, hi⟩ := ih hm
      exact ⟨i + 1, by simp [strchr, hd, hi]⟩

theorem strrchr_none (s : List Char) (c : Char) (h : c ∉ s) : strrchr s c = none := by
  induction s with
  | nil => rfl
  | cons d ds ih =>
    have hd : ¬ d = c := fun hd => h (by simp [hd])
    have hds : c ∉ ds := fun hds => h (List.mem_cons_of_mem _ hds)
    simp [strrchr, hd, ih hds]

/-- With a single occurrence of a character, `strchr` and `strrchr` find the same
place. -/
theorem strchr_eq_strrchr (s : List Char) (c : Char) (h : s.count c < 2) (i j : Nat)
    (hi : strchr s c = some i) (hj : strrchr s c = some j) : j = i := by
  induction s generalizing i j with
  | nil => simp [strchr] at hi
  | cons d ds ih =>
    by_cases hd : d = c
    · have hcount : ds.count c = 0 := by
        rw [List.count_cons] at h
        simp only [hd, beq_self_eq_true, if_true] at h
        omega
      have hmem : c ∉ ds := List.count_eq_zero.1 hcount
      simp only [strchr, hd, if_true, Option.some.injEq] at hi
      simp only [strrchr, strrchr_none ds c hmem, hd, if_true, Option.some.injEq] at hj
      omega
    · have hcount : ds.count c < 2 := by
        rw [List.count_cons] at h
        simpa [hd] using h
      simp only [strchr, hd, if_false, Option.map_eq_some'] at hi
      obtain ⟨i2, hi2, rfl⟩ := hi
      unfold strrchr at hj
      cases hr : strrchr ds c with
      | none => simp [hr, hd] at hj
      | some j2 =>
        simp only [hr, Option.some.injEq] at hj
        have := ih hcount i2 j2 hi2 hr
        omega

/-- C8: for a `macro:` record whose text has a quote character, a macro with the
name flag set is added in front of the macro list if and only if the record has
two distinct quote characters and the integer at the start of the text after the
label lies in 38..255; the macro then has that integer as its code; otherwise the
macro list is left unchanged. -/
theorem named_macro_record (pke : List Char → Int → Option keymap_entry) (st : LoadState)
    (line : List Char) (hlabel : strncasecmp_eq line "macro:" 6 = true)
    (hquote : quote_char ∈ line.drop 6) :
    ((∃ m : SkinMacro, (skin_load_line pke st line).g.macrolist = m :: st.g.macrolist
          ∧ m.isName = true)
        ↔ (2 ≤ (line.drop 6).count quote_char
            ∧ ∃ n rest, scan_decimal (line.drop 6) = some (n, rest) ∧ 38 ≤ n ∧ n ≤ 255))
      ∧ (∀ n rest, 2 ≤ (line.drop 6).count quote_char →
          scan_decimal (line.drop 6) = some (n, rest) → 38 ≤ n → n ≤ 255 →
          ∃ bytes, (skin_load_line pke st line).g.macrolist
            = ⟨n, true, bytes⟩ :: st.g.macrolist)
      ∧ ((¬ ∃ n rest, scan_decimal (line.drop 6) = some (n, rest) ∧ 38 ≤ n ∧ n ≤ 255) →
          (skin_load_line pke st line).g.macrolist = st.g.macrolist)
      ∧ ((line.drop 6).count quote_char < 2 →
          (skin_load_line pke st line).g.macrolist = st.g.macrolist) := by
  have hrec := skin_load_line_macro_label pke st line hlabel
  have hyes : ∀ n rest, 2 ≤ (line.drop 6).count quote_char →
      scan_decimal (line.drop 6) = some (n, rest) → 38 ≤ n → n ≤ 255 →
      ∃ bytes, (skin_load_line pke st line).g.macrolist
        = ⟨n, true, bytes⟩ :: st.g.macrolist := by
    intro n rest hquotes hs h1 h2
    obtain ⟨q1, q2, hq1, hq2, hlt⟩ := strchr_lt_strrchr (line.drop 6) quote_char hquotes
    have hne : q2 ≠ q1 := by omega
    have hp : parse_macro_record (line.drop 6)
        = some ⟨n, true, (((line.drop 6).drop (q1 + 1)).take
            (min (q2 - q1 - 1) SKIN_MAX_MACRO_LENGTH)).map Char.toNat⟩ := by
      unfold parse_macro_record
      rw [hq1, hq2]
      simp only [ne_eq, hne, not_false_eq_true, if_true, sscanf_d, hs]
      rw [if_pos ⟨h1, h2⟩]
    rw [hp] at hrec
    exact ⟨_, hrec⟩
  obtain ⟨q1, hq1⟩ := strchr_of_mem (line.drop 6) quote_char hquote
  obtain ⟨q2, hq2⟩ := strrchr_of_mem (line.drop 6) quote_char (List.count_pos_iff.2 hquote)
  have hno : (¬ ∃ n rest, scan_decimal (line.drop 6) = some (n, rest) ∧ 38 ≤ n ∧ n ≤ 255) →
      (skin_load_line pke st line).g.macrolist = st.g.macrolist := by
    intro h
    have hp : parse_macro_record (line.drop 6) = none := by
      unfold parse_macro_record
      rw [hq1, hq2]
      simp only [sscanf_d]
      by_cases hne : q2 ≠ q1
      · rw [if_pos hne]
        cases hs : scan_decimal (line.drop 6) with
        | none => rfl
        | some p =>
          obtain ⟨n, rest⟩ := p
          have hr : ¬ (n ≥ 38 ∧ n ≤ 255) := fun hr => h ⟨n, rest, hs, hr.1, hr.2⟩
          simp only [hr, if_false]
      · rw [if_neg hne]
    rw [hp] at hrec
    exact hrec
  have hone : (line.drop 6).count quote_char < 2 →
      (skin_load_line pke st line).g.macrolist = st.g.macrolist := by
    intro hlt
    have hp : parse_macro_record (line.drop 6) = none := by
      unfold parse_macro_record
      rw [hq1, hq2]
      have := strchr_eq_strrchr (line.drop 6) quote_char hlt q1 q2 hq1 hq2
      simp only [this, ne_eq, not_true_eq_false, if_false]
    rw [hp] at hrec
    exact hrec
  refine ⟨⟨?_, ?_⟩, hyes, hno, hone⟩
  · rintro ⟨m, hm, _⟩
    have hlen : ∀ l : List SkinMacro, l = m :: l → False := by
      intro l hl
      have := congrArg List.length hl
      simp at this
    refine ⟨?_, ?_⟩
    · by_contra hcon
      rw [hone (by omega)] at hm
      exact hlen _ hm
    · by_contra hcon
      rw [hno hcon] at hm
      exact hlen _ hm
  · rintro ⟨hquotes, n, rest, hs, h1, h2⟩
    obtain ⟨bytes, hb⟩ := hyes n rest hquotes hs h1 h2
    exact ⟨_, hb, rfl⟩

/-- C8 on the records `macro: 100 "A"`, which is added, and `macro: 37 "A"`, which
is dropped. -/
theorem named_macro_record_witness :
    strncasecmp_eq "macro: 100 \"A\"".toList "macro:" 6 = true
      ∧ quote_char ∈ "macro: 100 \"A\"".toList.drop 6
      ∧ (∃ bytes, (skin_load_line (fun _ _ => none) (skin_load_reset SkinState.initial)
          "macro: 100 \"A\"".toList).g.macrolist = [⟨100, true, bytes⟩])
      ∧ (skin_load_line (fun _ _ => none) (skin_load_reset SkinState.initial)
          "macro: 37 \"A\"".toList).g.macrolist = [] :=
  ⟨by decide, by decide,
    (named_macro_record (fun _ _ => none) (skin_load_reset SkinState.initial)
      "macro: 100 \"A\"".toList (by decide) (by decide)).2.1 100 " \"A\"".toList
      (by decide) (by decide) (by decide) (by decide),
    (named_macro_record (fun _ _ => none) (skin_load_reset SkinState.initial)
      "macro: 37 \"A\"".toList (by decide) (by decide)).2.2.1
      (fun ⟨n, rest, hs, h1, _⟩ => by
        have h37 : scan_decimal ("macro: 37 \"A\"".toList.drop 6)
            = some (37, " \"A\"".toList) := by decide
        rw [h37] at hs
        simp only [Option.some.injEq, Prod.mk.injEq] at hs
        omega)⟩

theorem strchr_none (s : List Char) (c : Char) (h : c ∉ s) : strchr s c = none := by
  induction s with
  | nil => rfl
  | cons d ds ih =>
    have hd : ¬ d = c := fun hd => h (by simp [hd])
    have hds : c ∉ ds := fun hds => h (List.mem_cons_of_mem _ hds)
    simp [strchr, hd, ih hds]

/-- A step among the first 63 whose value is out of range makes the token loop end
with no macro. -/
theorem macro_steps_loop_bad_step (steps : List (List Char)) (code : Int) (acc : List Nat)
    (i : Nat) (t : List Char) (hi : steps[i]? = some t)
    (h63 : acc.length + i < SKIN_MAX_MACRO_LENGTH)
    (hrange : (strtol t).1 < 1 ∨ 37 < (strtol t).1) :
    macro_steps_loop steps (some (code, acc)) = none := by
  induction steps generalizing acc i with
  | nil => simp at hi
  | cons tok toks ih =>
    unfold macro_steps_loop
    simp only [Option.isSome_some, and_true]
    have hlen : acc.length < SKIN_MAX_MACRO_LENGTH := by omega
    by_cases he : (strtol tok).2 ≠ []
    · rw [if_pos he]
    · rw [if_neg he]
      simp only [hlen, if_true]
      cases i with
      | zero =>
        simp only [List.getElem?_cons_zero, Option.some.injEq] at hi
        subst hi
        have hr : (strtol tok).1 < 1 ∨ (strtol tok).1 > 37 := hrange
        rw [if_pos hr]
      | succ i =>
        by_cases hr : (strtol tok).1 < 1 ∨ (strtol tok).1 > 37
        · rw [if_pos hr]
        · rw [if_neg hr]
          exact ih (acc ++ [(strtol tok).1.toNat]) i (by simpa using hi)
            (by simp only [List.length_append, List.length_singleton]; omega)

/-- C9, amended: for a keystroke record (no quote character) `CODE k1 k2 ... kn`, if
one of the first 63 steps has a value outside 1..37, no macro is added for the
record: the macro list is unchanged. -/
theorem keystroke_macro_step_range (pke : List Char → Int → Option keymap_entry)
    (st : LoadState) (line code : List Char) (steps : List (List Char))
    (hlabel : strncasecmp_eq line "macro:" 6 = true)
    (hnoquote : quote_char ∉ line.drop 6)
    (htok : strtok_tokens [] (line.drop 6) = code :: steps)
    (i : Nat) (t : List Char) (hi : steps[i]? = some t) (h63 : i < 63)
    (hrange : (strtol t).1 < 1 ∨ 37 < (strtol t).1) :
    (skin_load_line pke st line).g.macrolist = st.g.macrolist := by
  have hp : parse_macro_record (line.drop 6) = none := by
    unfold parse_macro_record
    rw [strchr_none _ _ hnoquote, htok]
    simp only
    unfold macro_steps_loop
    simp only [Option.isSome_none, Bool.false_eq_true, and_false, if_false]
    by_cases hc : (strtol code).1 < 38 ∨ (strtol code).1 > 255
    · simp only [hc, if_true]
    · simp only [hc, if_false]
      rw [macro_steps_loop_bad_step steps (strtol code).1 [] i t hi
        (by simpa [SKIN_MAX_MACRO_LENGTH] using h63) hrange]
  have h := skin_load_line_macro_label pke st line hlabel
  rw [hp] at h
  exact h

/-- C9, amended, on the record `macro: 100 1 2 99`: the third step is out of range
and the record adds nothing. -/
theorem keystroke_macro_step_range_witness :
    strncasecmp_eq "macro: 100 1 2 99".toList "macro:" 6 = true
      ∧ quote_char ∉ "macro: 100 1 2 99".toList.drop 6
      ∧ ((strtol "99".toList).1 < 1 ∨ 37 < (strtol "99".toList).1)
      ∧ (skin_load_line (fun _ _ => none) (skin_load_reset SkinState.initial)
          "macro: 100 1 2 99".toList).g.macrolist = [] :=
  ⟨by decide, by decide, by decide,
    keystroke_macro_step_range (fun _ _ => none) (skin_load_reset SkinState.initial)
      "macro: 100 1 2 99".toList "100".toList ["1".toList, "2".toList, "99".toList]
      (by decide) (by decide) (by decide) 2 "99".toList (by decide) (by decide) (by decide)⟩

set_option maxRecDepth 100000 in
/-- C9 as stated fails: the keystroke record with the code 100 and 64 steps, the
last of which is 99, adds a macro of 63 steps, although the step 99 is outside
1..37. -/
theorem keystroke_macro_step_range_counterexample :
    strtok_tokens [] (long_keystroke_record.drop 6)
        = "100".toList :: (List.replicate 63 "1".toList ++ ["99".toList])
      ∧ quote_char ∉ long_keystroke_record.drop 6
      ∧ (strtol "99".toList).1 = 99
      ∧ (skin_load_line (fun _ _ => none) (skin_load_reset SkinState.initial)
          long_keystroke_record).g.macrolist = [⟨100, false, List.replicate 63 1⟩] := by
  decide

/-- C10 fails on the record `macro: 100x 1 2`: the token `100x` of the trigger code
is not a decimal integer, yet the record adds a macro with the code 100. -/
theorem keystroke_macro_improper_code :
    decimal_value "100x".toList = none
      ∧ strtol "100x".toList = (100, "x".toList)
      ∧ (skin_load_line (fun _ _ => none) (skin_load_reset SkinState.initial)
          "macro: 100x 1 2".toList).g.macrolist = [⟨100, false, [1, 2]⟩] := by
  decide

/-! ## Stored macro payloads -/

/-- The place found by `strchr` splits the string: the character is there and
does not occur before. -/
theorem strchr_split (s : List Char) (c : Char) (i : Nat) (h : strchr s c = some i) :
    s = s.take i ++ c :: s.drop (i + 1) ∧ c ∉ s.take i := by
  induction s generalizing i with
  | nil => simp [strchr] at h
  | cons d ds ih =>
    by_cases hd : d = c
    · simp only [strchr, hd, if_true, Option.some.injEq] at h
      subst h
      simp [hd]
    · simp only [strchr, hd, if_false, Option.map_eq_some'] at h
      obtain ⟨i2, hi2, rfl⟩ := h
      obtain ⟨h1, h2⟩ := ih i2 hi2
      refine ⟨?_, ?_⟩
      · simp only [List.take_succ_cons, List.drop_succ_cons, List.cons_append, List.cons.injEq,
          true_and]
        exact h1
      · simp only [List.take_succ_cons, List.mem_cons, not_or]
        exact ⟨fun hc => hd hc.symm, h2⟩

/-- The place found by `strrchr` splits the string: the character is there and
does not occur after. -/
theorem strrchr_split (s : List Char) (c : Char) (j : Nat) (h : strrchr s c = some j) :
    s = s.take j ++ c :: s.drop (j + 1) ∧ c ∉ s.drop (j + 1) := by
  induction s generalizing j with
  | nil => simp [strrchr] at h
  | cons d ds ih =>
    unfold strrchr at h
    cases hr : strrchr ds c with
    | some j2 =>
      simp only [hr, Option.some.injEq] at h
      subst h
      obtain ⟨h1, h2⟩ := ih j2 hr
      refine ⟨?_, ?_⟩
      · simp only [List.take_succ_cons, List.drop_succ_cons, List.cons_append, List.cons.injEq,
          true_and]
        exact h1
      · simpa using h2
    | none =>
      simp only [hr] at h
      by_cases hd : d = c
      · simp only [hd, if_true, Option.some.injEq] at h
        subst h
        have hmem : c ∉ ds := by
          intro hm
          obtain ⟨j, hj⟩ := strrchr_of_mem ds c (List.count_pos_iff.2 hm)
          rw [hj] at hr
          simp at hr
        simp [hd, hmem]
      · simp [hd] at h

/-- The first occurrence is not after the last one. -/
theorem strchr_le_strrchr (s : List Char) (c : Char) (i j : Nat)
    (hi : strchr s c = some i) (hj : strrchr s c = some j) : i ≤ j := by
  by_contra hlt
  push_neg at hlt
  obtain ⟨h1, h2⟩ := strchr_split s c i hi
  obtain ⟨h3, _⟩ := strrchr_split s c j hj
  apply h2
  have hjl : j < s.length := by
    by_contra hcon
    push_neg at hcon
    have hlen := congrArg List.length h3
    simp only [List.length_append, List.length_cons, List.length_take, List.length_drop] at hlen
    omega
  have hget : s[j]? = some c := by
    conv_lhs => rw [h3]
    rw [List.getElem?_append_right (by simp only [List.length_take]; omega)]
    simp [List.length_take, Nat.min_eq_left (Nat.le_of_lt hjl)]
  rw [List.mem_iff_getElem?]
  exact ⟨j, by rw [List.getElem?_take_of_lt hlt]; exact hget⟩

/-- The token loop keeps the stored steps within the array and within 1..37. -/
theorem macro_steps_loop_bounds (toks : List (List Char)) (cur : Option (Int × List Nat))
    (code : Int) (steps : List Nat)
    (hcur : ∀ c acc, cur = some (c, acc) →
      acc.length ≤ SKIN_MAX_MACRO_LENGTH ∧ ∀ b ∈ acc, 1 ≤ b ∧ b ≤ 37)
    (h : macro_steps_loop toks cur = some (code, steps)) :
    steps.length ≤ SKIN_MAX_MACRO_LENGTH ∧ ∀ b ∈ steps, 1 ≤ b ∧ b ≤ 37 := by
  induction toks generalizing cur with
  | nil =>
    unfold macro_steps_loop at h
    exact hcur code steps h
  | cons tok toks ih =>
    unfold macro_steps_loop at h
    simp only at h
    split at h
    · simp at h
    · cases cur with
      | none =>
        simp only at h
        split at h
        · simp at h
        · exact ih (some ((strtol tok).1, [])) (by
            intro c acc hc
            simp only [Option.some.injEq, Prod.mk.injEq] at hc
            obtain ⟨_, rfl⟩ := hc
            simp) h
      | some p =>
        obtain ⟨c0, acc0⟩ := p
        obtain ⟨hlen0, hall0⟩ := hcur c0 acc0 rfl
        simp only at h
        split at h
        · rename_i hlt
          split at h
          · simp at h
          · rename_i hr
            push_neg at hr
            refine ih (some (c0, acc0 ++ [(strtol tok).1.toNat])) ?_ h
            intro c acc hc
            simp only [Option.some.injEq, Prod.mk.injEq] at hc
            obtain ⟨_, rfl⟩ := hc
            refine ⟨?_, ?_⟩
            · simp only [List.length_append, List.length_singleton]
              omega
            · intro b hb
              rcases List.mem_append.1 hb with hb | hb
              · exact hall0 b hb
              · simp only [List.mem_singleton] at hb
                subst hb
                omega
        · exact ih (some (c0, acc0)) (by
            intro c acc hc
            simp only [Option.some.injEq, Prod.mk.injEq] at hc
            obtain ⟨_, rfl⟩ := hc
            exact ⟨hlen0, hall0⟩) h

/-- The payload of every macro that a `macro:` record defines. -/
theorem parse_macro_record_payload (payload : List Char) (m : SkinMacro)
    (h : parse_macro_record payload = some m) :
    m.macro_.length ≤ SKIN_MAX_MACRO_LENGTH
      ∧ (m.isName = false → ∀ b ∈ m.macro_, 1 ≤ b ∧ b ≤ 37)
      ∧ (m.isName = true → ∃ pre mid post : List Char,
          payload = pre ++ quote_char :: (mid ++ quote_char :: post)
            ∧ quote_char ∉ pre ∧ quote_char ∉ post
            ∧ m.macro_ = (mid.take SKIN_MAX_MACRO_LENGTH).map Char.toNat) := by
  unfold parse_macro_record at h
  cases hq1 : strchr payload quote_char with
  | some q1 =>
    simp only [hq1] at h
    cases hq2 : strrchr payload quote_char with
    | none => simp [hq2] at h
    | some q2 =>
      simp only [hq2] at h
      split at h
      · rename_i hne
        split at h
        · split at h
          · simp only [Option.some.injEq] at h
            subst h
            have hle := strchr_le_strrchr payload quote_char q1 q2 hq1 hq2
            have hlt : q1 < q2 := by omega
            obtain ⟨h1, h2⟩ := strchr_split payload quote_char q1 hq1
            obtain ⟨h3, h4⟩ := strrchr_split payload quote_char q2 hq2
            have hdrop : payload.drop q2 = quote_char :: payload.drop (q2 + 1) := by
              conv_lhs => rw [h3]
              have hl : (payload.take q2).length = q2 := by
                have hlen := congrArg List.length h3
                simp only [List.length_append, List.length_cons, List.length_take,
                  List.length_drop] at hlen
                simp only [List.length_take]
                omega
              rw [List.drop_append_of_le_length (by omega)]
              rw [List.drop_eq_nil_of_le (by omega)]
              rfl
            refine ⟨?_, ?_, ?_⟩
            · simp only [List.length_map, List.length_take]
              omega
            · intro hn
              simp at hn
            · intro _
              refine ⟨payload.take q1, (payload.drop (q1 + 1)).take (q2 - q1 - 1),
                payload.drop (q2 + 1), ?_, h2, h4, ?_⟩
              · have hmid : payload.drop (q1 + 1)
                    = (payload.drop (q1 + 1)).take (q2 - q1 - 1)
                      ++ quote_char :: payload.drop (q2 + 1) := by
                  conv_lhs => rw [← List.take_append_drop (q2 - q1 - 1) (payload.drop (q1 + 1))]
                  rw [List.drop_drop]
                  have : q2 - q1 - 1 + (q1 + 1) = q2 := by omega
                  rw [show q1 + 1 + (q2 - q1 - 1) = q2 by omega, hdrop]
                conv_lhs => rw [h1]
                rw [← hmid]
              · simp only [List.take_take]
                rw [Nat.min_comm]
          · simp at h
        · simp at h
      · simp at h
  | none =>
    simp only [hq1] at h
    cases hl : macro_steps_loop (strtok_tokens [] payload) none with
    | none => simp [hl] at h
    | some p =>
      obtain ⟨code, steps⟩ := p
      simp only [hl, Option.some.injEq] at h
      subst h
      have hb := macro_steps_loop_bounds (strtok_tokens [] payload) none code steps
        (by intro c acc hc; simp at hc) hl
      exact ⟨hb.1, fun _ => hb.2, fun hn => by simp at hn⟩

/-- C11: every macro stored by the parse of a description has a payload of at most
63 bytes, so that its terminating NUL lies inside the array of 64 bytes; the bytes
of a keystroke macro all lie in 1..37 (none is NUL); the payload of a named macro
is the text between the first and the last quote character of its record, cut
to 63 bytes. -/
theorem stored_macro_payload (pke : List Char → Int → Option keymap_entry) (old : SkinState)
    (lines : List (List Char)) (m : SkinMacro)
    (hm : m ∈ (skin_load_records pke old lines).g.macrolist) :
    m.macro_.length ≤ SKIN_MAX_MACRO_LENGTH
      ∧ m.macro_.length + 1 ≤ SKIN_MAX_MACRO_LENGTH + 1
      ∧ (m.isName = false → ∀ b ∈ m.macro_, 1 ≤ b ∧ b ≤ 37)
      ∧ (m.isName = true → ∃ line ∈ lines, ∃ pre mid post : List Char,
          line.drop 6 = pre ++ quote_char :: (mid ++ quote_char :: post)
            ∧ quote_char ∉ pre ∧ quote_char ∉ post
            ∧ m.macro_ = (mid.take SKIN_MAX_MACRO_LENGTH).map Char.toNat) := by
  rw [skin_load_records_macrolist, List.mem_reverse, List.mem_filterMap] at hm
  obtain ⟨line, hline, hrec⟩ := hm
  unfold macro_record at hrec
  split at hrec
  · obtain ⟨h1, h2, h3⟩ := parse_macro_record_payload (line.drop 6) m hrec
    exact ⟨h1, by omega, h2, fun hn => ⟨line, hline, h3 hn⟩⟩
  · simp at hrec

/-- C11 on a description with a named and a keystroke record. -/
theorem stored_macro_payload_witness :
    (⟨100, true, [65, 66]⟩ : SkinMacro)
        ∈ (skin_load_records (fun _ _ => none) SkinState.initial
            ["macro: 100 \"AB\"".toList, "macro: 101 1 37".toList]).g.macrolist
      ∧ (⟨100, true, [65, 66]⟩ : SkinMacro).macro_.length ≤ SKIN_MAX_MACRO_LENGTH :=
  ⟨by decide,
    (stored_macro_payload (fun _ _ => none) SkinState.initial
      ["macro: 100 \"AB\"".toList, "macro: 101 1 37".toList] ⟨100, true, [65, 66]⟩
      (by decide)).1⟩

/-! ## Arithmetic on doubles -/

/-- The function `pow2` is the power of two with an integer exponent. -/
theorem pow2_eq_zpow (e : Int) : pow2 e = (2 : ℚ) ^ e := by
  unfold pow2
  split
  · rename_i h
    have : e = (e.toNat : Int) := (Int.toNat_of_nonneg h).symm
    conv_rhs => rw [this]
    rw [zpow_natCast]
    push_cast
    rfl
  · rename_i h
    have : e = -((-e).toNat : Int) := by omega
    conv_rhs => rw [this]
    rw [zpow_neg, zpow_natCast]
    push_cast
    rw [one_div]

/-- The powers of two are positive. -/
theorem pow2_pos (e : Int) : 0 < pow2 e := by
  rw [pow2_eq_zpow]
  exact zpow_pos (by norm_num) e

/-- The exponent of a sum is the product of the powers. -/
theorem pow2_add (a b : Int) : pow2 (a + b) = pow2 a * pow2 b := by
  simp only [pow2_eq_zpow]
  exact zpow_add₀ (by norm_num) a b

/-- The powers of two grow with the exponent. -/
theorem pow2_lt_iff (a b : Int) : pow2 a < pow2 b ↔ a < b := by
  simp only [pow2_eq_zpow]
  exact zpow_lt_zpow_iff_right₀ (by norm_num)

/-- The powers of two grow with the exponent. -/
theorem pow2_le_iff (a b : Int) : pow2 a ≤ pow2 b ↔ a ≤ b := by
  simp only [pow2_eq_zpow]
  exact zpow_le_zpow_iff_right₀ (by norm_num)

/-- A power of two with a natural exponent. -/
theorem pow2_natCast (n : Nat) : pow2 (n : Int) = (2 : ℚ) ^ n := by
  rw [pow2_eq_zpow, zpow_natCast]

/-- The loop with enough fuel brackets the number between two powers of two. -/
theorem log2_loop_bounds (fuel : Nat) :
    ∀ n : Nat, n ≤ fuel → n ≠ 0 →
      2 ^ log2_loop fuel n ≤ n ∧ n < 2 ^ (log2_loop fuel n + 1) := by
  induction fuel with
  | zero =>
    intro n h h0
    omega
  | succ fuel ih =>
    intro n h h0
    unfold log2_loop
    by_cases h2 : 2 ≤ n
    · rw [if_pos h2]
      obtain ⟨a, b⟩ := ih (n / 2) (by omega) (by omega)
      rw [pow_succ, pow_succ]
      constructor
      · have := Nat.div_mul_le_self n 2
        calc 2 ^ log2_loop fuel (n / 2) * 2 ≤ n / 2 * 2 := Nat.mul_le_mul_right 2 a
          _ ≤ n := this
      · have h3 : n < (n / 2 + 1) * 2 := by omega
        have h4 : n / 2 + 1 ≤ 2 ^ log2_loop fuel (n / 2) * 2 := by
          rw [pow_succ] at b
          omega
        calc n < (n / 2 + 1) * 2 := h3
          _ ≤ 2 ^ log2_loop fuel (n / 2) * 2 * 2 := Nat.mul_le_mul_right 2 h4
    · rw [if_neg h2]
      simp only [pow_zero, zero_add, pow_one]
      omega

/-- The power of two of the bit position is at most the number. -/
theorem nat_log2_self_le (n : Nat) (h : n ≠ 0) : 2 ^ nat_log2 n ≤ n :=
  (log2_loop_bounds n n (le_refl n) h).1

/-- The number is below the next power of two. -/
theorem lt_nat_log2_self (n : Nat) : n < 2 ^ (nat_log2 n + 1) := by
  by_cases h : n = 0
  · subst h
    simp [nat_log2, log2_loop]
  · exact (log2_loop_bounds n n (le_refl n) h).2

/-- The exponent that `binade` gives to a positive rational: `2 ^ e <= a` and
`a < 2 ^ (e + 1)`. -/
theorem binade_bounds (a : ℚ) (ha : 0 < a) :
    pow2 (binade a) ≤ a ∧ a < pow2 (binade a + 1) := by
  have hnum : 0 < a.num := Rat.num_pos.2 ha
  have hn0 : a.num.natAbs ≠ 0 := by
    intro h
    have := Int.natAbs_eq_zero.1 h
    omega
  have hd0 : a.den ≠ 0 := a.den_ne_zero
  have hn1 : (2 : ℚ) ^ nat_log2 a.num.natAbs ≤ (a.num.natAbs : ℚ) := by
    exact_mod_cast nat_log2_self_le _ hn0
  have hn2 : (a.num.natAbs : ℚ) < (2 : ℚ) ^ (nat_log2 a.num.natAbs + 1) := by
    exact_mod_cast lt_nat_log2_self a.num.natAbs
  have hd1 : (2 : ℚ) ^ nat_log2 a.den ≤ (a.den : ℚ) := by
    exact_mod_cast nat_log2_self_le _ hd0
  have hd2 : (a.den : ℚ) < (2 : ℚ) ^ (nat_log2 a.den + 1) := by
    exact_mod_cast lt_nat_log2_self a.den
  have hdpos : (0 : ℚ) < (a.den : ℚ) := by exact_mod_cast Nat.pos_of_ne_zero hd0
  have haeq : a = (a.num.natAbs : ℚ) / (a.den : ℚ) := by
    have h1 : (a.num.natAbs : Int) = a.num := Int.natAbs_of_nonneg (le_of_lt hnum)
    have h2 : (a.num.natAbs : ℚ) = (a.num : ℚ) := by
      have h3 : ((a.num.natAbs : Int) : ℚ) = (a.num : ℚ) := by rw [h1]
      rw [← h3, Int.cast_natCast]
    rw [h2]
    exact (Rat.num_div_den a).symm
  -- the two estimates of the quotient
  have hup : a < pow2 ((nat_log2 a.num.natAbs : Int) - (nat_log2 a.den : Int) + 1) := by
    rw [show ((nat_log2 a.num.natAbs : Int) - (nat_log2 a.den : Int) + 1)
      = ((nat_log2 a.num.natAbs + 1 : Nat) : Int) + (-(nat_log2 a.den : Int)) by push_cast; ring,
      pow2_add, pow2_natCast, pow2_eq_zpow, zpow_neg, zpow_natCast]
    conv_lhs => rw [haeq]
    rw [div_eq_mul_inv]
    have hinv : ((a.den : ℚ))⁻¹ ≤ ((2 : ℚ) ^ nat_log2 a.den)⁻¹ :=
      inv_anti₀ (by positivity) hd1
    calc (a.num.natAbs : ℚ) * ((a.den : ℚ))⁻¹
        < (2 : ℚ) ^ (nat_log2 a.num.natAbs + 1) * ((a.den : ℚ))⁻¹ :=
          mul_lt_mul_of_pos_right hn2 (inv_pos.2 hdpos)
      _ ≤ (2 : ℚ) ^ (nat_log2 a.num.natAbs + 1) * ((2 : ℚ) ^ nat_log2 a.den)⁻¹ :=
          mul_le_mul_of_nonneg_left hinv (by positivity)
  have hlow : pow2 ((nat_log2 a.num.natAbs : Int) - (nat_log2 a.den : Int) - 1) ≤ a := by
    rw [show ((nat_log2 a.num.natAbs : Int) - (nat_log2 a.den : Int) - 1)
      = ((nat_log2 a.num.natAbs : Nat) : Int) + (-((nat_log2 a.den + 1 : Nat) : Int)) by push_cast; ring,
      pow2_add, pow2_natCast, pow2_eq_zpow, zpow_neg, zpow_natCast]
    conv_rhs => rw [haeq]
    rw [div_eq_mul_inv]
    have hinv : ((2 : ℚ) ^ (nat_log2 a.den + 1))⁻¹ ≤ ((a.den : ℚ))⁻¹ :=
      inv_anti₀ hdpos (le_of_lt hd2)
    calc (2 : ℚ) ^ nat_log2 a.num.natAbs * ((2 : ℚ) ^ (nat_log2 a.den + 1))⁻¹
        ≤ (a.num.natAbs : ℚ) * ((2 : ℚ) ^ (nat_log2 a.den + 1))⁻¹ :=
          mul_le_mul_of_nonneg_right hn1 (by positivity)
      _ ≤ (a.num.natAbs : ℚ) * ((a.den : ℚ))⁻¹ :=
          mul_le_mul_of_nonneg_left hinv (by positivity)
  unfold binade
  split
  · rename_i h
    exact ⟨h, hup⟩
  · rename_i h
    refine ⟨hlow, ?_⟩
    rw [show (nat_log2 a.num.natAbs : Int) - (nat_log2 a.den : Int) - 1 + 1
      = (nat_log2 a.num.natAbs : Int) - (nat_log2 a.den : Int) by ring]
    exact lt_of_not_le h

/-- The nearest integer lies between the floor and the floor plus one. -/
theorem round_half_even_floor (m : ℚ) :
    ⌊m⌋ ≤ round_half_even m ∧ round_half_even m ≤ ⌊m⌋ + 1 := by
  unfold round_half_even
  split
  · omega
  · split
    · omega
    · split <;> omega

/-- The nearest integer is at most one half away. -/
theorem round_half_even_error (m : ℚ) : |(round_half_even m : ℚ) - m| ≤ 1 / 2 := by
  have h1 := Int.floor_le m
  have h2 := Int.lt_floor_add_one m
  rw [abs_le]
  unfold round_half_even
  split
  · constructor <;> linarith
  · split
    · push_cast
      constructor <;> linarith
    · rename_i ha hb
      split
      · constructor <;> linarith
      · push_cast
        constructor <;> linarith

/-- The nearest integer of an integer is that integer. -/
theorem round_half_even_int (z : Int) : round_half_even (z : ℚ) = z := by
  unfold round_half_even
  rw [Int.floor_intCast, sub_self, if_pos (by norm_num)]

/-- Rounding commutes with the change of sign. -/
theorem round_double_neg (q : ℚ) : round_double (-q) = -round_double q := by
  unfold round_double
  rcases lt_trichotomy q 0 with h | h | h
  · rw [if_neg (by linarith), if_pos (by linarith), if_neg (by linarith), if_neg (by linarith),
      neg_neg]
  · subst h
    simp
  · rw [if_neg (by linarith), if_neg (by linarith), if_neg (by linarith), if_pos h, neg_neg]

/-- The scaled value `q / 2 ^ (e - 52)` of a positive rational has 53 bits before
the point. -/
theorem scaled_bounds (q : ℚ) (hq : 0 < q) :
    (2 : ℚ) ^ 52 ≤ q / pow2 (binade q - 52) ∧ q / pow2 (binade q - 52) < (2 : ℚ) ^ 53 := by
  obtain ⟨h1, h2⟩ := binade_bounds q hq
  have hp := pow2_pos (binade q - 52)
  have e1 : pow2 (binade q) = pow2 (binade q - 52) * (2 : ℚ) ^ 52 := by
    rw [show binade q = (binade q - 52) + ((52 : Nat) : Int) by push_cast; ring, pow2_add,
      pow2_natCast]
    simp
  have e2 : pow2 (binade q + 1) = pow2 (binade q - 52) * (2 : ℚ) ^ 53 := by
    rw [show binade q + 1 = (binade q - 52) + ((53 : Nat) : Int) by push_cast; ring, pow2_add,
      pow2_natCast]
  constructor
  · rw [le_div_iff₀ hp]
    linarith
  · rw [div_lt_iff₀ hp]
    linarith

/-- The rounded value of a positive rational. -/
theorem round_double_of_pos (q : ℚ) (hq : 0 < q) :
    round_double q
      = (round_half_even (q / pow2 (binade q - 52)) : ℚ) * pow2 (binade q - 52) := by
  unfold round_double
  rw [if_neg (ne_of_gt hq), if_pos hq]

/-- The error of a rounding is at most the fraction `2 ^ -53` of the exact value. -/
theorem round_double_error (q : ℚ) : |round_double q - q| ≤ |q| / (2 : ℚ) ^ 53 := by
  have hpos : ∀ r : ℚ, 0 < r → |round_double r - r| ≤ |r| / (2 : ℚ) ^ 53 := by
    intro r hr
    have hp := pow2_pos (binade r - 52)
    obtain ⟨hb, _⟩ := binade_bounds r hr
    have herr := round_half_even_error (r / pow2 (binade r - 52))
    have e1 : pow2 (binade r) = pow2 (binade r - 52) * (2 : ℚ) ^ 52 := by
      rw [show binade r = (binade r - 52) + ((52 : Nat) : Int) by push_cast; ring, pow2_add,
        pow2_natCast]
      simp
    have hsplit : round_double r - r
        = ((round_half_even (r / pow2 (binade r - 52)) : ℚ) - r / pow2 (binade r - 52))
          * pow2 (binade r - 52) := by
      rw [round_double_of_pos r hr]
      field_simp
    rw [hsplit, abs_mul, abs_of_pos hp, abs_of_pos hr, le_div_iff₀ (by positivity)]
    calc |(round_half_even (r / pow2 (binade r - 52)) : ℚ) - r / pow2 (binade r - 52)|
          * pow2 (binade r - 52) * (2 : ℚ) ^ 53
        ≤ 1 / 2 * pow2 (binade r - 52) * (2 : ℚ) ^ 53 := by
          apply mul_le_mul_of_nonneg_right _ (by positivity)
          exact mul_le_mul_of_nonneg_right herr (le_of_lt hp)
      _ = pow2 (binade r) := by rw [e1]; ring
      _ ≤ r := hb
  rcases lt_trichotomy q 0 with h | h | h
  · have := hpos (-q) (by linarith)
    rw [round_double_neg, abs_neg] at this
    rw [show round_double q - q = -(-round_double q - -q) by ring, abs_neg]
    exact this
  · subst h
    simp [round_double]
  · exact hpos q h

/-- The rounded value of a positive rational is positive. -/
theorem round_double_pos (q : ℚ) (hq : 0 < q) : 0 < round_double q := by
  have h := round_double_error q
  rw [abs_of_pos hq, abs_le] at h
  have : q / (2 : ℚ) ^ 53 < q := by
    rw [div_lt_iff₀ (by positivity)]
    have : (1 : ℚ) < (2 : ℚ) ^ 53 := by norm_num
    nlinarith
  linarith

/-- The rounded value of a rational that is not negative is not negative. -/
theorem round_double_nonneg (q : ℚ) (hq : 0 ≤ q) : 0 ≤ round_double q := by
  rcases eq_or_lt_of_le hq with h | h
  · subst h
    simp [round_double]
  · exact le_of_lt (round_double_pos q h)

/-- The rounded value of a rational that is not positive is not positive. -/
theorem round_double_nonpos (q : ℚ) (hq : q ≤ 0) : round_double q ≤ 0 := by
  have := round_double_nonneg (-q) (by linarith)
  rw [round_double_neg] at this
  linarith

/-- A double with the sign changed is a double. -/
theorem is_double_neg (q : ℚ) (h : is_double q) : is_double (-q) := by
  obtain ⟨n, k, hn, hq⟩ := h
  refine ⟨-n, k, by rw [abs_neg]; exact hn, ?_⟩
  rw [hq]
  push_cast
  ring

/-- A double times a power of two is a double. -/
theorem is_double_mul_pow2 (q : ℚ) (j : Int) (h : is_double q) : is_double (q * pow2 j) := by
  obtain ⟨n, k, hn, hq⟩ := h
  refine ⟨n, k + j, hn, ?_⟩
  rw [hq, pow2_add]
  ring

/-- An integer of fewer than 54 bits is a double. -/
theorem is_double_int (n : Int) (hn : |n| < 2 ^ 53) : is_double (n : ℚ) := by
  refine ⟨n, 0, hn, ?_⟩
  simp [pow2]

/-- Rounding leaves a double as it is. -/
theorem round_double_of_is_double (q : ℚ) (h : is_double q) : round_double q = q := by
  have hpos : ∀ (n k : Int), 0 < n → n < 2 ^ 53 →
      round_double ((n : ℚ) * pow2 k) = (n : ℚ) * pow2 k := by
    intro n k hn0 hn
    have hnq : (0 : ℚ) < (n : ℚ) := by exact_mod_cast hn0
    have hq : 0 < (n : ℚ) * pow2 k := mul_pos hnq (pow2_pos k)
    obtain ⟨hb, _⟩ := binade_bounds _ hq
    have hlt : pow2 (binade ((n : ℚ) * pow2 k)) < pow2 (53 + k) := by
      have hn53 : (n : ℚ) < (2 : ℚ) ^ 53 := by exact_mod_cast hn
      have : (n : ℚ) * pow2 k < pow2 (53 + k) := by
        rw [pow2_add, show pow2 53 = (2 : ℚ) ^ 53 from pow2_natCast 53]
        exact mul_lt_mul_of_pos_right hn53 (pow2_pos k)
      linarith
    rw [pow2_lt_iff] at hlt
    rw [round_double_of_pos _ hq]
    generalize binade ((n : ℚ) * pow2 k) = e at hlt ⊢
    have hj : 0 ≤ k - e + 52 := by omega
    have hk : pow2 k = pow2 (k - e + 52) * pow2 (e - 52) := by
      rw [← pow2_add]
      congr 1
      ring
    have hm : (n : ℚ) * pow2 k / pow2 (e - 52)
        = ((n * 2 ^ (k - e + 52).toNat : Int) : ℚ) := by
      rw [hk]
      have hp := pow2_pos (e - 52)
      field_simp
      rw [show pow2 (k - e + 52) = (2 : ℚ) ^ (k - e + 52).toNat by
        rw [← pow2_natCast, Int.toNat_of_nonneg hj]]
      ring
    rw [hm, round_half_even_int, hk]
    rw [show pow2 (k - e + 52) = (2 : ℚ) ^ (k - e + 52).toNat by
      rw [← pow2_natCast, Int.toNat_of_nonneg hj]]
    push_cast
    ring
  obtain ⟨n, k, hn, hq⟩ := h
  rw [abs_lt] at hn
  rcases lt_trichotomy n 0 with h | h | h
  · have := hpos (-n) k (by omega) (by omega)
    have e : (((-n : Int) : ℚ)) * pow2 k = -q := by
      rw [hq]
      push_cast
      ring
    rw [e, round_double_neg] at this
    linarith
  · subst h
    rw [hq]
    simp [round_double]
  · rw [hq]
    exact hpos n k h hn.2

/-- The value that a rounding delivers is a double. -/
theorem is_double_round_double (q : ℚ) : is_double (round_double q) := by
  have hpos : ∀ r : ℚ, 0 < r → is_double (round_double r) := by
    intro r hr
    obtain ⟨h1, h2⟩ := scaled_bounds r hr
    obtain ⟨f1, f2⟩ := round_half_even_floor (r / pow2 (binade r - 52))
    have hfl : ⌊r / pow2 (binade r - 52)⌋ < 2 ^ 53 := by
      rw [Int.floor_lt]
      exact_mod_cast h2
    have hfl0 : (2 : Int) ^ 52 ≤ ⌊r / pow2 (binade r - 52)⌋ := by
      rw [Int.le_floor]
      exact_mod_cast h1
    rw [round_double_of_pos r hr]
    generalize round_half_even (r / pow2 (binade r - 52)) = k at f1 f2
    by_cases hk : k < 2 ^ 53
    · exact ⟨k, binade r - 52, by rw [abs_lt]; omega, rfl⟩
    · have hk2 : k = 2 ^ 53 := by omega
      refine ⟨2 ^ 52, binade r - 51, by norm_num, ?_⟩
      rw [hk2, show binade r - 51 = ((1 : Nat) : Int) + (binade r - 52) by push_cast; ring,
        pow2_add, pow2_natCast]
      push_cast
      ring
  rcases lt_trichotomy q 0 with h | h | h
  · have := is_double_neg _ (hpos (-q) (by linarith))
    rw [round_double_neg, neg_neg] at this
    exact this
  · subst h
    refine ⟨0, 0, by norm_num, ?_⟩
    simp [round_double]
  · exact hpos q h

/-- The conversion of a double to `int` gives an integer that is a double. -/
theorem is_double_double_to_int (d : ℚ) (h : is_double d) :
    is_double ((double_to_int d : Int) : ℚ) := by
  obtain ⟨n, k, hn, hq⟩ := h
  by_cases hk : 0 ≤ k
  · have hint : d = ((n * 2 ^ k.toNat : Int) : ℚ) := by
      rw [hq, show pow2 k = (2 : ℚ) ^ k.toNat by rw [← pow2_natCast, Int.toNat_of_nonneg hk]]
      push_cast
      ring
    have htr : double_to_int d = n * 2 ^ k.toNat := by
      unfold double_to_int
      rw [hint]
      split
      · exact Int.floor_intCast _
      · exact Int.ceil_intCast _
    rw [htr, ← hint]
    exact ⟨n, k, hn, hq⟩
  · apply is_double_int
    have hp1 : pow2 k ≤ 1 := by
      have := (pow2_le_iff k 0).2 (by omega)
      simpa [pow2] using this
    have hp0 := pow2_pos k
    have hnq : |(n : ℚ)| < (2 : ℚ) ^ 53 := by
      have : ((|n| : Int) : ℚ) < ((2 ^ 53 : Int) : ℚ) := by exact_mod_cast hn
      push_cast at this
      exact this
    have hd : |d| < (2 : ℚ) ^ 53 := by
      rw [hq, abs_mul, abs_of_pos hp0]
      calc |(n : ℚ)| * pow2 k ≤ |(n : ℚ)| * 1 :=
            mul_le_mul_of_nonneg_left hp1 (abs_nonneg _)
        _ < (2 : ℚ) ^ 53 := by rw [mul_one]; exact hnq
    rw [abs_lt] at hd ⊢
    unfold double_to_int
    split
    · rename_i h0
      have h1 := Int.floor_le d
      have h2 : (0 : Int) ≤ ⌊d⌋ := Int.floor_nonneg.2 h0
      constructor
      · omega
      · have : ((⌊d⌋ : Int) : ℚ) < ((2 ^ 53 : Int) : ℚ) := by
          push_cast
          linarith
        exact_mod_cast this
    · rename_i h0
      have h1 := Int.le_ceil d
      have h2 : ⌈d⌉ ≤ (0 : Int) := by
        rw [Int.ceil_le]
        push_cast
        linarith
      constructor
      · have : ((-(2 ^ 53) : Int) : ℚ) < ((⌈d⌉ : Int) : ℚ) := by
          push_cast
          linarith
        exact_mod_cast this
      · omega

/-- The nearest integer does not pass an integer above the rational. -/
theorem round_half_even_le_int (y : ℚ) (z : Int) (h : y ≤ (z : ℚ)) : round_half_even y ≤ z := by
  have hf : ⌊y⌋ ≤ z := by
    have : ((⌊y⌋ : Int) : ℚ) ≤ (z : ℚ) := le_trans (Int.floor_le y) h
    exact_mod_cast this
  rcases lt_or_eq_of_le hf with hlt | heq
  · have := (round_half_even_floor y).2
    omega
  · have hy : y = (z : ℚ) := by
      apply le_antisymm h
      rw [← heq]
      exact Int.floor_le y
    rw [hy, round_half_even_int]

/-- Rounding does not pass a double above the exact value: for `0 < x <= m` with
`m` a double, the rounded `x` is at most `m`. -/
theorem round_double_le_double (x m : ℚ) (hx : 0 < x) (hxm : x ≤ m) (hm : is_double m) :
    round_double x ≤ m := by
  obtain ⟨hb1, hb2⟩ := binade_bounds x hx
  obtain ⟨s1, s2⟩ := scaled_bounds x hx
  have hQ := pow2_pos (binade x - 52)
  rw [round_double_of_pos x hx]
  by_cases hbig : pow2 (binade x + 1) ≤ m
  · have hfl : ⌊x / pow2 (binade x - 52)⌋ < 2 ^ 53 := by
      rw [Int.floor_lt]
      exact_mod_cast s2
    have hr := (round_half_even_floor (x / pow2 (binade x - 52))).2
    have hr2 : ((round_half_even (x / pow2 (binade x - 52)) : Int) : ℚ) ≤ (2 : ℚ) ^ 53 := by
      have : round_half_even (x / pow2 (binade x - 52)) ≤ 2 ^ 53 := by omega
      exact_mod_cast this
    have e2 : pow2 (binade x + 1) = (2 : ℚ) ^ 53 * pow2 (binade x - 52) := by
      rw [show binade x + 1 = ((53 : Nat) : Int) + (binade x - 52) by push_cast; ring, pow2_add,
        pow2_natCast]
    calc (round_half_even (x / pow2 (binade x - 52)) : ℚ) * pow2 (binade x - 52)
        ≤ (2 : ℚ) ^ 53 * pow2 (binade x - 52) := mul_le_mul_of_nonneg_right hr2 (le_of_lt hQ)
      _ = pow2 (binade x + 1) := e2.symm
      _ ≤ m := hbig
  · obtain ⟨n, k, hn, hq⟩ := hm
    rw [abs_lt] at hn
    have hmpos : 0 < m := lt_of_lt_of_le hx hxm
    have hn0 : 0 < n := by
      by_contra hneg
      have : (n : ℚ) ≤ 0 := by exact_mod_cast (not_lt.1 hneg)
      have : m ≤ 0 := by
        rw [hq]
        exact mul_nonpos_of_nonpos_of_nonneg this (le_of_lt (pow2_pos k))
      linarith
    have hlt : pow2 (binade x) < pow2 (53 + k) := by
      have hn53 : (n : ℚ) < (2 : ℚ) ^ 53 := by exact_mod_cast hn.2
      have : (n : ℚ) * pow2 k < pow2 (53 + k) := by
        rw [pow2_add, show pow2 53 = (2 : ℚ) ^ 53 from pow2_natCast 53]
        exact mul_lt_mul_of_pos_right hn53 (pow2_pos k)
      linarith
    rw [pow2_lt_iff] at hlt
    have hj : 0 ≤ k - binade x + 52 := by omega
    have hk : pow2 k = pow2 (k - binade x + 52) * pow2 (binade x - 52) := by
      rw [← pow2_add]
      congr 1
      ring
    have hpj : pow2 (k - binade x + 52) = (2 : ℚ) ^ (k - binade x + 52).toNat := by
      rw [← pow2_natCast, Int.toNat_of_nonneg hj]
    have hmz : m = ((n * 2 ^ (k - binade x + 52).toNat : Int) : ℚ) * pow2 (binade x - 52) := by
      rw [hq, hk, hpj]
      push_cast
      ring
    have hle : x / pow2 (binade x - 52) ≤ ((n * 2 ^ (k - binade x + 52).toNat : Int) : ℚ) := by
      rw [div_le_iff₀ hQ, ← hmz]
      exact hxm
    have := round_half_even_le_int _ _ hle
    have hq2 : ((round_half_even (x / pow2 (binade x - 52)) : Int) : ℚ)
        ≤ ((n * 2 ^ (k - binade x + 52).toNat : Int) : ℚ) := by exact_mod_cast this
    rw [hmz]
    exact mul_le_mul_of_nonneg_right hq2 (le_of_lt hQ)

/-- The power `2 ^ -3`. -/
theorem pow2_neg_three : pow2 (-3) = 1 / 8 := by
  rw [pow2_eq_zpow]
  norm_num [zpow_neg]

/-! ## Geometry adjustment -/

/-- The coordinates after the adjustment when the computed `extra` is not
positive: nothing moves. -/
theorem skin_load_adjust_no_shift (ls : LoadState) (requested_rows requested_cols : Int)
    (h : ¬ skin_load_extra ls (skin_load_clamp_rows ls requested_rows requested_cols)
      requested_cols > 0) :
    (skin_load_adjust ls requested_rows requested_cols).g.skin = ls.g.skin
      ∧ (skin_load_adjust ls requested_rows requested_cols).g.keylist = ls.g.keylist
      ∧ (skin_load_adjust ls requested_rows requested_cols).g.annunciators = ls.g.annunciators
      ∧ (skin_load_adjust ls requested_rows requested_cols).g.alt_bak = ls.g.alt_bak
      ∧ (skin_load_adjust ls requested_rows requested_cols).g.alt_key = ls.g.alt_key
      ∧ (skin_load_adjust ls requested_rows requested_cols).extra = 0 := by
  unfold skin_load_adjust
  simp only [h, if_false]
  refine ⟨?_, ?_, ?_, ?_, ?_, trivial⟩ <;> (split <;> rfl)

/-- The coordinates after the adjustment when the computed `extra` is positive:
the block `Fix coordinates` has run. -/
theorem skin_load_adjust_shift (ls : LoadState) (requested_rows requested_cols : Int)
    (h : skin_load_extra ls (skin_load_clamp_rows ls requested_rows requested_cols)
      requested_cols > 0) :
    (skin_load_adjust ls requested_rows requested_cols).g.skin
        = { ls.g.skin with
            height := (ls.g.skin.height
              + skin_load_extra ls (skin_load_clamp_rows ls requested_rows requested_cols)
                  requested_cols) }
      ∧ (skin_load_adjust ls requested_rows requested_cols).g.keylist
        = ls.g.keylist.map (shift_key (zone_first_y ls)
            (skin_load_extra ls (skin_load_clamp_rows ls requested_rows requested_cols)
              requested_cols))
      ∧ (skin_load_adjust ls requested_rows requested_cols).g.annunciators
        = ls.g.annunciators.map (shift_annunciator (zone_first_y ls)
            (skin_load_extra ls (skin_load_clamp_rows ls requested_rows requested_cols)
              requested_cols))
      ∧ (skin_load_adjust ls requested_rows requested_cols).g.alt_bak
        = ls.g.alt_bak.map (shift_alt_bak (zone_first_y ls)
            (skin_load_extra ls (skin_load_clamp_rows ls requested_rows requested_cols)
              requested_cols))
      ∧ (skin_load_adjust ls requested_rows requested_cols).g.alt_key
        = ls.g.alt_key.map (shift_alt_key (zone_first_y ls)
            (skin_load_extra ls (skin_load_clamp_rows ls requested_rows requested_cols)
              requested_cols))
      ∧ (skin_load_adjust ls requested_rows requested_cols).extra
        = skin_load_extra ls (skin_load_clamp_rows ls requested_rows requested_cols)
            requested_cols := by
  unfold skin_load_adjust
  simp only [h, if_true]
  refine ⟨?_, ?_, ?_, ?_, ?_, trivial⟩ <;> (split <;> rfl)

/-- C12: whenever `requested_rows * ys * 8` equals `available`, the computed `extra`
is 0 and the adjustment leaves the skin rectangle (its height included) and every
key, annunciator, alternate background and alternate key exactly as parsed. -/
theorem adjust_identity (ls : LoadState) (requested_rows requested_cols : Int)
    (h : ((skin_load_clamp_rows ls requested_rows requested_cols : Int) : ℚ)
        * skin_load_ys ls (skin_load_clamp_rows ls requested_rows requested_cols) requested_cols
        * 8 = (skin_load_available ls : ℚ)) :
    skin_load_extra ls (skin_load_clamp_rows ls requested_rows requested_cols) requested_cols = 0
      ∧ (skin_load_adjust ls requested_rows requested_cols).extra = 0
      ∧ (skin_load_adjust ls requested_rows requested_cols).g.skin = ls.g.skin
      ∧ (skin_load_adjust ls requested_rows requested_cols).g.keylist = ls.g.keylist
      ∧ (skin_load_adjust ls requested_rows requested_cols).g.annunciators = ls.g.annunciators
      ∧ (skin_load_adjust ls requested_rows requested_cols).g.alt_bak = ls.g.alt_bak
      ∧ (skin_load_adjust ls requested_rows requested_cols).g.alt_key = ls.g.alt_key := by
  have h0 : skin_load_extra ls (skin_load_clamp_rows ls requested_rows requested_cols)
      requested_cols = 0 := by
    have hav : is_double (skin_load_available ls : ℚ) := by
      unfold skin_load_available double_mul
      exact is_double_double_to_int _ (is_double_round_double _)
    have hprod : ((skin_load_clamp_rows ls requested_rows requested_cols : Int) : ℚ)
        * skin_load_ys ls (skin_load_clamp_rows ls requested_rows requested_cols) requested_cols
        = (skin_load_available ls : ℚ) * pow2 (-3) := by
      rw [pow2_neg_three, ← h]
      ring
    unfold skin_load_extra double_sub double_mul
    rw [hprod, round_double_of_is_double _ (is_double_mul_pow2 _ _ hav),
      show (skin_load_available ls : ℚ) * pow2 (-3) * 8 = (skin_load_available ls : ℚ) by
        rw [pow2_neg_three]
        ring,
      round_double_of_is_double _ hav, sub_self]
    simp [double_to_int, round_double]
  obtain ⟨h1, h2, h3, h4, h5, h6⟩ :=
    skin_load_adjust_no_shift ls requested_rows requested_cols (by rw [h0]; decide)
  exact ⟨h0, h6, h1, h2, h3, h4, h5⟩

/-- C12 on the description of the specification, loaded for 2 rows and 22
columns: `extra` is 0, the skin is 100 by 200 and the key is as parsed. -/
theorem adjust_identity_witness :
    (((skin_load_clamp_rows
          (skin_load_records (fun _ _ => none) SkinState.initial
            ["skin: 0,0,100,200".toList, "display: 10,10 1.0 1.0 000000 ffffff".toList,
              "key: 1 0,0,10,10 0,0,10,10 0,0".toList, "displaysize: 22,2".toList]) 2 22 : Int) : ℚ)
        * skin_load_ys
            (skin_load_records (fun _ _ => none) SkinState.initial
              ["skin: 0,0,100,200".toList, "display: 10,10 1.0 1.0 000000 ffffff".toList,
                "key: 1 0,0,10,10 0,0,10,10 0,0".toList, "displaysize: 22,2".toList])
            (skin_load_clamp_rows
              (skin_load_records (fun _ _ => none) SkinState.initial
                ["skin: 0,0,100,200".toList, "display: 10,10 1.0 1.0 000000 ffffff".toList,
                  "key: 1 0,0,10,10 0,0,10,10 0,0".toList, "displaysize: 22,2".toList]) 2 22) 22
        * 8
        = (skin_load_available
            (skin_load_records (fun _ _ => none) SkinState.initial
              ["skin: 0,0,100,200".toList, "display: 10,10 1.0 1.0 000000 ffffff".toList,
                "key: 1 0,0,10,10 0,0,10,10 0,0".toList, "displaysize: 22,2".toList]) : ℚ))
      ∧ (skin_load_adjust
        (skin_load_records (fun _ _ => none) SkinState.initial
          ["skin: 0,0,100,200".toList, "display: 10,10 1.0 1.0 000000 ffffff".toList,
            "key: 1 0,0,10,10 0,0,10,10 0,0".toList, "displaysize: 22,2".toList]) 2 22).extra = 0
      ∧ (skin_load_adjust
        (skin_load_records (fun _ _ => none) SkinState.initial
          ["skin: 0,0,100,200".toList, "display: 10,10 1.0 1.0 000000 ffffff".toList,
            "key: 1 0,0,10,10 0,0,10,10 0,0".toList, "displaysize: 22,2".toList]) 2 22).g.skin
          = ⟨0, 0, 100, 200⟩
      ∧ (skin_load_adjust
        (skin_load_records (fun _ _ => none) SkinState.initial
          ["skin: 0,0,100,200".toList, "display: 10,10 1.0 1.0 000000 ffffff".toList,
            "key: 1 0,0,10,10 0,0,10,10 0,0".toList, "displaysize: 22,2".toList]) 2 22).g.keylist
          = [⟨1, 1, ⟨0, 0, 10, 10⟩, ⟨0, 0, 10, 10⟩, ⟨0, 0⟩⟩] :=
  have h := adjust_identity
    (skin_load_records (fun _ _ => none) SkinState.initial
      ["skin: 0,0,100,200".toList, "display: 10,10 1.0 1.0 000000 ffffff".toList,
        "key: 1 0,0,10,10 0,0,10,10 0,0".toList, "displaysize: 22,2".toList]) 2 22
    (by with_unfolding_all decide)
  ⟨by with_unfolding_all decide, h.2.1, h.2.2.1.trans (by decide), h.2.2.2.1.trans (by decide)⟩

/-- The statement on one coordinate gives the shift relation of the claims. -/
theorem shift_y_shifted (first extra y : Int) : y_shifted first extra y (shift_y first extra y) := by
  unfold y_shifted shift_y
  constructor
  · intro h
    rw [if_pos h]
  · intro h
    rw [if_neg (by omega)]

/-- C13: whenever the computed `extra` is positive, with `first` the start of the
duplication zone (the display origin Y when no zone was given), the skin height
grows by `extra`, the skin x, y and width are unchanged, and in every
annunciator, key, alternate background and alternate key each Y coordinate
becomes `old + extra` if `old > first` and stays `old` if `old <= first`, every
other field being unchanged; the tables keep their lengths and order. -/
theorem adjust_shift (ls : LoadState) (requested_rows requested_cols : Int)
    (h : 0 < skin_load_extra ls (skin_load_clamp_rows ls requested_rows requested_cols)
      requested_cols) :
    (skin_load_adjust ls requested_rows requested_cols).extra
        = skin_load_extra ls (skin_load_clamp_rows ls requested_rows requested_cols)
            requested_cols
      ∧ (skin_load_adjust ls requested_rows requested_cols).dup_first_y
        = (if ls.dup_first_y = 0 ∧ ls.dup_last_y = 0 then ls.g.display_loc.y
            else ls.dup_first_y)
      ∧ (skin_load_adjust ls requested_rows requested_cols).g.skin.height
        = ls.g.skin.height + (skin_load_adjust ls requested_rows requested_cols).extra
      ∧ (skin_load_adjust ls requested_rows requested_cols).g.skin.x = ls.g.skin.x
      ∧ (skin_load_adjust ls requested_rows requested_cols).g.skin.y = ls.g.skin.y
      ∧ (skin_load_adjust ls requested_rows requested_cols).g.skin.width = ls.g.skin.width
      ∧ List.Forall₂
          (annunciator_shifted (skin_load_adjust ls requested_rows requested_cols).dup_first_y
            (skin_load_adjust ls requested_rows requested_cols).extra)
          ls.g.annunciators (skin_load_adjust ls requested_rows requested_cols).g.annunciators
      ∧ List.Forall₂
          (key_shifted (skin_load_adjust ls requested_rows requested_cols).dup_first_y
            (skin_load_adjust ls requested_rows requested_cols).extra)
          ls.g.keylist (skin_load_adjust ls requested_rows requested_cols).g.keylist
      ∧ List.Forall₂
          (alt_bak_shifted (skin_load_adjust ls requested_rows requested_cols).dup_first_y
            (skin_load_adjust ls requested_rows requested_cols).extra)
          ls.g.alt_bak (skin_load_adjust ls requested_rows requested_cols).g.alt_bak
      ∧ List.Forall₂
          (alt_key_shifted (skin_load_adjust ls requested_rows requested_cols).dup_first_y
            (skin_load_adjust ls requested_rows requested_cols).extra)
          ls.g.alt_key (skin_load_adjust ls requested_rows requested_cols).g.alt_key := by
  obtain ⟨h1, h2, h3, h4, h5, h6⟩ := skin_load_adjust_shift ls requested_rows requested_cols h
  have hf : (skin_load_adjust ls requested_rows requested_cols).dup_first_y = zone_first_y ls := by
    unfold skin_load_adjust
    simp only [h, gt_iff_lt, if_true]
  rw [h1, h2, h3, h4, h5, hf, h6]
  refine ⟨rfl, rfl, rfl, rfl, rfl, rfl, ?_, ?_, ?_, ?_⟩
  · rw [List.forall₂_map_right_iff, List.forall₂_same]
    intro a _
    exact ⟨rfl, rfl, rfl, shift_y_shifted _ _ _, rfl, shift_y_shifted _ _ _⟩
  · rw [List.forall₂_map_right_iff, List.forall₂_same]
    intro k _
    exact ⟨rfl, rfl, rfl, rfl, rfl, shift_y_shifted _ _ _, rfl, rfl, rfl,
      shift_y_shifted _ _ _, rfl, shift_y_shifted _ _ _⟩
  · rw [List.forall₂_map_right_iff, List.forall₂_same]
    intro b _
    exact ⟨rfl, rfl, rfl, rfl, shift_y_shifted _ _ _, rfl, shift_y_shifted _ _ _⟩
  · rw [List.forall₂_map_right_iff, List.forall₂_same]
    intro k _
    exact ⟨rfl, rfl, rfl, shift_y_shifted _ _ _⟩

/-- C13 on a description with a key above and a key below the display, loaded for
4 rows: `extra` is 16, the skin grows from 200 to 216, the key at Y 5 stays and
the key at Y 50 moves to 66. -/
theorem adjust_shift_witness :
    0 < skin_load_extra
        (skin_load_records (fun _ _ => none) SkinState.initial
          ["skin: 0,0,100,200".toList, "display: 10,10 1.0 1.0 000000 ffffff".toList,
            "key: 1 0,5,10,10 0,5,10,10 0,5".toList,
            "key: 2 0,50,10,10 0,50,10,10 0,50".toList])
        (skin_load_clamp_rows
          (skin_load_records (fun _ _ => none) SkinState.initial
            ["skin: 0,0,100,200".toList, "display: 10,10 1.0 1.0 000000 ffffff".toList,
              "key: 1 0,5,10,10 0,5,10,10 0,5".toList,
              "key: 2 0,50,10,10 0,50,10,10 0,50".toList]) 4 22) 22
      ∧ (skin_load_adjust
          (skin_load_records (fun _ _ => none) SkinState.initial
            ["skin: 0,0,100,200".toList, "display: 10,10 1.0 1.0 000000 ffffff".toList,
              "key: 1 0,5,10,10 0,5,10,10 0,5".toList,
              "key: 2 0,50,10,10 0,50,10,10 0,50".toList]) 4 22).g.skin.height = 216
      ∧ (skin_load_adjust
          (skin_load_records (fun _ _ => none) SkinState.initial
            ["skin: 0,0,100,200".toList, "display: 10,10 1.0 1.0 000000 ffffff".toList,
              "key: 1 0,5,10,10 0,5,10,10 0,5".toList,
              "key: 2 0,50,10,10 0,50,10,10 0,50".toList]) 4 22).g.keylist
          = [⟨1, 1, ⟨0, 5, 10, 10⟩, ⟨0, 5, 10, 10⟩, ⟨0, 5⟩⟩,
              ⟨2, 2, ⟨0, 66, 10, 10⟩, ⟨0, 66, 10, 10⟩, ⟨0, 66⟩⟩] :=
  have h := adjust_shift
    (skin_load_records (fun _ _ => none) SkinState.initial
      ["skin: 0,0,100,200".toList, "display: 10,10 1.0 1.0 000000 ffffff".toList,
        "key: 1 0,5,10,10 0,5,10,10 0,5".toList,
        "key: 2 0,50,10,10 0,50,10,10 0,50".toList]) 4 22
    (by with_unfolding_all decide)
  ⟨by with_unfolding_all decide,
    h.2.2.1.trans (by with_unfolding_all decide), by with_unfolding_all decide⟩

/-- C14: whenever the computed `extra` is negative, the adjustment changes no skin,
key, annunciator or overlay coordinate, `wasted` is `-extra` and the `extra`
handed to `shell_loadimage` is 0; for every input the `extra` handed to
`shell_loadimage` is not negative; and when more than 2 rows are in effect and
`alt_disp_y` was set, the display origin Y becomes `alt_disp_y + wasted`. -/
theorem adjust_negative_extra (ls : LoadState) (requested_rows requested_cols : Int) :
    (skin_load_extra ls (skin_load_clamp_rows ls requested_rows requested_cols)
          requested_cols < 0 →
        (skin_load_adjust ls requested_rows requested_cols).g.skin = ls.g.skin
          ∧ (skin_load_adjust ls requested_rows requested_cols).g.keylist = ls.g.keylist
          ∧ (skin_load_adjust ls requested_rows requested_cols).g.annunciators
            = ls.g.annunciators
          ∧ (skin_load_adjust ls requested_rows requested_cols).g.alt_bak = ls.g.alt_bak
          ∧ (skin_load_adjust ls requested_rows requested_cols).g.alt_key = ls.g.alt_key
          ∧ (skin_load_adjust ls requested_rows requested_cols).wasted
            = -skin_load_extra ls (skin_load_clamp_rows ls requested_rows requested_cols)
                requested_cols
          ∧ (skin_load_adjust ls requested_rows requested_cols).extra = 0)
      ∧ 0 ≤ (skin_load_adjust ls requested_rows requested_cols).extra
      ∧ (2 < (skin_load_adjust ls requested_rows requested_cols).disp_rows →
          ls.alt_disp_y ≠ -1 →
          (skin_load_adjust ls requested_rows requested_cols).g.display_loc.y
            = ls.alt_disp_y + (skin_load_adjust ls requested_rows requested_cols).wasted) := by
  refine ⟨?_, ?_, ?_⟩
  · intro h
    obtain ⟨h1, h2, h3, h4, h5, h6⟩ :=
      skin_load_adjust_no_shift ls requested_rows requested_cols (by omega)
    refine ⟨h1, h2, h3, h4, h5, ?_, h6⟩
    unfold skin_load_adjust
    simp only [h, gt_iff_lt, if_true, show ¬ 0 < skin_load_extra ls
      (skin_load_clamp_rows ls requested_rows requested_cols) requested_cols by omega, if_false]
  · unfold skin_load_adjust
    simp only
    split
    · omega
    · exact le_refl 0
  · intro hrows halt
    have hr : skin_load_clamp_rows ls requested_rows requested_cols > 2 := hrows
    unfold skin_load_adjust
    simp only [hr, halt, ne_eq, not_false_eq_true, and_self, if_true]

/-- C14 on a description for 4 rows with an alternate display origin, loaded for 3
rows: `extra` is computed as -8, so 8 pixels are wasted, 0 is handed on and the
display origin Y is 30 + 8. -/
theorem adjust_negative_extra_witness :
    skin_load_extra
        (skin_load_records (fun _ _ => none) SkinState.initial
          ["skin: 0,0,100,200".toList, "display: 10,10 1.0 1.0 000000 ffffff".toList,
            "displaysize: 22,4 30".toList])
        (skin_load_clamp_rows
          (skin_load_records (fun _ _ => none) SkinState.initial
            ["skin: 0,0,100,200".toList, "display: 10,10 1.0 1.0 000000 ffffff".toList,
              "displaysize: 22,4 30".toList]) 3 22) 22 = -8
      ∧ (skin_load_adjust
          (skin_load_records (fun _ _ => none) SkinState.initial
            ["skin: 0,0,100,200".toList, "display: 10,10 1.0 1.0 000000 ffffff".toList,
              "displaysize: 22,4 30".toList]) 3 22).wasted = 8
      ∧ (skin_load_adjust
          (skin_load_records (fun _ _ => none) SkinState.initial
            ["skin: 0,0,100,200".toList, "display: 10,10 1.0 1.0 000000 ffffff".toList,
              "displaysize: 22,4 30".toList]) 3 22).extra = 0
      ∧ (skin_load_adjust
          (skin_load_records (fun _ _ => none) SkinState.initial
            ["skin: 0,0,100,200".toList, "display: 10,10 1.0 1.0 000000 ffffff".toList,
              "displaysize: 22,4 30".toList]) 3 22).g.display_loc.y = 38 :=
  have h := adjust_negative_extra
    (skin_load_records (fun _ _ => none) SkinState.initial
      ["skin: 0,0,100,200".toList, "display: 10,10 1.0 1.0 000000 ffffff".toList,
        "displaysize: 22,4 30".toList]) 3 22
  have hneg := h.1 (by with_unfolding_all decide)
  ⟨by with_unfolding_all decide, hneg.2.2.2.2.2.1.trans (by with_unfolding_all decide),
    hneg.2.2.2.2.2.2,
    (h.2.2 (by with_unfolding_all decide) (by with_unfolding_all decide)).trans
      (by with_unfolding_all decide)⟩

/-- The conversion to `int` of a double that is not negative rounds down. -/
theorem double_to_int_nonneg (d : ℚ) (h : 0 ≤ d) : 0 ≤ double_to_int d ∧ (double_to_int d : ℚ) ≤ d := by
  unfold double_to_int
  rw [if_pos h]
  exact ⟨Int.floor_nonneg.2 h, Int.floor_le d⟩

/-- C15, amended: when `max_r` is set and is not negative, with positive display
scales, a positive pixel height override if one is set, positive native and
requested column counts and fewer than `2 ^ 31` requested rows, and with
`max_h = (int) (max_r * r)` and
`r2 = (override or display_scale_x) * disp_cols / requested_cols` as the code
computes them on doubles (each product and quotient rounded): the clamped row
count `R'` satisfies `R' <= requested_rows`; `R' = requested_rows` whenever
`requested_rows * r2 <= max_h`, and more generally whenever the rounded product
does not exceed `max_h`, and `R' = (int) (max_h / r2)` otherwise; `R' * r2` exceeds
`max_h` by at most one rounding error, `R' * r2 * (1 - 2 ^ -53) <= max_h`; the row
count returned is `R'` and the column count returned is the requested one. -/
theorem clamp_rows_bound (ls : LoadState) (requested_rows requested_cols : Int)
    (hmax : ls.max_r ≠ -1) (hnonneg : 0 ≤ ls.max_r)
    (hsx : 0 < ls.g.display_scale_x) (hsy : 0 < ls.g.display_scale_y)
    (halt : ls.alt_pixel_height ≠ -1 → 0 < ls.alt_pixel_height)
    (hdc : 0 < ls.disp_cols) (hrc : 0 < requested_cols) (hrr : requested_rows < 2 ^ 31) :
    skin_load_max_h ls = double_to_int (double_mul (ls.max_r : ℚ) (row_scale ls ls.max_r))
      ∧ skin_load_r2 ls requested_cols
        = double_div
            (double_mul
              (if ls.alt_pixel_height ≠ -1 then (ls.alt_pixel_height : ℚ)
                else ls.g.display_scale_x) (ls.disp_cols : ℚ))
            (requested_cols : ℚ)
      ∧ ((skin_load_clamp_rows ls requested_rows requested_cols : Int) : ℚ)
          * skin_load_r2 ls requested_cols * (1 - 1 / 2 ^ 53) ≤ (skin_load_max_h ls : ℚ)
      ∧ skin_load_clamp_rows ls requested_rows requested_cols ≤ requested_rows
      ∧ ((requested_rows : ℚ) * skin_load_r2 ls requested_cols ≤ (skin_load_max_h ls : ℚ) →
          skin_load_clamp_rows ls requested_rows requested_cols = requested_rows)
      ∧ (double_mul (requested_rows : ℚ) (skin_load_r2 ls requested_cols)
            ≤ (skin_load_max_h ls : ℚ) →
          skin_load_clamp_rows ls requested_rows requested_cols = requested_rows)
      ∧ ((skin_load_max_h ls : ℚ)
            < double_mul (requested_rows : ℚ) (skin_load_r2 ls requested_cols) →
          skin_load_clamp_rows ls requested_rows requested_cols
            = double_to_int
                (double_div (skin_load_max_h ls : ℚ) (skin_load_r2 ls requested_cols)))
      ∧ (skin_load_finish (skin_load_adjust ls requested_rows requested_cols)).2.rows
        = skin_load_clamp_rows ls requested_rows requested_cols
      ∧ (skin_load_finish (skin_load_adjust ls requested_rows requested_cols)).2.cols
        = requested_cols := by
  have hr : 0 < row_scale ls ls.max_r := by
    unfold row_scale
    split
    · exact hsy
    · split
      · rename_i ha
        exact_mod_cast halt ha
      · exact hsx
  have hr2 : 0 < skin_load_r2 ls requested_cols := by
    unfold skin_load_r2 double_div double_mul
    have hbase : (0 : ℚ) < (if ls.alt_pixel_height ≠ -1 then (ls.alt_pixel_height : ℚ)
        else ls.g.display_scale_x) := by
      split
      · rename_i ha
        exact_mod_cast halt ha
      · exact hsx
    have h1 : (0 : ℚ) < (ls.disp_cols : ℚ) := by exact_mod_cast hdc
    have h2 : (0 : ℚ) < (requested_cols : ℚ) := by exact_mod_cast hrc
    exact round_double_pos _ (div_pos (round_double_pos _ (mul_pos hbase h1)) h2)
  have hmh : skin_load_max_h ls
      = double_to_int (double_mul (ls.max_r : ℚ) (row_scale ls ls.max_r)) := by
    unfold skin_load_max_h
    rw [if_pos hmax]
  have hmh0 : (0 : ℚ) ≤ (skin_load_max_h ls : ℚ) := by
    rw [hmh]
    have : (0 : ℚ) ≤ double_mul (ls.max_r : ℚ) (row_scale ls ls.max_r) :=
      round_double_nonneg _ (mul_nonneg (by exact_mod_cast hnonneg) hr.le)
    exact_mod_cast (double_to_int_nonneg _ this).1
  have hmd : is_double (skin_load_max_h ls : ℚ) := by
    rw [hmh]
    exact is_double_double_to_int _ (is_double_round_double _)
  have hclamp : (skin_load_max_h ls : ℚ)
        < double_mul (requested_rows : ℚ) (skin_load_r2 ls requested_cols) →
      skin_load_clamp_rows ls requested_rows requested_cols
        = double_to_int
            (double_div (skin_load_max_h ls : ℚ) (skin_load_r2 ls requested_cols)) := by
    intro h
    unfold skin_load_clamp_rows
    rw [if_pos hmax, if_pos h]
  have hkeep : double_mul (requested_rows : ℚ) (skin_load_r2 ls requested_cols)
        ≤ (skin_load_max_h ls : ℚ) →
      skin_load_clamp_rows ls requested_rows requested_cols = requested_rows := by
    intro h
    unfold skin_load_clamp_rows
    rw [if_pos hmax, if_neg (not_lt.2 h)]
  -- the constants of the rounding error
  have hU : (0 : ℚ) < (2 : ℚ) ^ 53 := by norm_num
  have herrp := round_double_error ((requested_rows : ℚ) * skin_load_r2 ls requested_cols)
  have herrq := round_double_error ((skin_load_max_h ls : ℚ) / skin_load_r2 ls requested_cols)
  have hq0 : (0 : ℚ) ≤ (skin_load_max_h ls : ℚ) / skin_load_r2 ls requested_cols :=
    div_nonneg hmh0 hr2.le
  rw [abs_of_nonneg hq0, abs_le] at herrq
  have hqr : (skin_load_max_h ls : ℚ) / skin_load_r2 ls requested_cols
      * skin_load_r2 ls requested_cols = (skin_load_max_h ls : ℚ) :=
    div_mul_cancel₀ _ hr2.ne'
  have hfq0 : (0 : ℚ)
      ≤ double_div (skin_load_max_h ls : ℚ) (skin_load_r2 ls requested_cols) :=
    round_double_nonneg _ hq0
  have hfl := double_to_int_nonneg _ hfq0
  generalize hM : (skin_load_max_h ls : ℚ) = M at *
  generalize hR2 : skin_load_r2 ls requested_cols = r2 at *
  refine ⟨hmh, hR2.symm, ?_, ?_, ?_, hkeep, hclamp, rfl, rfl⟩
  · by_cases hc : M < double_mul (requested_rows : ℚ) r2
    · rw [hclamp hc]
      have h1 : ((double_to_int (double_div M r2) : Int) : ℚ) ≤ M / r2 + M / r2 / 2 ^ 53 := by
        have := hfl.2
        unfold double_div at this ⊢
        linarith [herrq.2]
      have h2 : (0 : ℚ) ≤ r2 * (1 - 1 / 2 ^ 53) := mul_nonneg hr2.le (by norm_num)
      calc ((double_to_int (double_div M r2) : Int) : ℚ) * r2 * (1 - 1 / 2 ^ 53)
          = ((double_to_int (double_div M r2) : Int) : ℚ) * (r2 * (1 - 1 / 2 ^ 53)) := by ring
        _ ≤ (M / r2 + M / r2 / 2 ^ 53) * (r2 * (1 - 1 / 2 ^ 53)) :=
            mul_le_mul_of_nonneg_right h1 h2
        _ = M / r2 * r2 * ((1 + 1 / 2 ^ 53) * (1 - 1 / 2 ^ 53)) := by ring
        _ = M * ((1 + 1 / 2 ^ 53) * (1 - 1 / 2 ^ 53)) := by rw [hqr]
        _ ≤ M * 1 := mul_le_mul_of_nonneg_left (by norm_num) hmh0
        _ = M := mul_one M
    · rw [hkeep (not_lt.1 hc)]
      have hc2 : double_mul (requested_rows : ℚ) r2 ≤ M := not_lt.1 hc
      by_cases hp : 0 ≤ (requested_rows : ℚ) * r2
      · rw [abs_of_nonneg hp, abs_le] at herrp
        unfold double_mul at hc2
        have : (requested_rows : ℚ) * r2 * (1 - 1 / 2 ^ 53)
            = (requested_rows : ℚ) * r2 - (requested_rows : ℚ) * r2 / 2 ^ 53 := by ring
        rw [this]
        linarith [herrp.1]
      · have hneg : (requested_rows : ℚ) * r2 * (1 - 1 / 2 ^ 53) ≤ 0 :=
          mul_nonpos_of_nonpos_of_nonneg (le_of_lt (not_le.1 hp)) (by norm_num)
        linarith
  · by_cases hc : M < double_mul (requested_rows : ℚ) r2
    · rw [hclamp hc]
      have hp : 0 < (requested_rows : ℚ) * r2 := by
        by_contra hneg
        have := round_double_nonpos _ (not_lt.1 hneg)
        unfold double_mul at hc
        linarith
      have hrrpos : (0 : ℚ) < (requested_rows : ℚ) := by
        by_contra hneg
        have := mul_nonpos_of_nonpos_of_nonneg (not_lt.1 hneg) hr2.le
        linarith
      rw [abs_of_pos hp, abs_le] at herrp
      have hrrq : (requested_rows : ℚ) < (2 : ℚ) ^ 31 := by exact_mod_cast hrr
      -- the exact quotient is below `requested_rows * (1 + 2 ^ -53)`
      have hq1 : M / r2 < (requested_rows : ℚ) * (1 + 1 / 2 ^ 53) := by
        rw [div_lt_iff₀ hr2]
        unfold double_mul at hc
        have : (requested_rows : ℚ) * (1 + 1 / 2 ^ 53) * r2
            = (requested_rows : ℚ) * r2 + (requested_rows : ℚ) * r2 / 2 ^ 53 := by ring
        rw [this]
        linarith [herrp.2]
      have hq2 : double_div M r2 < (requested_rows : ℚ) + 1 := by
        have h1 : double_div M r2 ≤ M / r2 * (1 + 1 / 2 ^ 53) := by
          unfold double_div
          have : M / r2 * (1 + 1 / 2 ^ 53) = M / r2 + M / r2 / 2 ^ 53 := by ring
          rw [this]
          linarith [herrq.2]
        have h2 : M / r2 * (1 + 1 / 2 ^ 53)
            < (requested_rows : ℚ) * (1 + 1 / 2 ^ 53) * (1 + 1 / 2 ^ 53) :=
          mul_lt_mul_of_pos_right hq1 (by norm_num)
        have h3 : (requested_rows : ℚ) * (1 + 1 / 2 ^ 53) * (1 + 1 / 2 ^ 53)
            ≤ (requested_rows : ℚ) * (1 + 1 / 2 ^ 31) := by
          rw [mul_assoc]
          exact mul_le_mul_of_nonneg_left (by norm_num) hrrpos.le
        have h4 : (requested_rows : ℚ) * (1 + 1 / 2 ^ 31) < (requested_rows : ℚ) + 1 := by
          have : (requested_rows : ℚ) * (1 + 1 / 2 ^ 31)
              = (requested_rows : ℚ) + (requested_rows : ℚ) / 2 ^ 31 := by ring
          rw [this]
          have : (requested_rows : ℚ) / 2 ^ 31 < 1 := by
            rw [div_lt_one (by norm_num)]
            exact hrrq
          linarith
        linarith
      have hfloor : double_to_int (double_div M r2) < requested_rows + 1 := by
        have : ((double_to_int (double_div M r2) : Int) : ℚ) < ((requested_rows + 1 : Int) : ℚ) := by
          push_cast
          linarith [hfl.2]
        exact_mod_cast this
      omega
    · rw [hkeep (not_lt.1 hc)]
  · intro hle
    apply hkeep
    by_cases hp : 0 < (requested_rows : ℚ) * r2
    · unfold double_mul
      exact round_double_le_double _ _ hp hle hmd
    · unfold double_mul
      have := round_double_nonpos _ (not_lt.1 hp)
      linarith

/-- C15, amended, on a description with a maximum of 3 rows, loaded for 5 rows: the
row count is clamped to 3. -/
theorem clamp_rows_bound_witness :
    skin_load_clamp_rows
        (skin_load_records (fun _ _ => none) SkinState.initial
          ["display: 0,0 2 2 0 0".toList, "displaysize: 22,2 -1 -1 3".toList]) 5 22 = 3
      ∧ skin_load_clamp_rows
          (skin_load_records (fun _ _ => none) SkinState.initial
            ["display: 0,0 2 2 0 0".toList, "displaysize: 22,2 -1 -1 3".toList]) 5 22 ≤ 5 :=
  ⟨by with_unfolding_all decide,
    (clamp_rows_bound
      (skin_load_records (fun _ _ => none) SkinState.initial
        ["display: 0,0 2 2 0 0".toList, "displaysize: 22,2 -1 -1 3".toList]) 5 22
      (by with_unfolding_all decide) (by with_unfolding_all decide)
      (by with_unfolding_all decide) (by with_unfolding_all decide)
      (by with_unfolding_all decide) (by with_unfolding_all decide) (by decide)
      (by norm_num)).2.2.2.1⟩

set_option maxRecDepth 8000 in
/-- C15 as stated fails. With the scale 1, 50 native and 22 requested columns, a
maximum of 25 rows and 11 requested rows, `max_h` is 25 and
`11 * (1 * 50 / 22) = 25 <= max_h`, but the code computes `r2` and `11 * r2` on
doubles, finds the product above 25 and clamps to 10 rows. With 22 native and 220
requested columns, a maximum of 1 row and 10 requested rows, `r2` is the double
next to 1/10, the rounded product `10 * r2` is 1, so the 10 rows are kept although
`10 * r2` exceeds `max_h = 1`. With the maximum of -2 rows, scale 1, 66 native and
22 requested columns and 2 requested rows, `max_h` is -2 and `r2` is 3, the row
count is clamped to `(int) (-2 / 3.0) = 0`, `0 * r2` exceeds `max_h`, and 0 rows
are returned. -/
theorem clamp_rows_bound_counterexample :
    (skin_load_max_h
          (skin_load_records (fun _ _ => none) SkinState.initial
            ["display: 0,0 1 1 0 0".toList, "displaysize: 50,2 -1 -1 25".toList]) = 25
        ∧ (11 : ℚ) * (1 * 50 / 22) ≤ 25
        ∧ skin_load_clamp_rows
          (skin_load_records (fun _ _ => none) SkinState.initial
            ["display: 0,0 1 1 0 0".toList, "displaysize: 50,2 -1 -1 25".toList]) 11 22 = 10)
      ∧ (skin_load_max_h
          (skin_load_records (fun _ _ => none) SkinState.initial
            ["display: 0,0 1 1 0 0".toList, "displaysize: 22,2 -1 -1 1".toList]) = 1
        ∧ skin_load_clamp_rows
          (skin_load_records (fun _ _ => none) SkinState.initial
            ["display: 0,0 1 1 0 0".toList, "displaysize: 22,2 -1 -1 1".toList]) 10 220 = 10
        ∧ ¬ ((10 : ℚ)
            * skin_load_r2
              (skin_load_records (fun _ _ => none) SkinState.initial
                ["display: 0,0 1 1 0 0".toList, "displaysize: 22,2 -1 -1 1".toList]) 220 ≤ 1))
      ∧ (skin_load_max_h
          (skin_load_records (fun _ _ => none) SkinState.initial
            ["display: 0,0 1 1 0 0".toList, "displaysize: 66,2 -1 -1 -2".toList]) = -2
        ∧ skin_load_r2
          (skin_load_records (fun _ _ => none) SkinState.initial
            ["display: 0,0 1 1 0 0".toList, "displaysize: 66,2 -1 -1 -2".toList]) 22 = 3
        ∧ skin_load_clamp_rows
          (skin_load_records (fun _ _ => none) SkinState.initial
            ["display: 0,0 1 1 0 0".toList, "displaysize: 66,2 -1 -1 -2".toList]) 2 22 = 0
        ∧ ¬ ((0 : ℚ) * 3 ≤ -2)
        ∧ (skin_load_finish (skin_load_adjust
            (skin_load_records (fun _ _ => none) SkinState.initial
              ["display: 0,0 1 1 0 0".toList, "displaysize: 66,2 -1 -1 -2".toList])
            2 22)).2.rows = 0) := by
  refine ⟨⟨?_, ?_, ?_⟩, ⟨?_, ?_, ?_⟩, ⟨?_, ?_, ?_, ?_, ?_⟩⟩ <;> with_unfolding_all decide

/-! ## Passes and fallback of `skin_load` -/

/-- The loop returns in the first pass that succeeds. -/
theorem skin_load_loop_returns (pke : List Char → Int → Option keymap_entry)
    (env : Nat → List Char → Bool → PassBehaviour) (builtin0 : List Char)
    (last_req : Int × Int) (rc : Int) (n : Nat) :
    ∀ (fuel k : Nat) (name : List Char) (force : Bool) (g : SkinState) (rr ln : Int),
      (∀ j, j < n →
        (env (k + j) (pass_name name builtin0 j) (pass_force force j)).ok = false) →
      (env (k + n) (pass_name name builtin0 n) (pass_force force n)).ok = true →
      n < fuel →
      ∃ r, skin_load_loop pke env builtin0 last_req rc fuel k name force g rr ln = some r
        ∧ r.fallbacks = k + n ∧ r.skinName = pass_name name builtin0 n := by
  induction n with
  | zero =>
    intro fuel k name force g rr ln _ hok hfuel
    obtain ⟨f, rfl⟩ : ∃ f, fuel = f + 1 := ⟨fuel - 1, by omega⟩
    simp only [pass_name, pass_force, if_true, Nat.add_zero, PassBehaviour.ok,
      Bool.and_eq_true] at hok
    obtain ⟨⟨h1, h2⟩, h3⟩ := hok
    obtain ⟨lines, hl⟩ := Option.isSome_iff_exists.1 h1
    unfold skin_load_loop
    simp only [hl, h2, h3, and_self, if_true]
    exact ⟨_, rfl, rfl, by simp [pass_name]⟩
  | succ n ih =>
    intro fuel k name force g rr ln hfail hok hfuel
    obtain ⟨f, rfl⟩ : ∃ f, fuel = f + 1 := ⟨fuel - 1, by omega⟩
    have h0 := hfail 0 (Nat.succ_pos n)
    simp only [pass_name, pass_force, if_true, Nat.add_zero] at h0
    have hfail2 : ∀ j, j < n →
        (env (k + 1 + j) (pass_name builtin0 builtin0 j) (pass_force true j)).ok = false := by
      intro j hj
      have := hfail (j + 1) (Nat.succ_lt_succ hj)
      simp only [pass_name, pass_force, Nat.succ_ne_zero, if_false] at this
      have he : k + 1 + j = k + (j + 1) := by omega
      rw [he]
      simpa [pass_name, pass_force] using this
    have hok2 : (env (k + 1 + n) (pass_name builtin0 builtin0 n) (pass_force true n)).ok
        = true := by
      simp only [pass_name, pass_force, Nat.succ_ne_zero, if_false] at hok
      have he : k + 1 + n = k + (n + 1) := by omega
      rw [he]
      simpa [pass_name, pass_force] using hok
    have hname : pass_name builtin0 builtin0 n = pass_name name builtin0 (n + 1) := by
      simp [pass_name]
    unfold skin_load_loop
    cases hl : (env k name force).layout with
    | none =>
      obtain ⟨r, hr1, hr2, hr3⟩ := ih f (k + 1) builtin0 true g rr ln hfail2 hok2 (by omega)
      exact ⟨r, hr1, by omega, by rw [hr3, hname]⟩
    | some lines =>
      have hnot : ¬ ((env k name force).bitmap_open = true
          ∧ (env k name force).image_ok = true) := by
        intro hc
        simp [PassBehaviour.ok, hl, hc.1, hc.2] at h0
      simp only [hnot, if_false]
      obtain ⟨r, hr1, hr2, hr3⟩ := ih f (k + 1) builtin0 true _ _ _ hfail2 hok2 (by omega)
      exact ⟨r, hr1, by omega, by rw [hr3, hname]⟩

/-- The loop does not return while the passes fail. -/
theorem skin_load_loop_fails (pke : List Char → Int → Option keymap_entry)
    (env : Nat → List Char → Bool → PassBehaviour) (builtin0 : List Char)
    (last_req : Int × Int) (rc : Int) (fuel : Nat) :
    ∀ (k : Nat) (name : List Char) (force : Bool) (g : SkinState) (rr ln : Int),
      (∀ j, j < fuel →
        (env (k + j) (pass_name name builtin0 j) (pass_force force j)).ok = false) →
      skin_load_loop pke env builtin0 last_req rc fuel k name force g rr ln = none := by
  induction fuel with
  | zero => intro k name force g rr ln _; rfl
  | succ f ih =>
    intro k name force g rr ln hfail
    have h0 := hfail 0 (Nat.succ_pos f)
    simp only [pass_name, pass_force, if_true, Nat.add_zero] at h0
    have hfail2 : ∀ j, j < f →
        (env (k + 1 + j) (pass_name builtin0 builtin0 j) (pass_force true j)).ok = false := by
      intro j hj
      have := hfail (j + 1) (Nat.succ_lt_succ hj)
      simp only [pass_name, pass_force, Nat.succ_ne_zero, if_false] at this
      have he : k + 1 + j = k + (j + 1) := by omega
      rw [he]
      simpa [pass_name, pass_force] using this
    unfold skin_load_loop
    cases hl : (env k name force).layout with
    | none => exact ih (k + 1) builtin0 true g rr ln hfail2
    | some lines =>
      have hnot : ¬ ((env k name force).bitmap_open = true
          ∧ (env k name force).image_ok = true) := by
        intro hc
        simp [PassBehaviour.ok, hl, hc.1, hc.2] at h0
      simp only [hnot, if_false]
      exact ih (k + 1) builtin0 true _ _ _ hfail2

/-- C16, amended: `skin_load` returns as soon as a pass succeeds (the layout and
the bitmap are opened and the image is loaded), and every pass after a failure
loads the first built-in skin: if the passes before pass `n` fail and pass `n`
succeeds, `skin_load` returns after exactly `n` fallback jumps, so after one
fallback when the named skin fails and the built-in skin then loads; as long as
the passes fail, the built-in skin included, `skin_load` starts another pass and
does not return. -/
theorem skin_load_fallback (pke : List Char → Int → Option keymap_entry)
    (env : Nat → List Char → Bool → PassBehaviour) (builtin0 skinName : List Char)
    (g : SkinState) (last_req : Int × Int) (rows cols : Int) (n : Nat)
    (hfail : ∀ j, j < n →
      (env j (pass_name (if skinName = [] then builtin0 else skinName) builtin0 j)
        (pass_force (decide (skinName = [])) j)).ok = false) :
    ((env n (pass_name (if skinName = [] then builtin0 else skinName) builtin0 n)
          (pass_force (decide (skinName = [])) n)).ok = true →
        ∀ fuel, n < fuel →
          ∃ r, skin_load pke env builtin0 fuel skinName g last_req rows cols = some r
            ∧ r.fallbacks = n
            ∧ r.skinName = pass_name (if skinName = [] then builtin0 else skinName) builtin0 n)
      ∧ skin_load pke env builtin0 n skinName g last_req rows cols = none := by
  refine ⟨?_, ?_⟩
  · intro hok fuel hfuel
    unfold skin_load
    obtain ⟨r, h1, h2, h3⟩ := skin_load_loop_returns pke env builtin0
      (if rows = -1 then last_req else (rows, cols)) (if rows = -1 then last_req.2 else cols)
      n fuel 0 (if skinName = [] then builtin0 else skinName) (decide (skinName = [])) g
      (if rows = -1 then last_req.1 else rows) 0
      (by intro j hj; simpa using hfail j hj) (by simpa using hok) hfuel
    exact ⟨r, h1, by omega, h3⟩
  · unfold skin_load
    exact skin_load_loop_fails pke env builtin0 _ _ n 0 _ _ g _ 0
      (by intro j hj; simpa using hfail j hj)

/-- C16, amended, with collaborators that fail to open the skin `mine` and load
the built-in skin `std`: `skin_load` returns after one fallback. -/
theorem skin_load_fallback_witness :
    ∃ r, skin_load (fun _ _ => none)
          (fun _ name _ => if name = "std".toList then ⟨some [], true, true⟩
            else ⟨none, false, false⟩)
          "std".toList 2 "mine".toList SkinState.initial (2, 22) 2 22 = some r
      ∧ r.fallbacks = 1 ∧ r.skinName = "std".toList :=
  (skin_load_fallback (fun _ _ => none)
    (fun _ name _ => if name = "std".toList then ⟨some [], true, true⟩
      else ⟨none, false, false⟩)
    "std".toList "mine".toList SkinState.initial (2, 22) 2 22 1
    (by intro j hj; obtain rfl : j = 0 := by omega
        decide)).1 (by decide) 2 (by decide)

/-- C16 as stated fails: with a `shell_loadimage` that fails in every pass,
`skin_load` has not returned after any number of passes, and no error is stored
anywhere. -/
theorem skin_load_fallback_counterexample :
    ¬ ∃ fuel r, skin_load (fun _ _ => none) (fun _ _ _ => ⟨some [], true, false⟩)
        "std".toList fuel "mine".toList SkinState.initial (2, 22) 2 22 = some r := by
  rintro ⟨fuel, r, hr⟩
  have h : skin_load (fun _ _ => none) (fun _ _ _ => ⟨some [], true, false⟩)
      "std".toList fuel "mine".toList SkinState.initial (2, 22) 2 22 = none := by
    unfold skin_load
    exact skin_load_loop_fails _ _ _ _ _ fuel 0 _ _ _ _ 0 (by intro j _; rfl)
  rw [h] at hr
  exact Option.noConfusion hr

/-! ## Dependence of a load on the previous layout -/

/-- The parse of a line is the application of its effect. -/
theorem skin_load_line_effect (pke : List Char → Int → Option keymap_entry)
    (st : LoadState) (line : List Char) :
    skin_load_line pke st line
      = apply_effect (line_effect pke line (st.lineno + 1))
          { st with lineno := st.lineno + 1 } := by
  unfold skin_load_line line_effect
  by_cases h0 : line = []
  · simp only [if_pos h0]
    rfl
  simp only [if_neg h0]
  by_cases h1 : strncasecmp_eq line "skin:" 5 = true
  · simp only [if_pos h1]
    split <;> rfl
  simp only [if_neg h1]
  by_cases h2 : strncasecmp_eq line "display:" 8 = true
  · simp only [if_pos h2]
    split <;> rfl
  simp only [if_neg h2]
  by_cases h3 : strncasecmp_eq line "displaysize:" 12 = true
  · simp only [if_pos h3]
    split
    · split <;> rfl
    · rfl
  simp only [if_neg h3]
  by_cases h4 : strncasecmp_eq line "displayexpansionzone:" 21 = true
  · simp only [if_pos h4]
    split <;> rfl
  simp only [if_neg h4]
  by_cases h5 : strncasecmp_eq line "key:" 4 = true
  · simp only [if_pos h5]
    split <;> rfl
  simp only [if_neg h5]
  by_cases h6 : strncasecmp_eq line "macro:" 6 = true
  · simp only [if_pos h6]
    split <;> rfl
  simp only [if_neg h6]
  by_cases h7 : strncasecmp_eq line "annunciator:" 12 = true
  · simp only [if_pos h7]
    split
    · split <;> rfl
    · rfl
  simp only [if_neg h7]
  by_cases h8 : strncasecmp_eq line "gtkkey:" 7 = true
  · simp only [if_pos h8]
    split <;> rfl
  simp only [if_neg h8]
  by_cases h9 : strncasecmp_eq line "flags:" 6 = true
  · simp only [if_pos h9]
    split <;> rfl
  simp only [if_neg h9]
  by_cases h10 : strncasecmp_eq line "altbkgd:" 8 = true
  · simp only [if_pos h10]
    split <;> rfl
  simp only [if_neg h10]
  by_cases h11 : strncasecmp_eq line "altkey:" 7 = true
  · simp only [if_pos h11]
    split <;> rfl
  simp only [if_neg h11]
  rfl

/-- An effect keeps two states in agreement and adds what it sets. -/
theorem apply_effect_same_parse (e : LineEffect) (sk dp : Prop) (an : Nat → Prop)
    (a b : LoadState) (h : same_parse sk dp an a b) :
    same_parse (sk ∨ sets_skin e) (dp ∨ sets_display e) (fun i => an i ∨ sets_annunciator e i)
      (apply_effect e a) (apply_effect e b) := by
  obtain ⟨hc, hs, hd, hl, ha⟩ := h
  have hc2 := hc
  simp only [load_core, Prod.mk.injEq] at hc2
  obtain ⟨c1, c2, c3, c4, c5, c6, c7, c8, c9, c10, c11, c12, c13, c14⟩ := hc2
  cases e with
  | nothing =>
    refine ⟨hc, ?_, ?_, hl, ?_⟩
    · rintro (h | h)
      · exact hs h
      · exact absurd h (by simp [sets_skin])
    · rintro (h | h)
      · exact hd h
      · exact absurd h (by simp [sets_display])
    · rintro i (h | h)
      · exact ha i h
      · exact absurd h (by simp [sets_annunciator])
  | skin r =>
    refine ⟨hc, fun _ => rfl, ?_, hl, ?_⟩
    · rintro (h | h)
      · exact hd h
      · exact absurd h (by simp [sets_display])
    · rintro i (h | h)
      · exact ha i h
      · exact absurd h (by simp [sets_annunciator])
  | display loc xs ys bg fg =>
    refine ⟨hc, ?_, fun _ => rfl, hl, ?_⟩
    · rintro (h | h)
      · exact hs h
      · exact absurd h (by simp [sets_skin])
    · rintro i (h | h)
      · exact ha i h
      · exact absurd h (by simp [sets_annunciator])
  | annunciator n x =>
    refine ⟨hc, ?_, ?_, ?_, ?_⟩
    · rintro (h | h)
      · exact hs h
      · exact absurd h (by simp [sets_skin])
    · rintro (h | h)
      · exact hd h
      · exact absurd h (by simp [sets_display])
    · simp only [apply_effect, List.length_set]
      exact hl
    · intro i hi
      simp only [apply_effect]
      by_cases hni : (n - 1).toNat = i
      · subst hni
        rw [List.getElem?_set_self', List.getElem?_set_self']
        by_cases hlt : (n - 1).toNat < a.g.annunciators.length
        · rw [List.getElem?_eq_getElem hlt, List.getElem?_eq_getElem (hl ▸ hlt)]
          rfl
        · rw [List.getElem?_eq_none (by omega), List.getElem?_eq_none (by omega)]
      · rw [List.getElem?_set_ne hni, List.getElem?_set_ne hni]
        rcases hi with h | h
        · exact ha i h
        · exact absurd h hni
  | displaysize c r more =>
    refine ⟨?_, ?_, ?_, hl, ?_⟩
    · simp only [load_core, apply_effect, Prod.mk.injEq]
      simp only [c1, c4, c5, c6, c7, c8, c9, c10, c11, c12, c13, c14, and_self]
    · rintro (h | h)
      · exact hs h
      · exact absurd h (by simp [sets_skin])
    · rintro (h | h)
      · exact hd h
      · exact absurd h (by simp [sets_display])
    · rintro i (h | h)
      · exact ha i h
      · exact absurd h (by simp [sets_annunciator])
  | zone first last =>
    refine ⟨?_, ?_, ?_, hl, ?_⟩
    · simp only [load_core, apply_effect, Prod.mk.injEq]
      simp only [c1, c2, c3, c4, c5, c6, c7, c10, c11, c12, c13, c14, and_self]
    · rintro (h | h)
      · exact hs h
      · exact absurd h (by simp [sets_skin])
    · rintro (h | h)
      · exact hd h
      · exact absurd h (by simp [sets_display])
    · rintro i (h | h)
      · exact ha i h
      · exact absurd h (by simp [sets_annunciator])
  | key k =>
    refine ⟨?_, ?_, ?_, hl, ?_⟩
    · simp only [load_core, apply_effect, Prod.mk.injEq]
      simp only [c1, c2, c3, c4, c5, c6, c7, c8, c9, c10, c11, c12, c13, c14, and_self]
    · rintro (h | h)
      · exact hs h
      · exact absurd h (by simp [sets_skin])
    · rintro (h | h)
      · exact hd h
      · exact absurd h (by simp [sets_display])
    · rintro i (h | h)
      · exact ha i h
      · exact absurd h (by simp [sets_annunciator])
  | add_macro m =>
    refine ⟨?_, ?_, ?_, hl, ?_⟩
    · simp only [load_core, apply_effect, Prod.mk.injEq]
      simp only [c1, c2, c3, c4, c5, c6, c7, c8, c9, c10, c11, c12, c13, c14, and_self]
    · rintro (h | h)
      · exact hs h
      · exact absurd h (by simp [sets_skin])
    · rintro (h | h)
      · exact hd h
      · exact absurd h (by simp [sets_display])
    · rintro i (h | h)
      · exact ha i h
      · exact absurd h (by simp [sets_annunciator])
  | keymap k =>
    refine ⟨?_, ?_, ?_, hl, ?_⟩
    · simp only [load_core, apply_effect, Prod.mk.injEq]
      simp only [c1, c2, c3, c4, c5, c6, c7, c8, c9, c10, c11, c12, c13, c14, and_self]
    · rintro (h | h)
      · exact hs h
      · exact absurd h (by simp [sets_skin])
    · rintro (h | h)
      · exact hd h
      · exact absurd h (by simp [sets_display])
    · rintro i (h | h)
      · exact ha i h
      · exact absurd h (by simp [sets_annunciator])
  | flags v =>
    refine ⟨?_, ?_, ?_, hl, ?_⟩
    · simp only [load_core, apply_effect, Prod.mk.injEq]
      simp only [c1, c2, c3, c5, c6, c7, c8, c9, c10, c11, c12, c13, c14, and_self]
    · rintro (h | h)
      · exact hs h
      · exact absurd h (by simp [sets_skin])
    · rintro (h | h)
      · exact hd h
      · exact absurd h (by simp [sets_display])
    · rintro i (h | h)
      · exact ha i h
      · exact absurd h (by simp [sets_annunciator])
  | altbkgd k =>
    refine ⟨?_, ?_, ?_, hl, ?_⟩
    · simp only [load_core, apply_effect, Prod.mk.injEq]
      simp only [c1, c2, c3, c4, c5, c6, c7, c8, c9, c10, c11, c12, c13, c14, and_self]
    · rintro (h | h)
      · exact hs h
      · exact absurd h (by simp [sets_skin])
    · rintro (h | h)
      · exact hd h
      · exact absurd h (by simp [sets_display])
    · rintro i (h | h)
      · exact ha i h
      · exact absurd h (by simp [sets_annunciator])
  | altkey k =>
    refine ⟨?_, ?_, ?_, hl, ?_⟩
    · simp only [load_core, apply_effect, Prod.mk.injEq]
      simp only [c1, c2, c3, c4, c5, c6, c7, c8, c9, c10, c11, c12, c13, c14, and_self]
    · rintro (h | h)
      · exact hs h
      · exact absurd h (by simp [sets_skin])
    · rintro (h | h)
      · exact hd h
      · exact absurd h (by simp [sets_display])
    · rintro i (h | h)
      · exact ha i h
      · exact absurd h (by simp [sets_annunciator])

/-- Two labels that start with different letters are not both the label of a
line. -/
theorem label_exclusive (line : List Char) (l1 l2 : String) (n1 n2 : Nat) (c1 c2 : Char)
    (r1 r2 : List Char) (h1 : l1.toList = c1 :: r1) (h2 : l2.toList = c2 :: r2)
    (hn1 : 0 < n1) (hn2 : 0 < n2) (hc : tolower c1 ≠ tolower c2)
    (h : strncasecmp_eq line l1 n1 = true) : ¬ strncasecmp_eq line l2 n2 = true := by
  intro h'
  have e1 := label_first_char line l1 n1 c1 r1 h1 hn1 h
  have e2 := label_first_char line l2 n2 c2 r2 h2 hn2 h'
  rw [e1] at e2
  exact hc (by simpa using e2)

theorem label_nonempty (line : List Char) (l : String) (n : Nat) (c : Char) (r : List Char)
    (h1 : l.toList = c :: r) (hn : 0 < n) (h : strncasecmp_eq line l n = true) : line ≠ [] := by
  intro he
  have e1 := label_first_char line l n c r h1 hn h
  rw [he] at e1
  simp at e1

/-- A valid `skin:` record has the effect of setting the skin rectangle. -/
theorem line_effect_skin (pke : List Char → Int → Option keymap_entry) (line : List Char)
    (n : Int) (r : SkinRect) (h : skin_record line = some r) :
    line_effect pke line n = LineEffect.skin r := by
  unfold skin_record at h
  split at h
  · rename_i hl
    have h0 := label_nonempty line "skin:" 5 's' "kin:".toList rfl (by decide) hl
    unfold line_effect
    simp only [if_neg h0, if_pos hl]
    split at h
    · rename_i heq
      simp only [Option.some.injEq] at h
      simp only [heq, h]
    · simp at h
  · simp at h

/-- A valid `display:` record has the effect of setting the display variables. -/
theorem line_effect_display (pke : List Char → Int → Option keymap_entry) (line : List Char)
    (n : Int) (d : SkinPoint × ℚ × ℚ × SkinColor × SkinColor)
    (h : display_record line = some d) :
    line_effect pke line n = LineEffect.display d.1 d.2.1 d.2.2.1 d.2.2.2.1 d.2.2.2.2 := by
  unfold display_record at h
  split at h
  · rename_i hl
    have h0 := label_nonempty line "display:" 8 'd' "isplay:".toList rfl (by decide) hl
    have h1 := label_exclusive line "display:" "skin:" 8 5 'd' 's' "isplay:".toList
      "kin:".toList rfl rfl (by decide) (by decide) (by decide) hl
    unfold line_effect
    simp only [if_neg h0, if_neg h1, if_pos hl]
    split at h
    · rename_i heq
      simp only [Option.some.injEq] at h
      simp only [heq, ← h]
    · simp at h
  · simp at h

theorem annunciator_label_first (line : List Char)
    (hl : strncasecmp_eq line "annunciator:" 12 = true) :
    line ≠ [] ∧ ¬ strncasecmp_eq line "skin:" 5 = true
      ∧ ¬ strncasecmp_eq line "display:" 8 = true
      ∧ ¬ strncasecmp_eq line "displaysize:" 12 = true
      ∧ ¬ strncasecmp_eq line "displayexpansionzone:" 21 = true
      ∧ ¬ strncasecmp_eq line "key:" 4 = true
      ∧ ¬ strncasecmp_eq line "macro:" 6 = true :=
  ⟨label_nonempty line "annunciator:" 12 'a' "nnunciator:".toList rfl (by decide) hl,
    label_exclusive line "annunciator:" "skin:" 12 5 'a' 's' "nnunciator:".toList
      "kin:".toList rfl rfl (by decide) (by decide) (by decide) hl,
    label_exclusive line "annunciator:" "display:" 12 8 'a' 'd' "nnunciator:".toList
      "isplay:".toList rfl rfl (by decide) (by decide) (by decide) hl,
    label_exclusive line "annunciator:" "displaysize:" 12 12 'a' 'd' "nnunciator:".toList
      "isplaysize:".toList rfl rfl (by decide) (by decide) (by decide) hl,
    label_exclusive line "annunciator:" "displayexpansionzone:" 12 21 'a' 'd'
      "nnunciator:".toList "isplayexpansionzone:".toList rfl rfl (by decide) (by decide)
      (by decide) hl,
    label_exclusive line "annunciator:" "key:" 12 4 'a' 'k' "nnunciator:".toList
      "ey:".toList rfl rfl (by decide) (by decide) (by decide) hl,
    label_exclusive line "annunciator:" "macro:" 12 6 'a' 'm' "nnunciator:".toList
      "acro:".toList rfl rfl (by decide) (by decide) (by decide) hl⟩

/-- An `annunciator:` record with its 7 fields sets the slot of its number when the
number is in 1..7 and has no effect otherwise. -/
theorem line_effect_annunciator (pke : List Char → Int → Option keymap_entry)
    (line : List Char) (n : Int) (num : Int) (a : SkinAnnunciator)
    (h : annunciator_record line = some (num, a)) :
    line_effect pke line n
      = if num ≥ 1 ∧ num ≤ 7 then LineEffect.annunciator num a else LineEffect.nothing := by
  unfold annunciator_record at h
  split at h
  · rename_i hl
    obtain ⟨h0, h1, h2, h3, h4, h5, h6⟩ := annunciator_label_first line hl
    unfold line_effect
    simp only [if_neg h0, if_neg h1, if_neg h2, if_neg h3, if_neg h4, if_neg h5, if_neg h6,
      if_pos hl]
    split at h
    · rename_i heq
      simp only [Option.some.injEq, Prod.mk.injEq] at h
      obtain ⟨rfl, rfl⟩ := h
      simp only [heq]
    · simp at h
  · simp at h

/-- Only an `annunciator:` record with its 7 fields and a number in 1..7 sets an
annunciator slot. -/
theorem line_effect_annunciator_inv (pke : List Char → Int → Option keymap_entry)
    (line : List Char) (n : Int) (num : Int) (a : SkinAnnunciator)
    (h : line_effect pke line n = LineEffect.annunciator num a) :
    annunciator_record line = some (num, a) ∧ 1 ≤ num ∧ num ≤ 7 := by
  unfold line_effect at h
  by_cases h0 : line = []
  · simp [if_pos h0] at h
  simp only [if_neg h0] at h
  by_cases h1 : strncasecmp_eq line "skin:" 5 = true
  · simp only [if_pos h1] at h
    split at h <;> simp at h
  simp only [if_neg h1] at h
  by_cases h2 : strncasecmp_eq line "display:" 8 = true
  · simp only [if_pos h2] at h
    split at h <;> simp at h
  simp only [if_neg h2] at h
  by_cases h3 : strncasecmp_eq line "displaysize:" 12 = true
  · simp only [if_pos h3] at h
    split at h
    · split at h <;> simp at h
    · simp at h
  simp only [if_neg h3] at h
  by_cases h4 : strncasecmp_eq line "displayexpansionzone:" 21 = true
  · simp only [if_pos h4] at h
    split at h <;> simp at h
  simp only [if_neg h4] at h
  by_cases h5 : strncasecmp_eq line "key:" 4 = true
  · simp only [if_pos h5] at h
    split at h <;> simp at h
  simp only [if_neg h5] at h
  by_cases h6 : strncasecmp_eq line "macro:" 6 = true
  · simp only [if_pos h6] at h
    split at h <;> simp at h
  simp only [if_neg h6] at h
  by_cases h7 : strncasecmp_eq line "annunciator:" 12 = true
  · simp only [if_pos h7] at h
    split at h
    · rename_i heq
      split at h
      · rename_i hr
        simp only [LineEffect.annunciator.injEq] at h
        obtain ⟨rfl, rfl⟩ := h
        unfold annunciator_record
        simp only [if_pos h7, heq]
        exact ⟨trivial, hr.1, hr.2⟩
      · simp at h
    · simp at h
  simp only [if_neg h7] at h
  by_cases h8 : strncasecmp_eq line "gtkkey:" 7 = true
  · simp only [if_pos h8] at h
    split at h <;> simp at h
  simp only [if_neg h8] at h
  by_cases h9 : strncasecmp_eq line "flags:" 6 = true
  · simp only [if_pos h9] at h
    split at h <;> simp at h
  simp only [if_neg h9] at h
  by_cases h10 : strncasecmp_eq line "altbkgd:" 8 = true
  · simp only [if_pos h10] at h
    split at h <;> simp at h
  simp only [if_neg h10] at h
  by_cases h11 : strncasecmp_eq line "altkey:" 7 = true
  · simp only [if_pos h11] at h
    split at h <;> simp at h
  simp only [if_neg h11] at h
  simp at h

theorem same_parse_mono (sk dp sk2 dp2 : Prop) (an an2 : Nat → Prop) (a b : LoadState)
    (h1 : sk2 → sk) (h2 : dp2 → dp) (h3 : ∀ i, an2 i → an i) (h : same_parse sk dp an a b) :
    same_parse sk2 dp2 an2 a b :=
  ⟨h.1, fun x => h.2.1 (h1 x), fun x => h.2.2.1 (h2 x), h.2.2.2.1,
    fun i x => h.2.2.2.2 i (h3 i x)⟩

/-- One line keeps two states of the parse loop in agreement and adds what it
sets. -/
theorem skin_load_line_same_parse (pke : List Char → Int → Option keymap_entry)
    (line : List Char) (sk dp : Prop) (an : Nat → Prop) (a b : LoadState)
    (h : same_parse sk dp an a b) :
    same_parse (sk ∨ (skin_record line).isSome = true)
      (dp ∨ (display_record line).isSome = true)
      (fun i => an i ∨ ∃ num x, annunciator_record line = some (num, x)
        ∧ 1 ≤ num ∧ num ≤ 7 ∧ (num - 1).toNat = i)
      (skin_load_line pke a line) (skin_load_line pke b line) := by
  have hlin : a.lineno = b.lineno := by
    have := h.1
    simp only [load_core, Prod.mk.injEq] at this
    exact this.1
  have hinc : same_parse sk dp an { a with lineno := a.lineno + 1 }
      { b with lineno := a.lineno + 1 } := by
    obtain ⟨hc, hs, hd, hl, ha⟩ := h
    refine ⟨?_, hs, hd, hl, ha⟩
    simp only [load_core, Prod.mk.injEq] at hc ⊢
    obtain ⟨_, c2⟩ := hc
    exact ⟨trivial, c2⟩
  rw [skin_load_line_effect, skin_load_line_effect, ← hlin]
  have hstep := apply_effect_same_parse (line_effect pke line (a.lineno + 1)) sk dp an _ _ hinc
  refine same_parse_mono _ _ _ _ _ _ _ _ ?_ ?_ ?_ hstep
  · rintro (hx | hx)
    · exact Or.inl hx
    · obtain ⟨r, hr⟩ := Option.isSome_iff_exists.1 hx
      rw [line_effect_skin pke line _ r hr]
      exact Or.inr trivial
  · rintro (hx | hx)
    · exact Or.inl hx
    · obtain ⟨d, hd⟩ := Option.isSome_iff_exists.1 hx
      rw [line_effect_display pke line _ d hd]
      exact Or.inr trivial
  · rintro i (hx | ⟨num, x, hrec, h1, h7, hi⟩)
    · exact Or.inl hx
    · rw [line_effect_annunciator pke line _ num x hrec, if_pos ⟨h1, h7⟩]
      exact Or.inr hi

/-- The parse loop keeps two states in agreement and adds what the lines set. -/
theorem skin_load_lines_same_parse (pke : List Char → Int → Option keymap_entry)
    (lines : List (List Char)) :
    ∀ (sk dp : Prop) (an : Nat → Prop) (a b : LoadState), same_parse sk dp an a b →
      same_parse (sk ∨ ∃ l ∈ lines, (skin_record l).isSome = true)
        (dp ∨ ∃ l ∈ lines, (display_record l).isSome = true)
        (fun i => an i ∨ ∃ l ∈ lines, ∃ num x, annunciator_record l = some (num, x)
          ∧ 1 ≤ num ∧ num ≤ 7 ∧ (num - 1).toNat = i)
        (lines.foldl (skin_load_line pke) a) (lines.foldl (skin_load_line pke) b) := by
  induction lines with
  | nil =>
    intro sk dp an a b h
    refine same_parse_mono _ _ _ _ _ _ _ _ ?_ ?_ ?_ h
    · rintro (hx | ⟨l, hl, _⟩)
      · exact hx
      · simp at hl
    · rintro (hx | ⟨l, hl, _⟩)
      · exact hx
      · simp at hl
    · rintro i (hx | ⟨l, hl, _⟩)
      · exact hx
      · simp at hl
  | cons line lines ih =>
    intro sk dp an a b h
    have h1 := skin_load_line_same_parse pke line sk dp an a b h
    have h2 := ih _ _ _ _ _ h1
    rw [List.foldl_cons, List.foldl_cons]
    refine same_parse_mono _ _ _ _ _ _ _ _ ?_ ?_ ?_ h2
    · rintro (hx | ⟨l, hl, hrec⟩)
      · exact Or.inl (Or.inl hx)
      · rcases List.mem_cons.1 hl with rfl | hl
        · exact Or.inl (Or.inr hrec)
        · exact Or.inr ⟨l, hl, hrec⟩
    · rintro (hx | ⟨l, hl, hrec⟩)
      · exact Or.inl (Or.inl hx)
      · rcases List.mem_cons.1 hl with rfl | hl
        · exact Or.inl (Or.inr hrec)
        · exact Or.inr ⟨l, hl, hrec⟩
    · rintro i (hx | ⟨l, hl, hrec⟩)
      · exact Or.inl (Or.inl hx)
      · rcases List.mem_cons.1 hl with rfl | hl
        · exact Or.inl (Or.inr hrec)
        · exact Or.inr ⟨l, hl, hrec⟩

/-- An effect that does not set a slot leaves the slot as it is; no effect changes
the number of slots. -/
theorem apply_effect_annunciators (e : LineEffect) (st : LoadState) :
    (apply_effect e st).g.annunciators.length = st.g.annunciators.length
      ∧ ∀ i, ¬ sets_annunciator e i →
        (apply_effect e st).g.annunciators[i]? = st.g.annunciators[i]? := by
  cases e with
  | annunciator n x =>
    refine ⟨by simp [apply_effect], ?_⟩
    intro i hi
    simp only [sets_annunciator] at hi
    simp only [apply_effect]
    rw [List.getElem?_set_ne hi]
  | _ => exact ⟨rfl, fun _ _ => rfl⟩

/-- The parse loop leaves the slots that no line sets as they were, and keeps the
number of slots. -/
theorem skin_load_lines_annunciators (pke : List Char → Int → Option keymap_entry)
    (lines : List (List Char)) :
    ∀ st : LoadState,
      (lines.foldl (skin_load_line pke) st).g.annunciators.length = st.g.annunciators.length
        ∧ ∀ i, (∀ l ∈ lines, ∀ num x, annunciator_record l = some (num, x) →
            1 ≤ num → num ≤ 7 → (num - 1).toNat ≠ i) →
          (lines.foldl (skin_load_line pke) st).g.annunciators[i]? = st.g.annunciators[i]? := by
  induction lines with
  | nil => intro st; exact ⟨rfl, fun _ _ => rfl⟩
  | cons line lines ih =>
    intro st
    rw [List.foldl_cons]
    obtain ⟨ih1, ih2⟩ := ih (skin_load_line pke st line)
    have hstep := apply_effect_annunciators (line_effect pke line (st.lineno + 1))
      { st with lineno := st.lineno + 1 }
    rw [← skin_load_line_effect] at hstep
    refine ⟨by rw [ih1, hstep.1], ?_⟩
    intro i hi
    rw [ih2 i (fun l hl => hi l (List.mem_cons_of_mem _ hl))]
    rw [hstep.2 i]
    intro hset
    cases he : line_effect pke line (st.lineno + 1) with
    | annunciator n x =>
      rw [he] at hset
      obtain ⟨hrec, h1, h7⟩ := line_effect_annunciator_inv pke line _ n x he
      exact hi line (List.mem_cons_self _ _) n x hrec h1 h7 hset
    | _ => rw [he] at hset; exact hset

/-- The final statements of a load overwrite the display bitmap variables and
`display_scale_int`: a pass does not read them. -/
theorem skin_load_finish_clear (ls : LoadState) (rr rc : Int) :
    skin_load_finish (skin_load_adjust ls rr rc)
      = skin_load_finish (skin_load_adjust (clear_assigned ls) rr rc) := by
  have e1 : skin_load_clamp_rows (clear_assigned ls) rr rc = skin_load_clamp_rows ls rr rc := rfl
  have e2 : ∀ rows, skin_load_extra (clear_assigned ls) rows rc = skin_load_extra ls rows rc :=
    fun _ => rfl
  unfold skin_load_finish skin_load_adjust
  simp only [e1, e2]
  by_cases hx : skin_load_extra ls (skin_load_clamp_rows ls rr rc) rc > 0
  · simp only [if_pos hx]
    by_cases hr : skin_load_clamp_rows ls rr rc > 2 ∧ ls.alt_disp_y ≠ -1
    · have hr2 : skin_load_clamp_rows ls rr rc > 2 ∧ (clear_assigned ls).alt_disp_y ≠ -1 := hr
      simp only [if_pos hr, if_pos hr2]
      rfl
    · have hr2 : ¬ (skin_load_clamp_rows ls rr rc > 2 ∧ (clear_assigned ls).alt_disp_y ≠ -1) :=
        hr
      simp only [if_neg hr, if_neg hr2]
      rfl
  · simp only [if_neg hx]
    by_cases hr : skin_load_clamp_rows ls rr rc > 2 ∧ ls.alt_disp_y ≠ -1
    · have hr2 : skin_load_clamp_rows ls rr rc > 2 ∧ (clear_assigned ls).alt_disp_y ≠ -1 := hr
      simp only [if_pos hr, if_pos hr2]
      rfl
    · have hr2 : ¬ (skin_load_clamp_rows ls rr rc > 2 ∧ (clear_assigned ls).alt_disp_y ≠ -1) :=
        hr
      simp only [if_neg hr, if_neg hr2]
      rfl

/-- Two states that agree on everything the parse sets are equal up to the
variables that every load assigns. -/
theorem clear_assigned_eq (a b : LoadState) (hc : load_core a = load_core b)
    (hs : a.g.skin = b.g.skin) (hd : load_display a = load_display b)
    (ha : a.g.annunciators = b.g.annunciators) : clear_assigned a = clear_assigned b := by
  obtain ⟨ga, a1, a2, a3, a4, a5, a6, a7, a8, a9⟩ := a
  obtain ⟨gb, b1, b2, b3, b4, b5, b6, b7, b8, b9⟩ := b
  obtain ⟨x1, x2, x3, x4, x5, x6, x7, x8, x9, x10, x11, x12, x13, x14, x15, x16, x17, x18, x19⟩
    := ga
  obtain ⟨y1, y2, y3, y4, y5, y6, y7, y8, y9, y10, y11, y12, y13, y14, y15, y16, y17, y18, y19⟩
    := gb
  simp only [load_core, load_display, Prod.mk.injEq] at hc hd hs ha
  obtain ⟨c1, c2, c3, c4, c5, c6, c7, c8, c9, c10, c11, c12, c13, c14⟩ := hc
  obtain ⟨d1, d2, d3, d4, d5⟩ := hd
  subst c1 c2 c3 c4 c5 c6 c7 c8 c9 c10 c11 c12 c13 c14 d1 d2 d3 d4 d5 hs ha
  rfl

/-- A call of the loop that returns in pass `n` returns the result of that pass on
the layout and the row count that the failed passes left. -/
theorem skin_load_loop_last (pke : List Char → Int → Option keymap_entry)
    (env : Nat → List Char → Bool → PassBehaviour) (builtin0 : List Char)
    (last_req : Int × Int) (rc : Int) (lines : List (List Char)) (n : Nat) :
    ∀ (fuel k : Nat) (name : List Char) (force : Bool) (g : SkinState) (rr ln : Int),
      (∀ j, j < n →
        (env (k + j) (pass_name name builtin0 j) (pass_force force j)).ok = false) →
      (env (k + n) (pass_name name builtin0 n) (pass_force force n)).layout = some lines →
      (env (k + n) (pass_name name builtin0 n) (pass_force force n)).ok = true →
      n < fuel →
      skin_load_loop pke env builtin0 last_req rc fuel k name force g rr ln
        = some
          { g := (skin_load_pass_from pke
              (skin_load_failed pke env builtin0 rc n k name force g rr ln).2.2
              (skin_load_failed pke env builtin0 rc n k name force g rr ln).1 lines
              (skin_load_failed pke env builtin0 rc n k name force g rr ln).2.1 rc).1
            out := (skin_load_pass_from pke
              (skin_load_failed pke env builtin0 rc n k name force g rr ln).2.2
              (skin_load_failed pke env builtin0 rc n k name force g rr ln).1 lines
              (skin_load_failed pke env builtin0 rc n k name force g rr ln).2.1 rc).2
            skinName := pass_name name builtin0 n
            last_req := last_req
            fallbacks := k + n } := by
  induction n with
  | zero =>
    intro fuel k name force g rr ln _ hlay hok hfuel
    obtain ⟨f, rfl⟩ : ∃ f, fuel = f + 1 := ⟨fuel - 1, by omega⟩
    simp only [pass_name, pass_force, if_true, Nat.add_zero, PassBehaviour.ok,
      Bool.and_eq_true] at hok hlay
    obtain ⟨⟨_, h2⟩, h3⟩ := hok
    unfold skin_load_loop
    simp only [hlay, h2, h3, and_self, if_true]
    rfl
  | succ n ih =>
    intro fuel k name force g rr ln hfail hlay hok hfuel
    obtain ⟨f, rfl⟩ : ∃ f, fuel = f + 1 := ⟨fuel - 1, by omega⟩
    have h0 := hfail 0 (Nat.succ_pos n)
    simp only [pass_name, pass_force, if_true, Nat.add_zero] at h0
    have hfail2 : ∀ j, j < n →
        (env (k + 1 + j) (pass_name builtin0 builtin0 j) (pass_force true j)).ok = false := by
      intro j hj
      have := hfail (j + 1) (Nat.succ_lt_succ hj)
      simp only [pass_name, pass_force, Nat.succ_ne_zero, if_false] at this
      have he : k + 1 + j = k + (j + 1) := by omega
      rw [he]
      simpa [pass_name, pass_force] using this
    have he : k + 1 + n = k + (n + 1) := by omega
    have hlay2 : (env (k + 1 + n) (pass_name builtin0 builtin0 n) (pass_force true n)).layout
        = some lines := by
      simp only [pass_name, pass_force, Nat.succ_ne_zero, if_false] at hlay
      rw [he]
      simpa [pass_name, pass_force] using hlay
    have hok2 : (env (k + 1 + n) (pass_name builtin0 builtin0 n) (pass_force true n)).ok
        = true := by
      simp only [pass_name, pass_force, Nat.succ_ne_zero, if_false] at hok
      rw [he]
      simpa [pass_name, pass_force] using hok
    have hname : pass_name builtin0 builtin0 n = pass_name name builtin0 (n + 1) := by
      simp [pass_name]
    unfold skin_load_loop skin_load_failed
    cases hl : (env k name force).layout with
    | none =>
      simp only
      rw [ih f (k + 1) builtin0 true g rr ln hfail2 hlay2 hok2 (by omega), hname, he]
    | some ls =>
      have hnot : ¬ ((env k name force).bitmap_open = true
          ∧ (env k name force).image_ok = true) := by
        intro hc
        simp [PassBehaviour.ok, hl, hc.1, hc.2] at h0
      simp only [hnot, if_false]
      rw [ih f (k + 1) builtin0 true _ _ _ hfail2 hlay2 hok2 (by omega), hname, he]

/-- The geometry adjustment keeps the number of annunciator slots. -/
theorem skin_load_adjust_length (ls : LoadState) (rr rc : Int) :
    (skin_load_adjust ls rr rc).g.annunciators.length = ls.g.annunciators.length := by
  by_cases hx : skin_load_extra ls (skin_load_clamp_rows ls rr rc) rc > 0
  · rw [(skin_load_adjust_shift ls rr rc hx).2.2.1, List.length_map]
  · rw [(skin_load_adjust_no_shift ls rr rc hx).2.2.1]

/-- The parse keeps the number of annunciator slots. -/
theorem skin_load_records_length (pke : List Char → Int → Option keymap_entry)
    (ln : Int) (g : SkinState) (lines : List (List Char)) :
    (skin_load_records_from pke ln g lines).g.annunciators.length
      = g.annunciators.length := by
  unfold skin_load_records_from
  rw [(skin_load_lines_annunciators pke lines _).1]
  rfl

/-- The parse of one description from two layouts, with the same `lineno` at its
start: the two states agree on the variables of `load_core`, on the skin rectangle
if a line is a valid `skin:` record, on the display variables if a line is a valid
`display:` record, and on each annunciator slot that a valid `annunciator:` record
references. -/
theorem skin_load_records_same (pke : List Char → Int → Option keymap_entry)
    (ln : Int) (g1 g2 : SkinState) (lines : List (List Char))
    (hlen : g1.annunciators.length = g2.annunciators.length) :
    same_parse (∃ l ∈ lines, (skin_record l).isSome = true)
      (∃ l ∈ lines, (display_record l).isSome = true)
      (fun i => ∃ l ∈ lines, ∃ num x, annunciator_record l = some (num, x)
        ∧ 1 ≤ num ∧ num ≤ 7 ∧ (num - 1).toNat = i)
      (skin_load_records_from pke ln g1 lines) (skin_load_records_from pke ln g2 lines) := by
  have h0 : same_parse False False (fun _ => False)
      { skin_load_reset g1 with lineno := ln } { skin_load_reset g2 with lineno := ln } :=
    ⟨rfl, fun h => h.elim, fun h => h.elim, by simpa [skin_load_reset] using hlen,
      fun _ h => h.elim⟩
  have h := skin_load_lines_same_parse pke lines _ _ _ _ _ h0
  exact same_parse_mono _ _ _ _ _ _ _ _ Or.inr Or.inr (fun _ => Or.inr) h

/-- The geometry adjustment and the final statements read the skin rectangle and
the annunciators only to shift them: two states that agree on the variables of
`load_core` and on the display variables give the same rows, columns, flags and
image arguments, the same values of the variables of `layout_rebuilt`, the same
skin rectangle if they agree on it, and the same value of each annunciator slot on
which they agree. -/
theorem skin_load_finish_reads (a b : LoadState) (rr rc : Int)
    (hc : load_core a = load_core b) (hd : load_display a = load_display b) :
    layout_rebuilt (skin_load_finish (skin_load_adjust a rr rc)).1
        = layout_rebuilt (skin_load_finish (skin_load_adjust b rr rc)).1
      ∧ (skin_load_adjust a rr rc).disp_rows = (skin_load_adjust b rr rc).disp_rows
      ∧ (skin_load_adjust a rr rc).disp_cols = (skin_load_adjust b rr rc).disp_cols
      ∧ (skin_load_adjust a rr rc).fl = (skin_load_adjust b rr rc).fl
      ∧ (skin_load_adjust a rr rc).extra = (skin_load_adjust b rr rc).extra
      ∧ (skin_load_adjust a rr rc).dup_first_y = (skin_load_adjust b rr rc).dup_first_y
      ∧ (skin_load_adjust a rr rc).dup_last_y = (skin_load_adjust b rr rc).dup_last_y
      ∧ (a.g.skin = b.g.skin →
          (skin_load_finish (skin_load_adjust a rr rc)).1.skin
            = (skin_load_finish (skin_load_adjust b rr rc)).1.skin)
      ∧ (∀ i : Nat, a.g.annunciators[i]? = b.g.annunciators[i]? →
          (skin_load_finish (skin_load_adjust a rr rc)).1.annunciators[i]?
            = (skin_load_finish (skin_load_adjust b rr rc)).1.annunciators[i]?) := by
  obtain ⟨ga, a1, a2, a3, a4, a5, a6, a7, a8, a9⟩ := a
  obtain ⟨gb, b1, b2, b3, b4, b5, b6, b7, b8, b9⟩ := b
  obtain ⟨x1, x2, x3, x4, x5, x6, x7, x8, x9, x10, x11, x12, x13, x14, x15, x16, x17, x18, x19⟩
    := ga
  obtain ⟨y1, y2, y3, y4, y5, y6, y7, y8, y9, y10, y11, y12, y13, y14, y15, y16, y17, y18, y19⟩
    := gb
  simp only [load_core, load_display, Prod.mk.injEq] at hc hd
  obtain ⟨c1, c2, c3, c4, c5, c6, c7, c8, c9, c10, c11, c12, c13, c14⟩ := hc
  obtain ⟨d1, d2, d3, d4, d5⟩ := hd
  subst c1 c2 c3 c4 c5 c6 c7 c8 c9 c10 c11 c12 c13 c14 d1 d2 d3 d4 d5
  generalize hA : (⟨⟨x1, x2, x3, x4, x5, x6, x7, x8, x9, x10, x11, x12, x13, x14, x15, x16,
    x17, x18, x19⟩, a1, a2, a3, a4, a5, a6, a7, a8, a9⟩ : LoadState) = A
  generalize hB : (⟨⟨x1, x2, y3, x4, x5, x6, y7, x8, x9, x10, x11, y12, y13, y14, y15, y16,
    y17, y18, x19⟩, a1, a2, a3, a4, a5, a6, a7, a8, a9⟩ : LoadState) = B
  have e1 : skin_load_clamp_rows B rr rc = skin_load_clamp_rows A rr rc := by
    subst hA hB; rfl
  have e2 : ∀ rows, skin_load_extra B rows rc = skin_load_extra A rows rc := by
    subst hA hB; exact fun _ => rfl
  have e3 : skin_load_xs B rc = skin_load_xs A rc := by
    subst hA hB; rfl
  have e4 : ∀ rows, skin_load_ys B rows rc = skin_load_ys A rows rc := by
    subst hA hB; exact fun _ => rfl
  have e5 : zone_first_y B = zone_first_y A := by
    subst hA hB; rfl
  have e6 : zone_last_y B = zone_last_y A := by
    subst hA hB; rfl
  have f1 : B.alt_disp_y = A.alt_disp_y := by subst hA hB; rfl
  have f2 : B.dup_first_y = A.dup_first_y := by subst hA hB; rfl
  have f3 : B.dup_last_y = A.dup_last_y := by subst hA hB; rfl
  have f4 : B.fl = A.fl := by subst hA hB; rfl
  have f5 : layout_rebuilt B.g
      = (A.g.alt_bak, A.g.alt_key, A.g.display_loc, A.g.display_scale_x, A.g.display_scale_y,
        B.g.display_scale_int, A.g.display_bg, A.g.display_fg, A.g.keylist, A.g.macrolist,
        B.g.disp_r, B.g.disp_c, B.g.disp_w, B.g.disp_h, B.g.disp_bits, B.g.disp_bpl,
        A.g.keymap) := by
    subst hA hB; rfl
  simp only [layout_rebuilt, Prod.mk.injEq] at f5
  obtain ⟨g1, g2, g3, g4, g5, -, g7, g8, g9, g10, -, -, -, -, -, -, g17⟩ := f5
  unfold skin_load_finish skin_load_adjust
  simp only [e1, e2, e3, e4, e5, e6, f1, f2, f3, f4, layout_rebuilt]
  by_cases hx : skin_load_extra A (skin_load_clamp_rows A rr rc) rc > 0
  · simp only [if_pos hx, fix_coordinates]
    by_cases hr : skin_load_clamp_rows A rr rc > 2 ∧ A.alt_disp_y ≠ -1
    · simp only [if_pos hr, g1, g2, g3, g4, g5, g7, g8, g9, g10, g17, true_and, and_true]
      refine ⟨fun hs => by rw [hs], fun i hi => ?_⟩
      rw [List.getElem?_map, List.getElem?_map, hi]
    · simp only [if_neg hr, g1, g2, g3, g4, g5, g7, g8, g9, g10, g17, true_and, and_true]
      refine ⟨fun hs => by rw [hs], fun i hi => ?_⟩
      rw [List.getElem?_map, List.getElem?_map, hi]
  · simp only [if_neg hx]
    by_cases hr : skin_load_clamp_rows A rr rc > 2 ∧ A.alt_disp_y ≠ -1
    · simp only [if_pos hr, g1, g2, g3, g4, g5, g7, g8, g9, g10, g17, true_and, and_true]
      exact ⟨fun hs => hs, fun i hi => hi⟩
    · simp only [if_neg hr, g1, g2, g3, g4, g5, g7, g8, g9, g10, g17, true_and, and_true]
      exact ⟨fun hs => hs, fun i hi => hi⟩

/-- Only a valid `skin:` record sets the skin rectangle. -/
theorem line_effect_sets_skin (pke : List Char → Int → Option keymap_entry)
    (line : List Char) (n : Int) (h : sets_skin (line_effect pke line n)) :
    (skin_record line).isSome = true := by
  unfold line_effect at h
  by_cases h0 : line = []
  · simp [if_pos h0, sets_skin] at h
  simp only [if_neg h0] at h
  by_cases h1 : strncasecmp_eq line "skin:" 5 = true
  · simp only [if_pos h1] at h
    unfold skin_record
    simp only [if_pos h1]
    split at h
    · rfl
    · simp [sets_skin] at h
  simp only [if_neg h1] at h
  exfalso
  by_cases h2 : strncasecmp_eq line "display:" 8 = true
  · simp only [if_pos h2] at h
    split at h <;> exact h
  simp only [if_neg h2] at h
  repeat' split at h
  all_goals exact h

/-- Only a valid `display:` record sets the display variables. -/
theorem line_effect_sets_display (pke : List Char → Int → Option keymap_entry)
    (line : List Char) (n : Int) (h : sets_display (line_effect pke line n)) :
    (display_record line).isSome = true := by
  unfold line_effect at h
  by_cases h0 : line = []
  · simp [if_pos h0, sets_display] at h
  simp only [if_neg h0] at h
  by_cases h1 : strncasecmp_eq line "skin:" 5 = true
  · simp only [if_pos h1] at h
    exfalso
    split at h <;> exact h
  simp only [if_neg h1] at h
  by_cases h2 : strncasecmp_eq line "display:" 8 = true
  · simp only [if_pos h2] at h
    unfold display_record
    simp only [if_pos h2]
    split at h
    · rfl
    · simp [sets_display] at h
  simp only [if_neg h2] at h
  exfalso
  repeat' split at h
  all_goals exact h

/-- An effect that does not set the skin rectangle, or the display variables,
leaves them as they are. -/
theorem apply_effect_keeps (e : LineEffect) (st : LoadState) :
    (¬ sets_skin e → (apply_effect e st).g.skin = st.g.skin)
      ∧ (¬ sets_display e → load_display (apply_effect e st) = load_display st) := by
  cases e with
  | skin r => exact ⟨fun h => absurd trivial h, fun _ => rfl⟩
  | display loc xs ys bg fg => exact ⟨fun _ => rfl, fun h => absurd trivial h⟩
  | _ => exact ⟨fun _ => rfl, fun _ => rfl⟩

/-- The parse loop leaves the skin rectangle as it was when no line is a valid
`skin:` record, and the display variables as they were when no line is a valid
`display:` record. -/
theorem skin_load_lines_keeps (pke : List Char → Int → Option keymap_entry)
    (lines : List (List Char)) :
    ∀ st : LoadState,
      ((¬ ∃ l ∈ lines, (skin_record l).isSome = true) →
          (lines.foldl (skin_load_line pke) st).g.skin = st.g.skin)
        ∧ ((¬ ∃ l ∈ lines, (display_record l).isSome = true) →
          load_display (lines.foldl (skin_load_line pke) st) = load_display st) := by
  induction lines with
  | nil => intro st; exact ⟨fun _ => rfl, fun _ => rfl⟩
  | cons line lines ih =>
    intro st
    rw [List.foldl_cons]
    obtain ⟨ih1, ih2⟩ := ih (skin_load_line pke st line)
    have hstep := apply_effect_keeps (line_effect pke line (st.lineno + 1))
      { st with lineno := st.lineno + 1 }
    rw [← skin_load_line_effect] at hstep
    constructor
    · intro hno
      rw [ih1 (fun ⟨l, hl, hrec⟩ => hno ⟨l, List.mem_cons_of_mem _ hl, hrec⟩)]
      rw [hstep.1 (fun hset => hno ⟨line, List.mem_cons_self _ _,
        line_effect_sets_skin pke line _ hset⟩)]
    · intro hno
      rw [ih2 (fun ⟨l, hl, hrec⟩ => hno ⟨l, List.mem_cons_of_mem _ hl, hrec⟩)]
      rw [hstep.2 (fun hset => hno ⟨line, List.mem_cons_self _ _,
        line_effect_sets_display pke line _ hset⟩)]
      rfl

/-- What the geometry adjustment and the final statements keep of the skin
rectangle and of the display variables: the skin rectangle but for its height,
which grows by the `extra` handed to `shell_loadimage`, the X coordinate of the
display and the display colours. -/
theorem skin_load_finish_keeps (ls : LoadState) (rr rc : Int) :
    (skin_load_finish (skin_load_adjust ls rr rc)).1.skin
        = { ls.g.skin with height := ls.g.skin.height + (skin_load_adjust ls rr rc).extra }
      ∧ (skin_load_finish (skin_load_adjust ls rr rc)).1.display_loc.x = ls.g.display_loc.x
      ∧ (skin_load_finish (skin_load_adjust ls rr rc)).1.display_bg = ls.g.display_bg
      ∧ (skin_load_finish (skin_load_adjust ls rr rc)).1.display_fg = ls.g.display_fg := by
  unfold skin_load_finish skin_load_adjust
  by_cases hx : skin_load_extra ls (skin_load_clamp_rows ls rr rc) rc > 0
  · simp only [if_pos hx, fix_coordinates]
    refine ⟨?_, ?_, ?_, ?_⟩ <;> (split <;> rfl)
  · simp only [if_neg hx, Int.add_zero]
    refine ⟨?_, ?_, ?_, ?_⟩ <;> (split <;> rfl)

/-- The passes that fail keep the number of annunciator slots. -/
theorem skin_load_failed_length (pke : List Char → Int → Option keymap_entry)
    (env : Nat → List Char → Bool → PassBehaviour) (builtin0 : List Char) (rc : Int)
    (n : Nat) :
    ∀ (k : Nat) (name : List Char) (force : Bool) (g : SkinState) (rr ln : Int),
      (skin_load_failed pke env builtin0 rc n k name force g rr ln).1.annunciators.length
        = g.annunciators.length := by
  induction n with
  | zero => intro k name force g rr ln; rfl
  | succ n ih =>
    intro k name force g rr ln
    unfold skin_load_failed
    cases hl : (env k name force).layout with
    | none => exact ih (k + 1) builtin0 true g rr ln
    | some ls =>
      simp only
      rw [ih (k + 1) builtin0 true, skin_load_adjust_length, skin_load_records_length]

/-- When the description of every failed pass has a valid `display:` record, the
row count and the line number that the failed passes leave do not depend on the
layout of before the call. -/
theorem skin_load_failed_same (pke : List Char → Int → Option keymap_entry)
    (env : Nat → List Char → Bool → PassBehaviour) (builtin0 : List Char) (rc : Int)
    (n : Nat) :
    ∀ (k : Nat) (name : List Char) (force : Bool) (g1 g2 : SkinState) (rr ln : Int),
      g1.annunciators.length = g2.annunciators.length →
      (∀ j, j < n → ∀ ls,
        (env (k + j) (pass_name name builtin0 j) (pass_force force j)).layout = some ls →
        ∃ l ∈ ls, (display_record l).isSome = true) →
      (skin_load_failed pke env builtin0 rc n k name force g1 rr ln).2
        = (skin_load_failed pke env builtin0 rc n k name force g2 rr ln).2 := by
  induction n with
  | zero => intro k name force g1 g2 rr ln _ _; rfl
  | succ n ih =>
    intro k name force g1 g2 rr ln hlen hd
    have hd0 := hd 0 (Nat.succ_pos n)
    simp only [pass_name, pass_force, if_true, Nat.add_zero] at hd0
    have hd2 : ∀ j, j < n → ∀ ls,
        (env (k + 1 + j) (pass_name builtin0 builtin0 j) (pass_force true j)).layout = some ls →
        ∃ l ∈ ls, (display_record l).isSome = true := by
      intro j hj ls hls
      apply hd (j + 1) (Nat.succ_lt_succ hj) ls
      have he : k + 1 + j = k + (j + 1) := by omega
      rw [he] at hls
      simpa [pass_name, pass_force] using hls
    unfold skin_load_failed
    cases hl : (env k name force).layout with
    | none => exact ih (k + 1) builtin0 true g1 g2 rr ln hlen hd2
    | some ls =>
      simp only
      have hsame := skin_load_records_same pke ln g1 g2 ls hlen
      have hreads := skin_load_finish_reads _ _ rr rc hsame.1 (hsame.2.2.1 (hd0 ls hl))
      have hln : (skin_load_records_from pke ln g1 ls).lineno
          = (skin_load_records_from pke ln g2 ls).lineno := by
        have := hsame.1
        simp only [load_core, Prod.mk.injEq] at this
        exact this.1
      rw [hreads.2.1, hln]
      apply ih (k + 1) builtin0 true _ _ _ _ _ hd2
      rw [skin_load_adjust_length, skin_load_adjust_length, skin_load_records_length,
        skin_load_records_length, hlen]


/-- The line number that the failed passes leave does not depend on the layout of
before the call nor on the requested rows. -/
theorem skin_load_failed_lineno (pke : List Char → Int → Option keymap_entry)
    (env : Nat → List Char → Bool → PassBehaviour) (builtin0 : List Char) (rc : Int)
    (n : Nat) :
    ∀ (k : Nat) (name : List Char) (force : Bool) (g1 g2 : SkinState) (rr1 rr2 ln : Int),
      g1.annunciators.length = g2.annunciators.length →
      (skin_load_failed pke env builtin0 rc n k name force g1 rr1 ln).2.2
        = (skin_load_failed pke env builtin0 rc n k name force g2 rr2 ln).2.2 := by
  induction n with
  | zero => intro k name force g1 g2 rr1 rr2 ln _; rfl
  | succ n ih =>
    intro k name force g1 g2 rr1 rr2 ln hlen
    unfold skin_load_failed
    cases hl : (env k name force).layout with
    | none => exact ih (k + 1) builtin0 true g1 g2 rr1 rr2 ln hlen
    | some ls =>
      simp only
      have hsame := skin_load_records_same pke ln g1 g2 ls hlen
      have hln : (skin_load_records_from pke ln g1 ls).lineno
          = (skin_load_records_from pke ln g2 ls).lineno := by
        have := hsame.1
        simp only [load_core, Prod.mk.injEq] at this
        exact this.1
      rw [hln]
      apply ih (k + 1) builtin0 true
      rw [skin_load_adjust_length, skin_load_adjust_length, skin_load_records_length,
        skin_load_records_length, hlen]

/-- The fields after the adjustment when the computed `extra` is positive, with
the values handed to `shell_loadimage`. -/
theorem adjust_shift_fields (ls : LoadState) (rr rc : Int)
    (h : skin_load_extra ls (skin_load_clamp_rows ls rr rc) rc > 0) :
    (skin_load_adjust ls rr rc).extra = skin_load_extra ls (skin_load_clamp_rows ls rr rc) rc
      ∧ (skin_load_adjust ls rr rc).dup_first_y = zone_first_y ls
      ∧ (skin_load_adjust ls rr rc).g.annunciators
        = ls.g.annunciators.map (shift_annunciator (zone_first_y ls)
            (skin_load_extra ls (skin_load_clamp_rows ls rr rc) rc))
      ∧ (skin_load_adjust ls rr rc).g.keylist
        = ls.g.keylist.map (shift_key (zone_first_y ls)
            (skin_load_extra ls (skin_load_clamp_rows ls rr rc) rc))
      ∧ (skin_load_adjust ls rr rc).g.alt_bak
        = ls.g.alt_bak.map (shift_alt_bak (zone_first_y ls)
            (skin_load_extra ls (skin_load_clamp_rows ls rr rc) rc))
      ∧ (skin_load_adjust ls rr rc).g.alt_key
        = ls.g.alt_key.map (shift_alt_key (zone_first_y ls)
            (skin_load_extra ls (skin_load_clamp_rows ls rr rc) rc))
      ∧ (skin_load_adjust ls rr rc).g.skin.height
        = ls.g.skin.height + skin_load_extra ls (skin_load_clamp_rows ls rr rc) rc
      ∧ (skin_load_adjust ls rr rc).dup_last_y = zone_last_y ls := by
  obtain ⟨h1, h2, h3, h4, h5, h6⟩ := skin_load_adjust_shift ls rr rc h
  refine ⟨h6, ?_, h3, h2, h4, h5, by rw [h1], ?_⟩
  · unfold skin_load_adjust
    simp only [h, if_true]
  · unfold skin_load_adjust
    simp only [h, if_true]

/-- The `extra` handed to `shell_loadimage` is not negative. -/
theorem adjust_extra_nonneg (ls : LoadState) (rr rc : Int) :
    0 ≤ (skin_load_adjust ls rr rc).extra := by
  unfold skin_load_adjust
  simp only
  split
  · omega
  · exact le_refl 0

/-- C18, amended: let a call of `skin_load` return in pass `n` (`n = 0` when no
fallback is made), which reads the description `lines`, and let `s` be the layout,
the row count and the line number with which that pass starts: the layout of
before the call, the requested rows and 0 when `n = 0`, and what the failed passes
left otherwise. An annunciator slot `m` in 1..7 that no valid `annunciator:` record
of `lines` references is left by the parse as it was in `s.1`, and after the load
it has that value but for the shift of the adjustment: unchanged when `extra` is
0, and with its two Y coordinates shifted when `extra > 0`. So a slot that is
zero-valued when the pass starts, as it is in a load without fallback from the
initial layout, is zero-valued after the load when `extra` is 0 or the zone start
is not negative. A record whose number is outside 1..7 changes no slot. -/
theorem annunciator_unreferenced (pke : List Char → Int → Option keymap_entry)
    (env : Nat → List Char → Bool → PassBehaviour) (builtin0 skinName : List Char)
    (old : SkinState) (last_req : Int × Int) (rows cols : Int) (n fuel : Nat)
    (lines : List (List Char)) (s : SkinState × Int × Int) (rc : Int) (m : Int)
    (hfail : ∀ j, j < n →
      (env j (pass_name (if skinName = [] then builtin0 else skinName) builtin0 j)
        (pass_force (decide (skinName = [])) j)).ok = false)
    (hlay : (env n (pass_name (if skinName = [] then builtin0 else skinName) builtin0 n)
      (pass_force (decide (skinName = [])) n)).layout = some lines)
    (hok : (env n (pass_name (if skinName = [] then builtin0 else skinName) builtin0 n)
      (pass_force (decide (skinName = [])) n)).ok = true)
    (hfuel : n < fuel)
    (hs : s = skin_load_start pke env builtin0 skinName old last_req rows cols n)
    (hrc : rc = if rows = -1 then last_req.2 else cols)
    (h1 : 1 ≤ m) (h7 : m ≤ 7) (hunref : ¬ references_annunciator lines m) :
    ∃ r, skin_load pke env builtin0 fuel skinName old last_req rows cols = some r
      ∧ r.fallbacks = n
      ∧ (n = 0 → s = (old, (if rows = -1 then last_req.1 else rows), 0))
      ∧ (skin_load_records_from pke s.2.2 s.1 lines).g.annunciators[(m - 1).toNat]?
        = s.1.annunciators[(m - 1).toNat]?
      ∧ (∀ a, s.1.annunciators[(m - 1).toNat]? = some a →
          ∃ a2, r.g.annunciators[(m - 1).toNat]? = some a2
            ∧ ((skin_load_adjust (skin_load_records_from pke s.2.2 s.1 lines)
                s.2.1 rc).extra = 0 → a2 = a)
            ∧ (0 < (skin_load_adjust (skin_load_records_from pke s.2.2 s.1 lines)
                s.2.1 rc).extra →
                annunciator_shifted
                  (skin_load_adjust (skin_load_records_from pke s.2.2 s.1 lines)
                    s.2.1 rc).dup_first_y
                  (skin_load_adjust (skin_load_records_from pke s.2.2 s.1 lines)
                    s.2.1 rc).extra a a2))
      ∧ (s.1.annunciators[(m - 1).toNat]? = some ⟨⟨0, 0, 0, 0⟩, ⟨0, 0⟩⟩ →
          ((skin_load_adjust (skin_load_records_from pke s.2.2 s.1 lines) s.2.1 rc).extra = 0
            ∨ 0 ≤ (skin_load_adjust (skin_load_records_from pke s.2.2 s.1 lines)
                s.2.1 rc).dup_first_y) →
          r.g.annunciators[(m - 1).toNat]? = some ⟨⟨0, 0, 0, 0⟩, ⟨0, 0⟩⟩)
      ∧ (n = 0 → old = SkinState.initial →
          s.1.annunciators[(m - 1).toNat]? = some ⟨⟨0, 0, 0, 0⟩, ⟨0, 0⟩⟩)
      ∧ (∀ (st : LoadState) (line : List Char) (num : Int) (a : SkinAnnunciator),
          annunciator_record line = some (num, a) → ¬ (1 ≤ num ∧ num ≤ 7) →
          (skin_load_line pke st line).g.annunciators = st.g.annunciators) := by
  subst hrc
  have hL := skin_load_loop_last pke env builtin0
    (if rows = -1 then last_req else (rows, cols)) (if rows = -1 then last_req.2 else cols)
    lines n fuel 0 (if skinName = [] then builtin0 else skinName) (decide (skinName = []))
    old (if rows = -1 then last_req.1 else rows) 0
    (by intro j hj; simpa using hfail j hj) (by simpa using hlay) (by simpa using hok) hfuel
  have hR : skin_load pke env builtin0 fuel skinName old last_req rows cols
      = some
        { g := (skin_load_pass_from pke s.2.2 s.1 lines s.2.1
            (if rows = -1 then last_req.2 else cols)).1
          out := (skin_load_pass_from pke s.2.2 s.1 lines s.2.1
            (if rows = -1 then last_req.2 else cols)).2
          skinName := pass_name (if skinName = [] then builtin0 else skinName) builtin0 n
          last_req := if rows = -1 then last_req else (rows, cols)
          fallbacks := 0 + n } := by
    rw [hs]
    exact hL
  have hparse : (skin_load_records_from pke s.2.2 s.1 lines).g.annunciators[(m - 1).toNat]?
      = s.1.annunciators[(m - 1).toNat]? := by
    unfold skin_load_records_from
    rw [(skin_load_lines_annunciators pke lines _).2 (m - 1).toNat]
    · rfl
    · intro l hl num x hrec hn1 hn7 heq
      have : num = m := by omega
      subst this
      exact hunref ⟨l, hl, x, hrec⟩
  have hpass : ∀ a, s.1.annunciators[(m - 1).toNat]? = some a →
      ∃ a2, (skin_load_pass_from pke s.2.2 s.1 lines s.2.1
            (if rows = -1 then last_req.2 else cols)).1.annunciators[(m - 1).toNat]? = some a2
        ∧ ((skin_load_adjust (skin_load_records_from pke s.2.2 s.1 lines) s.2.1
            (if rows = -1 then last_req.2 else cols)).extra = 0 → a2 = a)
        ∧ (0 < (skin_load_adjust (skin_load_records_from pke s.2.2 s.1 lines) s.2.1
              (if rows = -1 then last_req.2 else cols)).extra →
            annunciator_shifted
              (skin_load_adjust (skin_load_records_from pke s.2.2 s.1 lines) s.2.1
                (if rows = -1 then last_req.2 else cols)).dup_first_y
              (skin_load_adjust (skin_load_records_from pke s.2.2 s.1 lines) s.2.1
                (if rows = -1 then last_req.2 else cols)).extra a a2) := by
    intro a ha
    have hfin : (skin_load_pass_from pke s.2.2 s.1 lines s.2.1
        (if rows = -1 then last_req.2 else cols)).1.annunciators
        = (skin_load_adjust (skin_load_records_from pke s.2.2 s.1 lines) s.2.1
          (if rows = -1 then last_req.2 else cols)).g.annunciators := rfl
    rw [hfin]
    by_cases hx : skin_load_extra (skin_load_records_from pke s.2.2 s.1 lines)
        (skin_load_clamp_rows (skin_load_records_from pke s.2.2 s.1 lines) s.2.1
          (if rows = -1 then last_req.2 else cols))
        (if rows = -1 then last_req.2 else cols) > 0
    · obtain ⟨e1, e2, e3, -⟩ := adjust_shift_fields
        (skin_load_records_from pke s.2.2 s.1 lines) s.2.1
        (if rows = -1 then last_req.2 else cols) hx
      rw [e3, List.getElem?_map, hparse, ha]
      refine ⟨_, rfl, ?_, ?_⟩
      · intro h0
        rw [e1] at h0
        omega
      · intro _
        rw [e1, e2]
        exact ⟨rfl, rfl, rfl, shift_y_shifted _ _ _, rfl, shift_y_shifted _ _ _⟩
    · obtain ⟨-, -, e3, -, -, e6⟩ := skin_load_adjust_no_shift
        (skin_load_records_from pke s.2.2 s.1 lines) s.2.1
        (if rows = -1 then last_req.2 else cols) hx
      rw [e3, hparse, ha]
      refine ⟨a, rfl, fun _ => rfl, ?_⟩
      intro hpos
      rw [e6] at hpos
      exact absurd hpos (by decide)
  refine ⟨_, hR, Nat.zero_add n, ?_, hparse, hpass, ?_, ?_, ?_⟩
  · rintro rfl
    rw [hs]
    rfl
  · intro hzero hcond
    obtain ⟨a2, ha2, hz, hp⟩ := hpass _ hzero
    show (skin_load_pass_from pke s.2.2 s.1 lines s.2.1
      (if rows = -1 then last_req.2 else cols)).1.annunciators[(m - 1).toNat]? = _
    rw [ha2]
    have hnn := adjust_extra_nonneg (skin_load_records_from pke s.2.2 s.1 lines) s.2.1
      (if rows = -1 then last_req.2 else cols)
    rcases lt_or_eq_of_le hnn with hpos | h0
    · have hfirst : 0 ≤ (skin_load_adjust (skin_load_records_from pke s.2.2 s.1 lines) s.2.1
          (if rows = -1 then last_req.2 else cols)).dup_first_y := by
        rcases hcond with h0 | hf
        · omega
        · exact hf
      obtain ⟨a1, a2', a3, a4, a5, a6⟩ := hp hpos
      have a4' := a4.2 hfirst
      have a6' := a6.2 hfirst
      obtain ⟨⟨x, y, w, h⟩, ⟨sx, sy⟩⟩ := a2
      simp only at a1 a2' a3 a4' a5 a6'
      subst a1 a2' a3 a4' a5 a6'
      rfl
    · rw [hz h0.symm]
  · rintro rfl hinit
    have hi : (m - 1).toNat < 7 := by omega
    rw [hs, hinit]
    show (List.replicate 7 _)[(m - 1).toNat]? = _
    rw [List.getElem?_replicate, if_pos hi]
  · intro st line num a hrec hout
    rw [skin_load_line_effect, line_effect_annunciator pke line _ num a hrec, if_neg hout]
    rfl

/-- C18, amended, on a first load with a record for slot 1 only, made without
fallback: slot 2 is zero-valued after the load. -/
theorem annunciator_unreferenced_witness :
    ∃ r, skin_load (fun _ _ => none)
          (fun _ _ _ => ⟨some ["annunciator: 1 1,2,3,4 5,6".toList], true, true⟩)
          "std".toList 1 "mine".toList SkinState.initial (2, 22) 2 22 = some r
      ∧ r.g.annunciators[1]? = some ⟨⟨0, 0, 0, 0⟩, ⟨0, 0⟩⟩ := by
  have hun : ¬ references_annunciator ["annunciator: 1 1,2,3,4 5,6".toList] 2 := by
    rintro ⟨l, hl, a, hrec⟩
    simp only [List.mem_singleton] at hl
    subst hl
    have h : annunciator_record "annunciator: 1 1,2,3,4 5,6".toList
        = some (1, ⟨⟨1, 2, 3, 4⟩, ⟨5, 6⟩⟩) := by decide
    rw [h] at hrec
    simp at hrec
  obtain ⟨r, hr, _, _, _, _, hzero, hstart, _⟩ :=
    annunciator_unreferenced (fun _ _ => none)
      (fun _ _ _ => ⟨some ["annunciator: 1 1,2,3,4 5,6".toList], true, true⟩)
      "std".toList "mine".toList SkinState.initial (2, 22) 2 22 0 1
      ["annunciator: 1 1,2,3,4 5,6".toList] _ _ 2
      (fun j hj => absurd hj (Nat.not_lt_zero j)) (by decide) (by decide) (by decide)
      rfl rfl (by decide) (by decide) hun
  exact ⟨r, hr, hzero (hstart rfl rfl) (Or.inl (by with_unfolding_all decide))⟩

set_option maxRecDepth 8000 in
/-- C18 as stated fails. On a reload: after a load of a description that sets slot
1, the load of an empty description leaves slot 1 with the values of the first
load. On a first load: with a zone start of -5 and 4 rows requested, `extra` is 16
and the display Y and source Y of the slot 1, which no record references, become
16. On a first load with a fallback: the named skin has a record for slot 1 and
its bitmap cannot be opened, the built-in skin, whose description is empty, is
loaded, and slot 1 has the values of the named skin. -/
theorem annunciator_unreferenced_counterexample :
    ((skin_load (fun _ _ => none)
          (fun _ name _ => if name = "a".toList
            then ⟨some ["annunciator: 1 1,2,3,4 5,6".toList], true, true⟩
            else ⟨some [], true, true⟩)
          "std".toList 1 "a".toList SkinState.initial (2, 22) 2 22).bind
          (fun r0 => skin_load (fun _ _ => none)
            (fun _ name _ => if name = "a".toList
              then ⟨some ["annunciator: 1 1,2,3,4 5,6".toList], true, true⟩
              else ⟨some [], true, true⟩)
            "std".toList 1 "b".toList r0.g r0.last_req 2 22)).map
          (fun r => r.g.annunciators[0]?) = some (some ⟨⟨1, 2, 3, 4⟩, ⟨5, 6⟩⟩)
      ∧ (skin_load (fun _ _ => none)
          (fun _ _ _ =>
            ⟨some ["display: 0,0 1 1 0 0".toList, "displayexpansionzone: -5 -1".toList],
              true, true⟩)
          "std".toList 1 "a".toList SkinState.initial (2, 22) 4 22).map
          (fun r => r.g.annunciators[0]?) = some (some ⟨⟨0, 16, 0, 0⟩, ⟨0, 16⟩⟩)
      ∧ (skin_load (fun _ _ => none)
          (fun _ name _ => if name = "std".toList then ⟨some [], true, true⟩
            else ⟨some ["annunciator: 1 1,2,3,4 5,6".toList], false, true⟩)
          "std".toList 2 "a".toList SkinState.initial (2, 22) 2 22).map
          (fun r => (r.fallbacks, r.skinName, r.g.annunciators[0]?))
        = some (1, "std".toList, some ⟨⟨1, 2, 3, 4⟩, ⟨5, 6⟩⟩) := by
  refine ⟨?_, ?_, ?_⟩ <;> with_unfolding_all decide

/-! ## The `altkey:` record -/

/-- C19 fails on the line `altkey:12 34 5,6`: the text directly after the colon is
`12 34 5,6`, but the scan starts one character further and the overlay that is
appended has the mode 2 instead of 12; on the line `altkey:1 2 3,4` nothing is
appended. -/
theorem altkey_record_skips_char :
    (skin_load_line (fun _ _ => none) (skin_load_reset SkinState.initial)
        "altkey:12 34 5,6".toList).g.alt_key = [⟨⟨5, 6⟩, 34, 2⟩]
      ∧ (skin_load_line (fun _ _ => none) (skin_load_reset SkinState.initial)
        "altkey:1 2 3,4".toList).g.alt_key = []
      ∧ (skin_load_line (fun _ _ => none) (skin_load_reset SkinState.initial)
        "altbkgd:12 1,2,3,4 5,6".toList).g.alt_bak = [⟨⟨1, 2, 3, 4⟩, ⟨5, 6⟩, 12⟩] := by
  decide

/-! ## Lines returned by `skin_gets` -/

/-- The text that the loop of `skin_gets` stores for a line that fits the buffer. -/
theorem skin_gets_loop_line (buflen : Int) (rest : List Char) (hrest : line_end rest)
    (line : List Char) :
    ∀ (buf : List Char) (eof : Int) (comment : Bool),
      (∀ c ∈ line, c ≠ '\n' ∧ c ≠ '\r') →
      (buf.length : Int) + line.length ≤ buflen - 1 →
      (skin_gets_loop buflen (line ++ rest) buf eof comment).1
        = buf ++ (if comment = true then []
            else if buf = [] then (line.takeWhile (fun c => c != '#')).dropWhile isspace
            else line.takeWhile (fun c => c != '#')) := by
  induction line with
  | nil =>
    intro buf eof comment _ _
    have hnil : (if comment = true then ([] : List Char)
        else if buf = [] then (([] : List Char).takeWhile (fun c => c != '#')).dropWhile isspace
        else ([] : List Char).takeWhile (fun c => c != '#')) = [] := by
      split
      · rfl
      · split <;> rfl
    rw [hnil, List.append_nil, List.nil_append]
    rcases hrest with h | ⟨t, tail, h, ht⟩
    · subst h
      unfold skin_gets_loop
      split <;> rfl
    · subst h
      unfold skin_gets_loop
      split
      · rfl
      · rfl
  | cons c line ih =>
    intro buf eof comment hline hlen
    have hc := hline c (List.mem_cons_self _ _)
    have hline2 : ∀ d ∈ line, d ≠ '\n' ∧ d ≠ '\r' :=
      fun d hd => hline d (List.mem_cons_of_mem _ hd)
    have hp : (buf.length : Int) < buflen - 1 := by
      simp only [List.length_cons, Nat.cast_add, Nat.cast_one] at hlen
      omega
    have hterm : ¬ (c = '\n' ∨ c = '\r') := by
      rintro (h | h)
      · exact hc.1 h
      · exact hc.2 h
    rw [List.cons_append]
    unfold skin_gets_loop
    rw [if_pos hp, if_neg hterm]
    by_cases hcom : (comment || c == '#') = true
    · rw [if_pos hcom]
      rw [ih buf _ true hline2 (by
        simp only [List.length_cons, Nat.cast_add, Nat.cast_one] at hlen
        omega)]
      simp only [if_true, List.append_nil]
      cases comment with
      | true => simp
      | false =>
        simp only [Bool.false_or, beq_iff_eq] at hcom
        subst hcom
        simp [List.takeWhile_cons]
    · rw [if_neg hcom]
      simp only [Bool.or_eq_true, beq_iff_eq, not_or, Bool.not_eq_true] at hcom
      obtain ⟨hcf, hne⟩ := hcom
      subst hcf
      have htw : (c :: line).takeWhile (fun c => c != '#')
          = c :: line.takeWhile (fun c => c != '#') := by
        rw [List.takeWhile_cons]
        simp [hne]
      by_cases hsp : buf.length = 0 ∧ isspace c = true
      · rw [if_pos hsp]
        have hb : buf = [] := List.length_eq_zero.1 hsp.1
        rw [ih buf _ false hline2 (by
          simp only [List.length_cons, Nat.cast_add, Nat.cast_one] at hlen
          omega)]
        simp only [Bool.false_eq_true, if_false, hb, if_true, htw, List.nil_append]
        rw [List.dropWhile_cons, if_pos hsp.2]
      · rw [if_neg hsp]
        rw [ih (buf ++ [c]) _ false hline2 (by
          simp only [List.length_cons, Nat.cast_add, Nat.cast_one, List.length_append,
            List.length_singleton, List.length_nil, Nat.cast_zero] at hlen ⊢
          omega)]
        simp only [Bool.false_eq_true, if_false, htw]
        have hne2 : buf ++ [c] ≠ [] := by simp
        rw [if_neg hne2]
        by_cases hb : buf = []
        · subst hb
          have hnsp : ¬ isspace c = true := fun h => hsp ⟨rfl, h⟩
          simp only [if_true, List.nil_append]
          rw [List.dropWhile_cons, if_neg hnsp]
          rfl
        · rw [if_neg hb]
          simp

/-- C20: for an input line shorter than the buffer, followed by a line terminator
or by the end of the stream, `skin_gets` stores in the buffer the characters of the
line that precede the first `#`, without the leading white space: the text has no `#`, its
first character is not white space, and the part of the line before the first
`#` is white space followed by the text, unchanged and in order. -/
theorem skin_gets_line (line rest : List Char) (buflen : Int)
    (hline : ∀ c ∈ line, c ≠ '\n' ∧ c ≠ '\r') (hrest : line_end rest)
    (hshort : (line.length : Int) < buflen) :
    (skin_gets (line ++ rest) buflen).1
        = (line.takeWhile (fun c => c != '#')).dropWhile isspace
      ∧ '#' ∉ (skin_gets (line ++ rest) buflen).1
      ∧ (∀ c ∈ (skin_gets (line ++ rest) buflen).1.head?, isspace c = false)
      ∧ (∃ ws tail, line = ws ++ (skin_gets (line ++ rest) buflen).1 ++ tail
          ∧ (∀ c ∈ ws, isspace c = true)
          ∧ (∀ c ∈ tail.head?, c = '#')) := by
  have htext : (skin_gets (line ++ rest) buflen).1
      = (line.takeWhile (fun c => c != '#')).dropWhile isspace := by
    have h := skin_gets_loop_line buflen rest hrest line [] (-1) false hline
      (by simp only [List.length_nil, Nat.cast_zero, zero_add]; omega)
    simp only [Bool.false_eq_true, if_false, if_true, List.nil_append] at h
    unfold skin_gets
    rw [← h]
  rw [htext]
  refine ⟨rfl, ?_, ?_, ?_⟩
  · intro hmem
    have h1 := (List.dropWhile_sublist isspace).subset hmem
    have h2 := List.mem_takeWhile_imp h1
    simp at h2
  · intro c hc
    cases hd : (line.takeWhile (fun c => c != '#')).dropWhile isspace with
    | nil => rw [hd] at hc; simp at hc
    | cons d ds =>
      rw [hd] at hc
      simp only [List.head?_cons, Option.mem_def, Option.some.injEq] at hc
      subst hc
      have := List.head_dropWhile_not isspace (line.takeWhile (fun c => c != '#'))
        (by rw [hd]; simp)
      simpa [hd] using this
  · refine ⟨(line.takeWhile (fun c => c != '#')).takeWhile isspace,
      line.dropWhile (fun c => c != '#'), ?_, ?_, ?_⟩
    · rw [List.takeWhile_append_dropWhile, List.takeWhile_append_dropWhile]
    · intro c hc
      exact List.mem_takeWhile_imp hc
    · intro c hc
      cases hd : line.dropWhile (fun c => c != '#') with
      | nil => rw [hd] at hc; simp at hc
      | cons d ds =>
        rw [hd] at hc
        simp only [List.head?_cons, Option.mem_def, Option.some.injEq] at hc
        subst hc
        have := List.head_dropWhile_not (fun c => c != '#') line (by rw [hd]; simp)
        simpa [hd] using this

/-- C20 on the stream of a line with leading blanks and a comment, followed by
another line. -/
theorem skin_gets_line_witness :
    (∀ c ∈ "  key: 1 # one".toList, c ≠ '\n' ∧ c ≠ '\r')
      ∧ line_end "\nskin: 2".toList
      ∧ (skin_gets ("  key: 1 # one".toList ++ "\nskin: 2".toList) 1024).1 = "key: 1 ".toList :=
  ⟨by decide, Or.inr ⟨'\n', "skin: 2".toList, rfl, Or.inl rfl⟩,
    (skin_gets_line "  key: 1 # one".toList "\nskin: 2".toList 1024 (by decide)
      (Or.inr ⟨'\n', "skin: 2".toList, rfl, Or.inl rfl⟩) (by decide)).1.trans (by decide)⟩

/-! ## End of data in `skin_gets` -/

/-- Once the variable `eof` is set, the loop of `skin_gets` does not change it. -/
theorem skin_gets_loop_eof (buflen : Int) (stream : List Char) :
    ∀ (buf : List Char) (eof : Int) (comment : Bool), eof ≠ -1 →
      (skin_gets_loop buflen stream buf eof comment).2.1 = eof := by
  induction stream with
  | nil =>
    intro buf eof comment he
    unfold skin_gets_loop
    split
    · simp only [if_neg he]
    · rfl
  | cons c cs ih =>
    intro buf eof comment he
    unfold skin_gets_loop
    simp only [if_neg he]
    split
    · split
      · rfl
      · split
        · exact ih buf eof true he
        · split
          · exact ih buf eof false he
          · exact ih (buf ++ [c]) eof false he
    · rfl

/-- The text stored after one more byte that is not a line terminator. -/
theorem stored_text_cons (buf : List Char) (comment : Bool) (c : Char) (line : List Char) :
    stored_text buf comment (c :: line)
      = if (comment || c == '#') = true then stored_text buf true line
        else if buf.length = 0 ∧ isspace c = true then stored_text buf false line
        else stored_text (buf ++ [c]) false line := by
  cases comment with
  | true => simp [stored_text]
  | false =>
    by_cases hc : c = '#'
    · subst hc
      simp [stored_text, line_text]
    · have hne : (c != '#') = true := by simpa using hc
      have hb : (false || c == '#') = false := by simpa using hc
      simp only [hb, Bool.false_eq_true, if_false]
      by_cases hsp : buf.length = 0 ∧ isspace c = true
      · have hnil : buf = [] := List.length_eq_zero.1 hsp.1
        subst hnil
        simp [stored_text, line_text, List.takeWhile_cons, hne, List.dropWhile_cons, hsp.2]
      · rw [if_neg hsp]
        by_cases hnil : buf = []
        · subst hnil
          have hs : isspace c = false := by
            cases h : isspace c
            · rfl
            · exact absurd ⟨rfl, h⟩ hsp
          simp [stored_text, line_text, List.takeWhile_cons, hne, List.dropWhile_cons, hs]
        · simp [stored_text, hnil, List.takeWhile_cons, hne]

/-- The stored text is at least as long as the part stored before. -/
theorem stored_text_length (buf : List Char) (comment : Bool) (line : List Char) :
    buf.length ≤ (stored_text buf comment line).length := by
  simp [stored_text]

/-- A line whose text leaves room in the buffer is read up to and including its
terminator: the loop of `skin_gets` returns the text, the flag `eof` of the first
byte and the bytes after the terminator. -/
theorem skin_gets_loop_fits (buflen : Int) (rest : List Char) (hrest : line_end rest)
    (line : List Char) :
    ∀ (buf : List Char) (eof : Int) (comment : Bool),
      (∀ c ∈ line, c ≠ '\n' ∧ c ≠ '\r') →
      ((stored_text buf comment line).length : Int) < buflen - 1 →
      skin_gets_loop buflen (line ++ rest) buf eof comment
        = (stored_text buf comment line,
            if eof = -1 then (if line = [] ∧ rest = [] then 1 else 0) else eof,
            rest.drop 1) := by
  induction line with
  | nil =>
    intro buf eof comment _ hfit
    have hst : stored_text buf comment [] = buf := by
      cases comment <;> simp [stored_text, line_text]
    rw [hst] at hfit ⊢
    rcases hrest with h | ⟨t, tail, h, ht⟩
    · subst h
      simp only [List.append_nil, List.drop_nil, and_self, if_true]
      unfold skin_gets_loop
      rw [if_pos hfit]
    · subst h
      simp only [List.nil_append, List.drop_succ_cons, List.drop_zero, true_and]
      unfold skin_gets_loop
      rw [if_pos hfit, if_pos ht]
      simp
  | cons c line ih =>
    intro buf eof comment hline hfit
    have hc := hline c (List.mem_cons_self _ _)
    have hline2 : ∀ d ∈ line, d ≠ '\n' ∧ d ≠ '\r' :=
      fun d hd => hline d (List.mem_cons_of_mem _ hd)
    have hterm : ¬ (c = '\n' ∨ c = '\r') := by
      rintro (h | h)
      · exact hc.1 h
      · exact hc.2 h
    have hp : (buf.length : Int) < buflen - 1 := by
      have := stored_text_length buf comment (c :: line)
      omega
    have he : ∀ e : Int, (if (if e = -1 then (0 : Int) else e) = -1
        then (if line = [] ∧ rest = [] then (1 : Int) else 0)
        else (if e = -1 then 0 else e))
        = if e = -1 then (if c :: line = [] ∧ rest = [] then 1 else 0) else e := by
      intro e
      by_cases h : e = -1
      · simp [h]
      · simp [h]
    rw [stored_text_cons] at hfit ⊢
    rw [List.cons_append]
    unfold skin_gets_loop
    rw [if_pos hp, if_neg hterm]
    by_cases h1 : (comment || c == '#') = true
    · rw [if_pos h1] at hfit ⊢
      rw [if_pos h1, ih buf _ true hline2 hfit, he]
    · rw [if_neg h1] at hfit ⊢
      rw [if_neg h1]
      by_cases h2 : buf.length = 0 ∧ isspace c = true
      · rw [if_pos h2] at hfit ⊢
        rw [if_pos h2, ih buf _ false hline2 hfit, he]
      · rw [if_neg h2] at hfit ⊢
        rw [if_neg h2, ih (buf ++ [c]) _ false hline2 hfit, he]

/-- C21: with a buffer that has room for at least one character (the line loop of
`skin_load` passes 1024), `skin_gets` returns 0 if and only if the first byte it
reads is the end of the stream. A final line with content and no terminator is
returned as data with its text; a line whose text is empty (an empty line, white
space, a comment) and that a terminator ends is returned as data with the empty
text, and the stream continues after the terminator. -/
theorem skin_gets_no_more_data (buflen : Int) (hbuf : 2 ≤ buflen) :
    (∀ stream, (skin_gets stream buflen).2.1 = false ↔ (skin_getchar stream).1 = none)
      ∧ (∀ line, (∀ c ∈ line, c ≠ '\n' ∧ c ≠ '\r') → line_text line ≠ [] →
          ((line_text line).length : Int) < buflen - 1 →
          skin_gets line buflen = (line_text line, true, []))
      ∧ (∀ line t rest, (∀ c ∈ line, c ≠ '\n' ∧ c ≠ '\r') → (t = '\n' ∨ t = '\r') →
          line_text line = [] →
          skin_gets (line ++ t :: rest) buflen = ([], true, rest)) := by
  refine ⟨?_, ?_, ?_⟩
  · intro stream
    cases stream with
    | nil =>
      have h0 : ((([] : List Char).length : Nat) : Int) < buflen - 1 := by
        simp only [List.length_nil, Nat.cast_zero]; omega
      simp only [skin_gets, skin_getchar]
      unfold skin_gets_loop
      rw [if_pos h0]
      simp
    | cons c cs =>
      have h0 : ((([] : List Char).length : Nat) : Int) < buflen - 1 := by
        simp only [List.length_nil, Nat.cast_zero]; omega
      have hz : (skin_gets_loop buflen (c :: cs) [] (-1) false).2.1 = 0 := by
        unfold skin_gets_loop
        rw [if_pos h0]
        simp only [if_true]
        split
        · rfl
        · split
          · exact skin_gets_loop_eof buflen cs [] 0 true (by decide)
          · split
            · exact skin_gets_loop_eof buflen cs [] 0 false (by decide)
            · exact skin_gets_loop_eof buflen cs _ 0 false (by decide)
      simp only [skin_gets, skin_getchar]
      simp [hz]
  · intro line hline htext hfit
    have hne : line ≠ [] := by
      rintro rfl
      exact htext rfl
    have h := skin_gets_loop_fits buflen [] (Or.inl rfl) line [] (-1) false hline
      (by simpa [stored_text] using hfit)
    rw [List.append_nil] at h
    simp only [skin_gets, h]
    simp [stored_text, hne]
  · intro line t rest hline ht htext
    have h := skin_gets_loop_fits buflen (t :: rest) (Or.inr ⟨t, rest, rfl, ht⟩) line []
      (-1) false hline (by simp [stored_text, htext]; omega)
    simp only [skin_gets, h]
    simp [stored_text, htext]

/-- C21 on a stream that is at its end, on a last line without a terminator and on
a line that holds only a comment. -/
theorem skin_gets_no_more_data_witness :
    (2 : Int) ≤ 1024
      ∧ (skin_gets [] 1024).2.1 = false
      ∧ skin_gets "key: 1".toList 1024 = ("key: 1".toList, true, [])
      ∧ skin_gets "  # skin\nkey: 1".toList 1024 = ([], true, "key: 1".toList) :=
  ⟨by decide,
    ((skin_gets_no_more_data 1024 (by decide)).1 []).2 rfl,
    (skin_gets_no_more_data 1024 (by decide)).2.1 "key: 1".toList (by decide) (by decide)
      (by decide),
    (skin_gets_no_more_data 1024 (by decide)).2.2 "  # skin".toList '\n' "key: 1".toList
      (by decide) (Or.inl rfl) (by decide)⟩

/-! ## Buffer bound and long lines in `skin_gets` -/

/-- The loop of `skin_gets` never stores more than `buflen - 1` characters. -/
theorem skin_gets_loop_length (buflen : Int) (stream : List Char) :
    ∀ (buf : List Char) (eof : Int) (comment : Bool), (buf.length : Int) ≤ buflen - 1 →
      ((skin_gets_loop buflen stream buf eof comment).1.length : Int) ≤ buflen - 1 := by
  induction stream with
  | nil =>
    intro buf eof comment hb
    unfold skin_gets_loop
    split <;> exact hb
  | cons c cs ih =>
    intro buf eof comment hb
    unfold skin_gets_loop
    split
    · rename_i hp
      split
      · exact hb
      · split
        · exact ih buf _ true hb
        · split
          · exact ih buf _ false hb
          · apply ih
            simp only [List.length_append, List.length_singleton, Nat.cast_add, Nat.cast_one]
            omega
    · exact hb

/-- One run of the loop of `skin_gets` reads a segment of the stream: bytes that are
not line terminators, then at most one terminator; the text is the stored text of
the segment, and when the loop stops before a byte that is not at the end of a
line, the buffer is full. -/
theorem skin_gets_loop_segment (buflen : Int) (stream : List Char) :
    ∀ (buf : List Char) (eof : Int) (comment : Bool),
      ∃ consumed term,
        stream = consumed ++ term ++ (skin_gets_loop buflen stream buf eof comment).2.2
          ∧ (∀ c ∈ consumed, c ≠ '\n' ∧ c ≠ '\r')
          ∧ (term = [] ∨ term = ['\n'] ∨ term = ['\r'])
          ∧ (skin_gets_loop buflen stream buf eof comment).1 = stored_text buf comment consumed
          ∧ (term = [] → (skin_gets_loop buflen stream buf eof comment).2.2 ≠ [] →
              buflen - 1 ≤ ((skin_gets_loop buflen stream buf eof comment).1.length : Int)) := by
  have hst : ∀ (buf : List Char) (comment : Bool), stored_text buf comment [] = buf := by
    intro buf comment
    cases comment <;> simp [stored_text, line_text]
  induction stream with
  | nil =>
    intro buf eof comment
    refine ⟨[], [], ?_, by simp, Or.inl rfl, ?_, ?_⟩
    · unfold skin_gets_loop
      split <;> rfl
    · unfold skin_gets_loop
      rw [hst]
      split <;> rfl
    · intro _ h
      exfalso
      apply h
      unfold skin_gets_loop
      split <;> rfl
  | cons c cs ih =>
    intro buf eof comment
    by_cases hp : (buf.length : Int) < buflen - 1
    · by_cases hterm : c = '\n' ∨ c = '\r'
      · have hloop : skin_gets_loop buflen (c :: cs) buf eof comment
            = (buf, if eof = -1 then 0 else eof, cs) := by
          unfold skin_gets_loop
          rw [if_pos hp, if_pos hterm]
        rw [hloop]
        refine ⟨[], [c], rfl, by simp, ?_, (hst buf comment).symm, ?_⟩
        · rcases hterm with h | h
          · exact Or.inr (Or.inl (by rw [h]))
          · exact Or.inr (Or.inr (by rw [h]))
        · intro h
          simp at h
      · have hc : c ≠ '\n' ∧ c ≠ '\r' := by
          constructor
          · exact fun h => hterm (Or.inl h)
          · exact fun h => hterm (Or.inr h)
        have step : ∀ (buf2 : List Char) (comment2 : Bool),
            skin_gets_loop buflen (c :: cs) buf eof comment
              = skin_gets_loop buflen cs buf2 (if eof = -1 then 0 else eof) comment2 →
            (∀ l, stored_text buf comment (c :: l) = stored_text buf2 comment2 l) →
            ∃ consumed term,
              c :: cs = consumed ++ term ++ (skin_gets_loop buflen (c :: cs) buf eof comment).2.2
                ∧ (∀ d ∈ consumed, d ≠ '\n' ∧ d ≠ '\r')
                ∧ (term = [] ∨ term = ['\n'] ∨ term = ['\r'])
                ∧ (skin_gets_loop buflen (c :: cs) buf eof comment).1
                    = stored_text buf comment consumed
                ∧ (term = [] → (skin_gets_loop buflen (c :: cs) buf eof comment).2.2 ≠ [] →
                    buflen - 1
                      ≤ ((skin_gets_loop buflen (c :: cs) buf eof comment).1.length : Int)) := by
          intro buf2 comment2 hloop hstep
          obtain ⟨consumed, term, h1, h2, h3, h4, h5⟩ :=
            ih buf2 (if eof = -1 then 0 else eof) comment2
          rw [hloop]
          refine ⟨c :: consumed, term, ?_, ?_, h3, ?_, h5⟩
          · rw [List.cons_append, List.cons_append, ← h1]
          · intro d hd
            rcases List.mem_cons.1 hd with h | h
            · rw [h]; exact hc
            · exact h2 d h
          · rw [h4, hstep]
        by_cases h1 : (comment || c == '#') = true
        · apply step buf true
          · conv_lhs => unfold skin_gets_loop
            rw [if_pos hp, if_neg hterm, if_pos h1]
          · intro l
            rw [stored_text_cons, if_pos h1]
        · by_cases h2 : buf.length = 0 ∧ isspace c = true
          · apply step buf false
            · conv_lhs => unfold skin_gets_loop
              rw [if_pos hp, if_neg hterm, if_neg h1, if_pos h2]
            · intro l
              rw [stored_text_cons, if_neg h1, if_pos h2]
          · apply step (buf ++ [c]) false
            · conv_lhs => unfold skin_gets_loop
              rw [if_pos hp, if_neg hterm, if_neg h1, if_neg h2]
            · intro l
              rw [stored_text_cons, if_neg h1, if_neg h2]
    · have hloop : skin_gets_loop buflen (c :: cs) buf eof comment = (buf, eof, c :: cs) := by
        unfold skin_gets_loop
        rw [if_neg hp]
      rw [hloop]
      refine ⟨[], [], rfl, by simp, Or.inl rfl, (hst buf comment).symm, ?_⟩
      intro _ _
      simp only
      omega

/-- C30, amended: for every stream and every `buflen >= 1`, `skin_gets` stores at
most `buflen - 1` characters and the NUL after them, all inside an array of
`buflen` bytes; it is a total function of the stream. A call reads a segment of
consecutive bytes from the start of the stream (bytes that are not terminators,
then at most one terminator) and leaves the bytes after it for the next call; its
text is the text of that segment alone, and when it stops inside a line the buffer
is full. With `buflen >= 2` a call on a stream that is not at its end reads at
least one byte. -/
theorem skin_gets_bounded (stream : List Char) (buflen : Int) (hbuf : 1 ≤ buflen) :
    ((skin_gets stream buflen).1.length : Int) + 1 ≤ buflen
      ∧ (∀ old : List Char, (old.length : Int) = buflen →
          (skin_gets_buf old stream buflen).length = old.length
            ∧ (skin_gets_buf old stream buflen)[(skin_gets stream buflen).1.length]?
                = some (Char.ofNat 0)
            ∧ (skin_gets_buf old stream buflen).take (skin_gets stream buflen).1.length
                = (skin_gets stream buflen).1)
      ∧ (∃ consumed term,
          stream = consumed ++ term ++ (skin_gets stream buflen).2.2
            ∧ (∀ c ∈ consumed, c ≠ '\n' ∧ c ≠ '\r')
            ∧ (term = [] ∨ term = ['\n'] ∨ term = ['\r'])
            ∧ (skin_gets stream buflen).1 = line_text consumed
            ∧ (term = [] → (skin_gets stream buflen).2.2 ≠ [] →
                ((skin_gets stream buflen).1.length : Int) + 1 = buflen)
            ∧ (2 ≤ buflen → stream ≠ [] → consumed ++ term ≠ [])) := by
  have hlen : ((skin_gets stream buflen).1.length : Int) + 1 ≤ buflen := by
    have h := skin_gets_loop_length buflen stream [] (-1) false
      (by simp only [List.length_nil, Nat.cast_zero]; omega)
    simp only [skin_gets]
    omega
  refine ⟨hlen, ?_, ?_⟩
  · intro old hold
    have hl : (skin_gets stream buflen).1.length + 1 ≤ old.length := by omega
    refine ⟨?_, ?_, ?_⟩
    · simp only [skin_gets_buf, List.length_append, List.length_singleton, List.length_drop]
      omega
    · simp only [skin_gets_buf, List.append_assoc]
      rw [List.getElem?_append_right (le_refl _)]
      simp
    · simp only [skin_gets_buf, List.append_assoc]
      rw [List.take_append_of_le_length (le_refl _), List.take_length]
  · obtain ⟨consumed, term, h1, h2, h3, h4, h5⟩ :=
      skin_gets_loop_segment buflen stream [] (-1) false
    have htext : (skin_gets stream buflen).1 = line_text consumed := by
      simp only [skin_gets]
      rw [h4]
      simp [stored_text]
    have hfull : term = [] → (skin_gets stream buflen).2.2 ≠ [] →
        ((skin_gets stream buflen).1.length : Int) + 1 = buflen := by
      intro ht hr
      have := h5 ht (by simpa only [skin_gets] using hr)
      simp only [skin_gets] at hlen ⊢
      omega
    refine ⟨consumed, term, by simpa only [skin_gets] using h1, h2, h3, htext, hfull, ?_⟩
    intro h2buf hne hnil
    obtain ⟨hc, ht⟩ := List.append_eq_nil.1 hnil
    have hrest : (skin_gets stream buflen).2.2 = stream := by
      have := h1
      rw [hc, ht] at this
      simp only [List.nil_append] at this
      simp only [skin_gets]
      exact this.symm
    have := hfull ht (by rw [hrest]; exact hne)
    rw [htext, hc] at this
    simp [line_text] at this
    omega

/-- C30, amended, on a line of nine characters read with a buffer of five bytes. -/
theorem skin_gets_bounded_witness :
    (1 : Int) ≤ 5
      ∧ ((skin_gets "abcd efgh\n".toList 5).1.length : Int) + 1 ≤ 5
      ∧ skin_gets "abcd efgh\n".toList 5 = ("abcd".toList, true, " efgh\n".toList) :=
  ⟨by decide, (skin_gets_bounded "abcd efgh\n".toList 5 (by decide)).1, by decide⟩

/-- C30 as stated fails. The line `abcd efgh` read with a buffer of five bytes comes
back as the pieces `abcd` and `efgh`: the blank, a stored character of the line, is
lost at the start of the second piece. With a buffer of one byte no call reads
anything, so no piece of the line is ever returned. -/
theorem skin_gets_bounded_counterexample :
    skin_gets "abcd efgh\n".toList 5 = ("abcd".toList, true, " efgh\n".toList)
      ∧ skin_gets " efgh\n".toList 5 = ("efgh".toList, true, "\n".toList)
      ∧ skin_gets "\n".toList 5 = ([], true, [])
      ∧ line_text "abcd efgh".toList = "abcd efgh".toList
      ∧ "abcd".toList ++ "efgh".toList ++ [] ≠ line_text "abcd efgh".toList
      ∧ skin_gets "abcd efgh\n".toList 1 = ([], false, "abcd efgh\n".toList) := by
  decide

/-- With a buffer of one byte a call of `skin_gets` reads nothing, stores the empty
text and returns 0, on every stream. -/
theorem skin_gets_one_byte (stream : List Char) :
    skin_gets stream 1 = ([], false, stream) := by
  cases stream with
  | nil => rfl
  | cons c cs => rfl

/-! ## Vertical order under the geometry shift -/

/-- The shift of one coordinate keeps the order and decreases nothing when `extra`
is not negative. -/
theorem shift_y_mono (first extra : Int) (he : 0 ≤ extra) :
    (∀ y1 y2, y1 ≤ y2 → shift_y first extra y1 ≤ shift_y first extra y2)
      ∧ (∀ y, y ≤ shift_y first extra y) := by
  constructor
  · intro y1 y2 h
    unfold shift_y
    split <;> split <;> omega
  · intro y
    unfold shift_y
    split <;> omega

/-- The stored Y coordinates after the block `Fix coordinates`. -/
theorem stored_ys_fix_coordinates (g : SkinState) (first extra : Int) :
    stored_ys (fix_coordinates g first extra) = (stored_ys g).map (shift_y first extra) := by
  simp only [stored_ys, fix_coordinates, List.map_append, List.flatMap_def, List.map_flatten,
    List.map_map]
  rfl

/-- A shift by 0 changes no coordinate. -/
theorem shift_y_zero (first : Int) : shift_y first 0 = id := by
  funext y
  simp [shift_y]

/-- C27: after the geometry adjustment every stored Y coordinate is the image of
the coordinate before it under one function `f` (the shift by `extra` of the
coordinates below the zone start), `f` keeps the order (`y1 <= y2` gives
`f y1 <= f y2`) and decreases no coordinate (`y <= f y`). -/
theorem adjust_preserves_order (ls : LoadState) (rr rc : Int) :
    ∃ f : Int → Int,
      stored_ys (skin_load_adjust ls rr rc).g = (stored_ys ls.g).map f
        ∧ (∀ y1 y2, y1 ≤ y2 → f y1 ≤ f y2)
        ∧ (∀ y, y ≤ f y) := by
  refine ⟨shift_y (skin_load_adjust ls rr rc).dup_first_y (skin_load_adjust ls rr rc).extra,
    ?_, (shift_y_mono _ _ (adjust_extra_nonneg ls rr rc)).1,
    (shift_y_mono _ _ (adjust_extra_nonneg ls rr rc)).2⟩
  by_cases h : skin_load_extra ls (skin_load_clamp_rows ls rr rc) rc > 0
  · obtain ⟨h1, h2, h3, h4, h5, h6, _, _⟩ := adjust_shift_fields ls rr rc h
    rw [h1, h2]
    simp only [stored_ys, h3, h4, h5, h6, List.map_append, List.flatMap_def, List.map_flatten,
      List.map_map]
    rfl
  · obtain ⟨_, h2, h3, h4, h5, h6⟩ := skin_load_adjust_no_shift ls rr rc h
    rw [h6, shift_y_zero, List.map_id]
    simp only [stored_ys, h2, h3, h4, h5]

/-- C27 on a key at Y 50 and a key at Y 5, with the display at Y 10 and 4 rows
requested: the coordinates after the adjustment come from the ones before it by an
order-keeping function. -/
theorem adjust_preserves_order_witness :
    ∃ f : Int → Int,
      stored_ys (skin_load_adjust (skin_load_records (fun _ _ => none) SkinState.initial
          ["display: 0,10 1 1 0 0".toList, "key: 1 0,50,10,10 0,50,10,10 0,5".toList]) 4 22).g
        = (stored_ys (skin_load_records (fun _ _ => none) SkinState.initial
          ["display: 0,10 1 1 0 0".toList,
            "key: 1 0,50,10,10 0,50,10,10 0,5".toList]).g).map f
        ∧ (∀ y1 y2, y1 ≤ y2 → f y1 ≤ f y2)
        ∧ (∀ y, y ≤ f y) :=
  adjust_preserves_order _ 4 22

/-! ## The display bitmap after a load -/

/-- The shift `n >> 3` of an `int` is the division by 8 that rounds down. -/
theorem shiftRight_three (n : Int) : n >>> 3 = n / 8 := by
  cases n with
  | ofNat m =>
    have h := Int.shiftRight_coe_nat m 3
    simp only [Nat.cast_ofNat, Int.ofNat_eq_coe] at h ⊢
    rw [h, Nat.shiftRight_eq_div_pow]
    norm_num
  | negSucc m =>
    have h := Int.shiftRight_negSucc m 3
    simp only [Nat.cast_ofNat] at h
    rw [h, Nat.shiftRight_eq_div_pow]
    simp only [Int.negSucc_eq]
    have : ((m / 2 ^ 3 : Nat) : Int) = (m : Int) / 8 := by norm_num
    rw [this]
    omega

/-- The dimensions of the display bitmap that the final statements of `skin_load`
set. -/
theorem skin_load_finish_display (a : Adjusted) :
    (skin_load_finish a).1.disp_r = a.disp_rows
      ∧ (skin_load_finish a).1.disp_c = a.disp_cols
      ∧ (skin_load_finish a).1.disp_w = a.disp_cols * 6 - 1
      ∧ (skin_load_finish a).1.disp_h = a.disp_rows * 8
      ∧ (skin_load_finish a).1.disp_bpl = (a.disp_cols * 6 - 1 + 7) >>> 3
      ∧ (skin_load_finish a).1.disp_bits
          = List.replicate (((a.disp_cols * 6 - 1 + 7) >>> 3) * (a.disp_rows * 8)).toNat 0 :=
  ⟨rfl, rfl, rfl, rfl, rfl, rfl⟩

/-- After the final statements of `skin_load` with at least one row and one column
the display bitmap is well formed. -/
theorem skin_load_finish_bitmap_ok (a : Adjusted) (hr : 1 ≤ a.disp_rows)
    (hc : 1 ≤ a.disp_cols) : display_bitmap_ok (skin_load_finish a).1 := by
  obtain ⟨_, _, hw, hh, hb, hbits⟩ := skin_load_finish_display a
  refine ⟨by rw [hw]; omega, by rw [hh]; omega, by rw [hb, hw], ?_⟩
  rw [hbits, hb, hh, List.length_replicate, shiftRight_three]
  have h1 : 0 ≤ (a.disp_cols * 6 - 1 + 7) / 8 := by omega
  have h2 : 0 ≤ a.disp_rows * 8 := by omega
  exact Int.toNat_of_nonneg (mul_nonneg h1 h2)

/-- In a well-formed display bitmap the byte of every dot of the display lies
inside the array. -/
theorem dot_index_in_bitmap (g : SkinState) (hok : display_bitmap_ok g) (h v : Int)
    (h0 : 0 ≤ h) (h1 : h < g.disp_w) (v0 : 0 ≤ v) (v1 : v < g.disp_h) :
    0 ≤ dot_index g.disp_bpl h v ∧ dot_index g.disp_bpl h v < (g.disp_bits.length : Int) := by
  obtain ⟨_, _, hb, hl⟩ := hok
  rw [hl]
  unfold dot_index
  rw [shiftRight_three] at hb ⊢
  have hq : h / 8 < g.disp_bpl := by omega
  have hq0 : 0 ≤ h / 8 := by omega
  have hb0 : 0 ≤ g.disp_bpl := by omega
  have hv : v * g.disp_bpl ≤ (g.disp_h - 1) * g.disp_bpl :=
    mul_le_mul_of_nonneg_right (by omega) hb0
  have hv0 : 0 ≤ v * g.disp_bpl := mul_nonneg v0 hb0
  constructor
  · omega
  · have : (g.disp_h - 1) * g.disp_bpl = g.disp_bpl * g.disp_h - g.disp_bpl := by ring
    omega

/-- C28: after a load with at least one row and one column, `disp_w` is
`6 * cols - 1`, `disp_h` is `8 * rows`, the bytes per line are `disp_w / 8` rounded
up, the bitmap has `disp_bpl * disp_h` bytes, all of them 0, and for every dot
`(h, v)` of the display the index `v * disp_bpl + (h >> 3)` lies inside it. -/
theorem display_bitmap_after_load (pke : List Char → Int → Option keymap_entry)
    (old : SkinState) (lines : List (List Char)) (rr rc : Int)
    (hr : 1 ≤ (skin_load_pass pke old lines rr rc).1.disp_r)
    (hc : 1 ≤ (skin_load_pass pke old lines rr rc).1.disp_c) :
    (skin_load_pass pke old lines rr rc).1.disp_w
        = 6 * (skin_load_pass pke old lines rr rc).1.disp_c - 1
      ∧ (skin_load_pass pke old lines rr rc).1.disp_h
        = 8 * (skin_load_pass pke old lines rr rc).1.disp_r
      ∧ (skin_load_pass pke old lines rr rc).1.disp_bpl
        = ⌈((skin_load_pass pke old lines rr rc).1.disp_w : ℚ) / 8⌉
      ∧ ((skin_load_pass pke old lines rr rc).1.disp_bits.length : Int)
        = (skin_load_pass pke old lines rr rc).1.disp_bpl
          * (skin_load_pass pke old lines rr rc).1.disp_h
      ∧ (∀ b ∈ (skin_load_pass pke old lines rr rc).1.disp_bits, b = 0)
      ∧ (∀ h v : Int, 0 ≤ h → h < (skin_load_pass pke old lines rr rc).1.disp_w →
          0 ≤ v → v < (skin_load_pass pke old lines rr rc).1.disp_h →
          0 ≤ dot_index (skin_load_pass pke old lines rr rc).1.disp_bpl h v
            ∧ dot_index (skin_load_pass pke old lines rr rc).1.disp_bpl h v
              < ((skin_load_pass pke old lines rr rc).1.disp_bits.length : Int)) := by
  unfold skin_load_pass at hr hc ⊢
  generalize skin_load_adjust (skin_load_records pke old lines) rr rc = a at hr hc ⊢
  obtain ⟨h1, h2, hw, hh, hb, hbits⟩ := skin_load_finish_display a
  rw [h1] at hr
  rw [h2] at hc
  have hok := skin_load_finish_bitmap_ok a hr hc
  refine ⟨by rw [hw, h2]; ring, by rw [hh, h1]; ring, ?_, hok.2.2.2, ?_, ?_⟩
  · rw [hb, hw, shiftRight_three]
    symm
    rw [Int.ceil_eq_iff]
    have e1 : 8 * ((a.disp_cols * 6 - 1 + 7) / 8) - 8 < a.disp_cols * 6 - 1 := by omega
    have e2 : a.disp_cols * 6 - 1 ≤ 8 * ((a.disp_cols * 6 - 1 + 7) / 8) := by omega
    have e1q : ((8 * ((a.disp_cols * 6 - 1 + 7) / 8) - 8 : Int) : ℚ)
        < ((a.disp_cols * 6 - 1 : Int) : ℚ) := by exact_mod_cast e1
    have e2q : ((a.disp_cols * 6 - 1 : Int) : ℚ)
        ≤ ((8 * ((a.disp_cols * 6 - 1 + 7) / 8) : Int) : ℚ) := by exact_mod_cast e2
    push_cast at e1q e2q ⊢
    constructor
    · rw [lt_div_iff₀ (by norm_num)]
      linarith
    · rw [div_le_iff₀ (by norm_num)]
      linarith
  · intro b hbm
    rw [hbits] at hbm
    exact (List.mem_replicate.1 hbm).2
  · intro h v h0 hlt v0 vlt
    exact dot_index_in_bitmap _ hok h v h0 hlt v0 vlt

/-- C28 on a load with 2 rows and 22 columns: 131 by 16 dots, 17 bytes per line
and 272 bytes. -/
theorem display_bitmap_after_load_witness :
    (1 : Int) ≤ (skin_load_pass (fun _ _ => none) SkinState.initial
        ["display: 0,0 1 1 0 0".toList] 2 22).1.disp_r
      ∧ (1 : Int) ≤ (skin_load_pass (fun _ _ => none) SkinState.initial
        ["display: 0,0 1 1 0 0".toList] 2 22).1.disp_c
      ∧ (skin_load_pass (fun _ _ => none) SkinState.initial
        ["display: 0,0 1 1 0 0".toList] 2 22).1.disp_w = 131
      ∧ ((skin_load_pass (fun _ _ => none) SkinState.initial
        ["display: 0,0 1 1 0 0".toList] 2 22).1.disp_bits.length : Int) = 17 * 16 :=
  have hr : (1 : Int) ≤ (skin_load_pass (fun _ _ => none) SkinState.initial
      ["display: 0,0 1 1 0 0".toList] 2 22).1.disp_r := by with_unfolding_all decide
  have hc : (1 : Int) ≤ (skin_load_pass (fun _ _ => none) SkinState.initial
      ["display: 0,0 1 1 0 0".toList] 2 22).1.disp_c := by with_unfolding_all decide
  ⟨hr, hc,
    (display_bitmap_after_load (fun _ _ => none) SkinState.initial
      ["display: 0,0 1 1 0 0".toList] 2 22 hr hc).1.trans (by with_unfolding_all decide),
    (display_bitmap_after_load (fun _ _ => none) SkinState.initial
      ["display: 0,0 1 1 0 0".toList] 2 22 hr hc).2.2.2.1.trans
        (by with_unfolding_all decide)⟩

/-! ## The dots of a soft key -/

/-- The values of a loop variable. -/
theorem mem_int_range (lo n v : Int) : v ∈ int_range lo n ↔ lo ≤ v ∧ v < lo + n := by
  unfold int_range
  simp only [List.mem_map, List.mem_range, Int.ofNat_eq_coe]
  constructor
  · rintro ⟨i, hi, rfl⟩
    omega
  · rintro ⟨h1, h2⟩
    exact ⟨(v - lo).toNat, by omega, by omega⟩

/-- The dots that the nested loops over a rectangle visit. -/
theorem mem_rect_dots (x y width height h v : Int) :
    (h, v) ∈ rect_dots x y width height
      ↔ x ≤ h ∧ h < x + width ∧ y ≤ v ∧ v < y + height := by
  unfold rect_dots
  simp only [List.mem_flatMap, List.mem_map, Prod.mk.injEq, mem_int_range]
  constructor
  · rintro ⟨v2, hv, h2, hh, rfl, rfl⟩
    exact ⟨hh.1, hh.2, hv.1, hv.2⟩
  · rintro ⟨h1, h2, h3, h4⟩
    exact ⟨v, ⟨h3, h4⟩, h, ⟨h1, h2⟩, rfl, rfl⟩

/-- The dots that the soft key branch of `skin_repaint_key` fills are dots of the
rectangle of the soft key. -/
theorem skin_repaint_soft_key_dots (g : SkinState) (key : Int) (state : Bool) (h v : Int)
    (hmem : CairoOp.rectangle h v 1 1 ∈ skin_repaint_soft_key g key state) :
    (h, v) ∈ rect_dots (soft_key_rect g key).x (soft_key_rect g key).y
        (soft_key_rect g key).width (soft_key_rect g key).height
      ∧ dot_bit g.disp_bits 17 h v ≠ state := by
  unfold skin_repaint_soft_key at hmem
  simp only [List.mem_append, List.mem_cons, List.mem_singleton, List.mem_flatMap,
    List.not_mem_nil, or_false, false_or, reduceCtorEq, CairoOp.rectangle.injEq] at hmem
  rcases hmem with hclip | ⟨d, hd, hin⟩
  · have : (soft_key_rect g key).height = 7 := rfl
    omega
  · by_cases hb : dot_bit g.disp_bits 17 d.1 d.2 ≠ state
    · rw [if_pos hb] at hin
      simp only [List.mem_cons, CairoOp.rectangle.injEq, and_true, reduceCtorEq,
        List.not_mem_nil, or_false] at hin
      obtain ⟨h1, h2⟩ := hin
      subst h1 h2
      exact ⟨hd, hb⟩
    · rw [if_neg hb] at hin
      simp at hin

/-- C29: after a load with at least one row and one column, for every soft key
handle in -7..-2 the rectangle of dots of `skin_repaint_key` is
`x = (k - 1) * cols`, `y = disp_h - 7`, `width = cols - 1`, `height = 7` with
`k = -1 - handle`; every dot of it, and so every dot that `skin_repaint_key` fills,
satisfies `0 <= h < disp_w` and `0 <= v < disp_h`; the rectangles of two different
soft keys have no dot in common. -/
theorem soft_key_rect_inside (pke : List Char → Int → Option keymap_entry)
    (old : SkinState) (lines : List (List Char)) (rr rc : Int) (key : Int)
    (hr : 1 ≤ (skin_load_pass pke old lines rr rc).1.disp_r)
    (hc : 1 ≤ (skin_load_pass pke old lines rr rc).1.disp_c)
    (hk1 : -7 ≤ key) (hk2 : key ≤ -2) :
    soft_key_rect (skin_load_pass pke old lines rr rc).1 key
        = ⟨(-1 - key - 1) * (skin_load_pass pke old lines rr rc).1.disp_c,
            (skin_load_pass pke old lines rr rc).1.disp_h - 7,
            (skin_load_pass pke old lines rr rc).1.disp_c - 1, 7⟩
      ∧ (∀ h v : Int,
          (h, v) ∈ rect_dots (soft_key_rect (skin_load_pass pke old lines rr rc).1 key).x
            (soft_key_rect (skin_load_pass pke old lines rr rc).1 key).y
            (soft_key_rect (skin_load_pass pke old lines rr rc).1 key).width
            (soft_key_rect (skin_load_pass pke old lines rr rc).1 key).height →
          0 ≤ h ∧ h < (skin_load_pass pke old lines rr rc).1.disp_w
            ∧ 0 ≤ v ∧ v < (skin_load_pass pke old lines rr rc).1.disp_h)
      ∧ (∀ (mode : Int) (state : Bool) (h v : Int),
          CairoOp.rectangle h v 1 1
            ∈ skin_repaint_key (skin_load_pass pke old lines rr rc).1 true mode key state →
          0 ≤ h ∧ h < (skin_load_pass pke old lines rr rc).1.disp_w
            ∧ 0 ≤ v ∧ v < (skin_load_pass pke old lines rr rc).1.disp_h)
      ∧ (∀ key2 : Int, -7 ≤ key2 → key2 ≤ -2 → key2 ≠ key →
          ∀ d ∈ rect_dots (soft_key_rect (skin_load_pass pke old lines rr rc).1 key).x
            (soft_key_rect (skin_load_pass pke old lines rr rc).1 key).y
            (soft_key_rect (skin_load_pass pke old lines rr rc).1 key).width
            (soft_key_rect (skin_load_pass pke old lines rr rc).1 key).height,
          d ∉ rect_dots (soft_key_rect (skin_load_pass pke old lines rr rc).1 key2).x
            (soft_key_rect (skin_load_pass pke old lines rr rc).1 key2).y
            (soft_key_rect (skin_load_pass pke old lines rr rc).1 key2).width
            (soft_key_rect (skin_load_pass pke old lines rr rc).1 key2).height) := by
  have hw : (skin_load_pass pke old lines rr rc).1.disp_w
      = 6 * (skin_load_pass pke old lines rr rc).1.disp_c - 1 := by
    unfold skin_load_pass
    obtain ⟨_, h2, h3, _⟩ := skin_load_finish_display
      (skin_load_adjust (skin_load_records pke old lines) rr rc)
    rw [h2, h3]
    ring
  have hh : (skin_load_pass pke old lines rr rc).1.disp_h
      = 8 * (skin_load_pass pke old lines rr rc).1.disp_r := by
    unfold skin_load_pass
    obtain ⟨h1, _, _, h4, _⟩ := skin_load_finish_display
      (skin_load_adjust (skin_load_records pke old lines) rr rc)
    rw [h1, h4]
    ring
  generalize (skin_load_pass pke old lines rr rc).1 = g at hr hc hw hh ⊢
  have hin : ∀ h v : Int,
      (h, v) ∈ rect_dots (soft_key_rect g key).x (soft_key_rect g key).y
        (soft_key_rect g key).width (soft_key_rect g key).height →
      0 ≤ h ∧ h < g.disp_w ∧ 0 ≤ v ∧ v < g.disp_h := by
    intro h v hmem
    rw [mem_rect_dots] at hmem
    simp only [soft_key_rect] at hmem
    obtain ⟨h1, h2, h3, h4⟩ := hmem
    rw [hw, hh]
    have hkey : key = -7 ∨ key = -6 ∨ key = -5 ∨ key = -4 ∨ key = -3 ∨ key = -2 := by omega
    rcases hkey with rfl | rfl | rfl | rfl | rfl | rfl <;> norm_num at h1 h2 <;> omega
  refine ⟨rfl, hin, ?_, ?_⟩
  · intro mode state h v hmem
    have hsoft : skin_repaint_key g true mode key state = skin_repaint_soft_key g key state := by
      unfold skin_repaint_key
      rw [if_pos ⟨by omega, by omega⟩]
      simp
    rw [hsoft] at hmem
    exact hin h v (skin_repaint_soft_key_dots g key state h v hmem).1
  · intro key2 hk3 hk4 hne d hd hd2
    obtain ⟨h, v⟩ := d
    rw [mem_rect_dots] at hd hd2
    simp only [soft_key_rect] at hd hd2
    obtain ⟨a1, a2, _, _⟩ := hd
    obtain ⟨b1, b2, _, _⟩ := hd2
    have hkey : key = -7 ∨ key = -6 ∨ key = -5 ∨ key = -4 ∨ key = -3 ∨ key = -2 := by omega
    have hkey2 : key2 = -7 ∨ key2 = -6 ∨ key2 = -5 ∨ key2 = -4 ∨ key2 = -3 ∨ key2 = -2 := by
      omega
    rcases hkey with rfl | rfl | rfl | rfl | rfl | rfl <;>
      rcases hkey2 with rfl | rfl | rfl | rfl | rfl | rfl <;>
      norm_num at a1 a2 b1 b2 hne <;> omega

/-- C29 on a load with 2 rows and 22 columns and the soft key with the handle -3:
its dots are the columns 22..42 of the lines 9..15. -/
theorem soft_key_rect_inside_witness :
    (1 : Int) ≤ (skin_load_pass (fun _ _ => none) SkinState.initial
        ["display: 0,0 1 1 0 0".toList] 2 22).1.disp_r
      ∧ (1 : Int) ≤ (skin_load_pass (fun _ _ => none) SkinState.initial
        ["display: 0,0 1 1 0 0".toList] 2 22).1.disp_c
      ∧ soft_key_rect (skin_load_pass (fun _ _ => none) SkinState.initial
        ["display: 0,0 1 1 0 0".toList] 2 22).1 (-3) = ⟨22, 9, 21, 7⟩ :=
  have hr : (1 : Int) ≤ (skin_load_pass (fun _ _ => none) SkinState.initial
      ["display: 0,0 1 1 0 0".toList] 2 22).1.disp_r := by with_unfolding_all decide
  have hc : (1 : Int) ≤ (skin_load_pass (fun _ _ => none) SkinState.initial
      ["display: 0,0 1 1 0 0".toList] 2 22).1.disp_c := by with_unfolding_all decide
  ⟨hr, hc,
    (soft_key_rect_inside (fun _ _ => none) SkinState.initial
      ["display: 0,0 1 1 0 0".toList] 2 22 (-3) hr hc (by decide) (by decide)).1.trans
      (by with_unfolding_all decide)⟩

/-! ## The soft key found by `skin_find_key` -/

/-- The soft key index for a point of the soft key band, in a geometry with
`disp_w = 6 * disp_c - 1`. -/
theorem soft_key_index_bounds (g : SkinState) (x y : Int) (hw : g.disp_w = 6 * g.disp_c - 1)
    (hc : 1 ≤ g.disp_c) (hs : 0 < g.display_scale_x) (hband : soft_key_band g x y) :
    1 ≤ double_to_int (((x - g.display_loc.x : Int) : ℚ) / (g.disp_c * g.display_scale_x) + 1)
      ∧ double_to_int (((x - g.display_loc.x : Int) : ℚ) / (g.disp_c * g.display_scale_x) + 1)
        ≤ 6 := by
  obtain ⟨h1, h2, _, _⟩ := hband
  have hcq : (1 : ℚ) ≤ (g.disp_c : ℚ) := by exact_mod_cast hc
  have hpos : (0 : ℚ) < (g.disp_c : ℚ) * g.display_scale_x := mul_pos (by linarith) hs
  have hwq : (g.disp_w : ℚ) = 6 * (g.disp_c : ℚ) - 1 := by
    rw [hw]
    push_cast
    ring
  have hx0 : (0 : ℚ) ≤ ((x - g.display_loc.x : Int) : ℚ) := by
    push_cast
    linarith
  have hq0 : (0 : ℚ) ≤ ((x - g.display_loc.x : Int) : ℚ) / (g.disp_c * g.display_scale_x) :=
    div_nonneg hx0 (le_of_lt hpos)
  have hq6 : ((x - g.display_loc.x : Int) : ℚ) / (g.disp_c * g.display_scale_x) < 6 := by
    rw [div_lt_iff₀ hpos]
    push_cast
    rw [hwq] at h2
    nlinarith
  have hnn : (0 : ℚ)
      ≤ ((x - g.display_loc.x : Int) : ℚ) / (g.disp_c * g.display_scale_x) + 1 := by linarith
  unfold double_to_int
  rw [if_pos hnn]
  constructor
  · rw [Int.le_floor, Int.cast_one]
    linarith
  · have : ⌊((x - g.display_loc.x : Int) : ℚ) / (g.disp_c * g.display_scale_x) + 1⌋ < 7 := by
      rw [Int.floor_lt, Int.cast_ofNat]
      linarith
    omega

/-- The overlay test of `skin_repaint_key`: the mode is the active mode and the
rectangle `dst.x, dst.y, src_rect.width, src_rect.height` holds the top left corner
of the display rectangle of the key. -/
theorem alt_bak_applies_iff (skin_mode : Int) (k : SkinKey) (ab : AltBackground) :
    alt_bak_applies skin_mode k ab = true
      ↔ ab.mode = skin_mode
        ∧ ab.dst.x ≤ k.disp_rect.x ∧ k.disp_rect.x < ab.dst.x + ab.src_rect.width
        ∧ ab.dst.y ≤ k.disp_rect.y ∧ k.disp_rect.y < ab.dst.y + ab.src_rect.height := by
  unfold alt_bak_applies
  simp only [Bool.and_eq_true, decide_eq_true_eq, ge_iff_le]
  tauto

/-- The loop over `alt_bak` paints the overlays that pass the test, in list order. -/
theorem repaint_alt_bak_filter (g : SkinState) (skin_mode : Int) (k : SkinKey)
    (l : List AltBackground) :
    repaint_alt_bak g skin_mode k l
      = (l.filter (alt_bak_applies skin_mode k)).flatMap (fun ab =>
          [CairoOp.set_source_pixbuf (k.disp_rect.x - ab.dst.x + ab.src_rect.x - g.skin.x)
              (k.disp_rect.y - ab.dst.y + ab.src_rect.y - g.skin.y),
            CairoOp.paint]) := by
  induction l with
  | nil => rfl
  | cons ab rest ih =>
    unfold repaint_alt_bak
    rw [ih]
    by_cases h : alt_bak_applies skin_mode k ab = true
    · rw [if_pos h, List.filter_cons_of_pos h, List.flatMap_cons]
    · rw [if_neg h, List.filter_cons_of_neg h, List.nil_append]

/-- C25, amended: for a key of the key table, `skin_repaint_key(key, released)`
clips to the display rectangle of the key, paints the base image and then, in list
order, the overlays of `alt_bak` whose mode is the active mode and whose rectangle
`dst.x, dst.y, src_rect.width, src_rect.height` holds the top left corner
`(disp_rect.x, disp_rect.y)` of the key; with the skin mode 0 it paints no overlay. -/
theorem skin_repaint_key_released (g : SkinState) (display_enabled : Bool) (skin_mode : Int)
    (key : Int) (k : SkinKey) (h0 : 0 ≤ key) (hk : g.keylist[key.toNat]? = some k) :
    skin_repaint_key g display_enabled skin_mode key false
        = [CairoOp.save,
            CairoOp.rectangle k.disp_rect.x k.disp_rect.y k.disp_rect.width k.disp_rect.height,
            CairoOp.clip,
            CairoOp.set_source_pixbuf (-g.skin.x) (-g.skin.y),
            CairoOp.paint]
          ++ ((if skin_mode = 0 then []
                else g.alt_bak.filter (alt_bak_applies skin_mode k)).flatMap (fun ab =>
              [CairoOp.set_source_pixbuf (k.disp_rect.x - ab.dst.x + ab.src_rect.x - g.skin.x)
                  (k.disp_rect.y - ab.dst.y + ab.src_rect.y - g.skin.y),
                CairoOp.paint]))
          ++ [CairoOp.restore]
      ∧ (∀ ab, alt_bak_applies skin_mode k ab = true
          ↔ ab.mode = skin_mode
            ∧ ab.dst.x ≤ k.disp_rect.x ∧ k.disp_rect.x < ab.dst.x + ab.src_rect.width
            ∧ ab.dst.y ≤ k.disp_rect.y ∧ k.disp_rect.y < ab.dst.y + ab.src_rect.height) := by
  refine ⟨?_, alt_bak_applies_iff skin_mode k⟩
  have hlt : key.toNat < g.keylist.length := by
    rcases Nat.lt_or_ge key.toNat g.keylist.length with h | h
    · exact h
    · rw [List.getElem?_eq_none h] at hk
      exact absurd hk (by simp)
  have h1 : ¬ (key ≥ -7 ∧ key ≤ -2) := by omega
  have h2 : ¬ (key < 0 ∨ key ≥ (g.nkeys : Int)) := by
    unfold SkinState.nkeys
    omega
  unfold skin_repaint_key
  rw [if_neg h1, if_neg h2, hk]
  simp only [Bool.false_eq_true, if_false]
  by_cases hm : skin_mode = 0
  · simp [hm]
  · simp only [ne_eq, hm, not_false_eq_true, if_true, if_false, repaint_alt_bak_filter,
      List.append_assoc]
    rfl

/-- C25, amended, on a key at (5, 5) and two overlays of the mode 1: the overlay
that holds the corner of the key is painted, the other one is not. -/
theorem skin_repaint_key_released_witness :
    (0 : Int) ≤ 0
      ∧ skin_repaint_key
          { SkinState.initial with
            keylist := [⟨1, 1, ⟨5, 5, 10, 10⟩, ⟨5, 5, 10, 10⟩, ⟨0, 0⟩⟩]
            alt_bak := [⟨⟨100, 100, 3, 3⟩, ⟨20, 20⟩, 1⟩, ⟨⟨200, 200, 50, 50⟩, ⟨0, 0⟩, 1⟩] }
          true 1 0 false
        = [CairoOp.save, CairoOp.rectangle 5 5 10 10, CairoOp.clip,
            CairoOp.set_source_pixbuf 0 0, CairoOp.paint,
            CairoOp.set_source_pixbuf 205 205, CairoOp.paint, CairoOp.restore] :=
  ⟨le_refl 0,
    (skin_repaint_key_released
      { SkinState.initial with
        keylist := [⟨1, 1, ⟨5, 5, 10, 10⟩, ⟨5, 5, 10, 10⟩, ⟨0, 0⟩⟩]
        alt_bak := [⟨⟨100, 100, 3, 3⟩, ⟨20, 20⟩, 1⟩, ⟨⟨200, 200, 50, 50⟩, ⟨0, 0⟩, 1⟩] }
      true 1 0 ⟨1, 1, ⟨5, 5, 10, 10⟩, ⟨5, 5, 10, 10⟩, ⟨0, 0⟩⟩ (le_refl 0) rfl).1.trans
      (by decide)⟩

/-- C25 as stated fails: the key has the display rectangle 5, 5, 100, 100 and the
overlay of the active mode 1 has the destination rectangle 0, 0, 10, 10, which does
not contain the rectangle of the key (105 > 10); the overlay is painted all the
same, because its rectangle holds the corner (5, 5). -/
theorem skin_repaint_key_released_counterexample :
    skin_repaint_key
        { SkinState.initial with
          keylist := [⟨1, 1, ⟨5, 5, 100, 100⟩, ⟨5, 5, 100, 100⟩, ⟨0, 0⟩⟩]
          alt_bak := [⟨⟨200, 200, 10, 10⟩, ⟨0, 0⟩, 1⟩] }
        true 1 0 false
      = [CairoOp.save, CairoOp.rectangle 5 5 100 100, CairoOp.clip,
          CairoOp.set_source_pixbuf 0 0, CairoOp.paint,
          CairoOp.set_source_pixbuf 205 205, CairoOp.paint, CairoOp.restore]
      ∧ ¬ ((5 : Int) + 100 ≤ 0 + 10) := by
  decide

/-! ## Soft key paint and the display bitmap -/

/-- The dots that `skin_repaint_display` fills are the dots of the display whose bit
is set in `disp_bits`, read with `disp_bpl` bytes per line. -/
theorem skin_repaint_display_dots (g : SkinState) (h v : Int) (hnn : 0 ≤ h) :
    CairoOp.rectangle h v 1 1 ∈ skin_repaint_display g true
      ↔ (0 ≤ h ∧ h < g.disp_w ∧ 0 ≤ v ∧ v < g.disp_h)
        ∧ dot_bit g.disp_bits g.disp_bpl h v = true := by
  unfold skin_repaint_display
  simp only [Bool.true_eq_false, if_false, List.mem_append, List.mem_cons, List.mem_singleton,
    List.mem_flatMap, List.not_mem_nil, or_false, false_or, reduceCtorEq,
    CairoOp.rectangle.injEq]
  constructor
  · rintro (hclip | ⟨d, hd, hin⟩)
    · have := hclip.1
      omega
    · by_cases hb : dot_bit g.disp_bits g.disp_bpl d.1 d.2 = true
      · rw [if_pos hb] at hin
        simp only [List.mem_cons, CairoOp.rectangle.injEq, and_true, reduceCtorEq,
          List.not_mem_nil, or_false] at hin
        obtain ⟨h1, h2⟩ := hin
        subst h1 h2
        have := (mem_rect_dots 0 0 g.disp_w g.disp_h d.1 d.2).1 hd
        exact ⟨⟨this.1, by omega, this.2.2.1, by omega⟩, hb⟩
      · rw [if_neg hb] at hin
        simp at hin
  · rintro ⟨⟨h0, h1, v0, v1⟩, hb⟩
    right
    refine ⟨(h, v), (mem_rect_dots 0 0 g.disp_w g.disp_h h v).2 ⟨h0, by omega, v0, by omega⟩, ?_⟩
    simp only [hb, if_true, List.mem_cons, CairoOp.rectangle.injEq, and_self, true_or]

set_option maxRecDepth 100000 in
/-- C24 fails after a load with 23 columns (18 bytes per line): the display update
sets the dot (0, 10), a dot of the first soft key, in `disp_bits[10 * 18]`, and
`skin_repaint_display` fills it; `skin_repaint_key` for the released soft key -2
reads `disp_bits[10 * 17]` for that dot, finds 0 and does not fill it. -/
theorem soft_key_paint_stride :
    (skin_load_pass (fun _ _ => none) SkinState.initial
        ["display: 0,0 1 1 0 ffffff".toList] 2 23).1.disp_bpl = 18
      ∧ (0, 10) ∈ rect_dots
          (soft_key_rect (skin_load_pass (fun _ _ => none) SkinState.initial
            ["display: 0,0 1 1 0 ffffff".toList] 2 23).1 (-2)).x
          (soft_key_rect (skin_load_pass (fun _ _ => none) SkinState.initial
            ["display: 0,0 1 1 0 ffffff".toList] 2 23).1 (-2)).y
          (soft_key_rect (skin_load_pass (fun _ _ => none) SkinState.initial
            ["display: 0,0 1 1 0 ffffff".toList] 2 23).1 (-2)).width
          (soft_key_rect (skin_load_pass (fun _ _ => none) SkinState.initial
            ["display: 0,0 1 1 0 ffffff".toList] 2 23).1 (-2)).height
      ∧ dot_bit
          (skin_display_invalidater (skin_load_pass (fun _ _ => none) SkinState.initial
            ["display: 0,0 1 1 0 ffffff".toList] 2 23).1
            (List.replicate 180 0 ++ [1]) 18 0 10 1 1).disp_bits 18 0 10 = true
      ∧ CairoOp.rectangle 0 10 1 1
          ∈ skin_repaint_display
            (skin_display_invalidater (skin_load_pass (fun _ _ => none) SkinState.initial
              ["display: 0,0 1 1 0 ffffff".toList] 2 23).1
              (List.replicate 180 0 ++ [1]) 18 0 10 1 1) true
      ∧ CairoOp.rectangle 0 10 1 1
          ∉ skin_repaint_key
            (skin_display_invalidater (skin_load_pass (fun _ _ => none) SkinState.initial
              ["display: 0,0 1 1 0 ffffff".toList] 2 23).1
              (List.replicate 180 0 ++ [1]) 18 0 10 1 1) true 0 (-2) false := by
  have hbit18 : dot_bit
      (skin_display_invalidater (skin_load_pass (fun _ _ => none) SkinState.initial
        ["display: 0,0 1 1 0 ffffff".toList] 2 23).1
        (List.replicate 180 0 ++ [1]) 18 0 10 1 1).disp_bits 18 0 10 = true := by
    with_unfolding_all decide
  have hbit17 : dot_bit
      (skin_display_invalidater (skin_load_pass (fun _ _ => none) SkinState.initial
        ["display: 0,0 1 1 0 ffffff".toList] 2 23).1
        (List.replicate 180 0 ++ [1]) 18 0 10 1 1).disp_bits 17 0 10 = false := by
    with_unfolding_all decide
  refine ⟨by with_unfolding_all decide, ?_, hbit18, ?_, ?_⟩
  · rw [mem_rect_dots]
    with_unfolding_all decide
  · rw [skin_repaint_display_dots _ 0 10 (le_refl 0)]
    refine ⟨by with_unfolding_all decide, ?_⟩
    have hbpl : (skin_display_invalidater (skin_load_pass (fun _ _ => none) SkinState.initial
        ["display: 0,0 1 1 0 ffffff".toList] 2 23).1
        (List.replicate 180 0 ++ [1]) 18 0 10 1 1).disp_bpl = 18 := by
      with_unfolding_all decide
    rw [hbpl]
    exact hbit18
  · intro hmem
    have hsoft : ∀ g : SkinState, skin_repaint_key g true 0 (-2) false
        = skin_repaint_soft_key g (-2) false := by
      intro g
      unfold skin_repaint_key
      rw [if_pos ⟨by decide, by decide⟩]
      simp
    rw [hsoft] at hmem
    exact (skin_repaint_soft_key_dots _ (-2) false 0 10 hmem).2 hbit17

/-! ## The display update -/

/-- The mask of a dot is the power of two of its bit number. -/
theorem dot_mask_eq (h : Int) : dot_mask h = 2 ^ (h % 8).toNat := by
  unfold dot_mask
  rw [Nat.one_shiftLeft]

/-- The test of a byte against a one-bit mask reads the bit. -/
theorem and_two_pow_ne_zero (b k : Nat) : ((b &&& 2 ^ k) != 0) = Nat.testBit b k := by
  rw [Nat.and_two_pow]
  cases hb : Nat.testBit b k
  · simp
  · simp

/-- The test of `dot_bit` reads the bit `h mod 8` of the byte of the dot. -/
theorem dot_bit_eq (bits : List Nat) (bpl h v : Int) :
    dot_bit bits bpl h v = Nat.testBit (byte_at bits (dot_index bpl h v)) (h % 8).toNat := by
  unfold dot_bit
  rw [dot_mask_eq, and_two_pow_ne_zero]

/-- For a dot whose byte index is not negative, `dot_bit` is the bit at its place. -/
theorem dot_bit_eq_bit_at (bits : List Nat) (bpl : Int) (d : Int × Int)
    (h0 : 0 ≤ dot_index bpl d.1 d.2) :
    dot_bit bits bpl d.1 d.2 = bit_at bits (dot_loc bpl d).1 (dot_loc bpl d).2 := by
  rw [dot_bit_eq]
  unfold bit_at dot_loc byte_at
  rw [if_neg (by omega)]

/-- A store keeps the length of the array. -/
theorem byte_store_length (mem : List Nat) (i : Int) (b : Nat) :
    (byte_store mem i b).length = mem.length := by
  unfold byte_store
  split
  · rfl
  · exact List.length_set _ _ _

/-- The byte read back after a store inside the array. -/
theorem byte_store_getD (mem : List Nat) (i : Int) (b : Nat) (h0 : 0 ≤ i)
    (h1 : i.toNat < mem.length) (j : Nat) :
    (byte_store mem i b).getD j 0 = if j = i.toNat then b else mem.getD j 0 := by
  unfold byte_store
  rw [if_neg (by omega)]
  simp only [List.getD_eq_getElem?_getD, List.getElem?_set]
  by_cases hj : i.toNat = j
  · subst hj
    simp [h1]
  · rw [if_neg hj, if_neg (fun h => hj h.symm)]

/-- One step of the display update keeps the length of the bitmap. -/
theorem invalidate_dot_length (bits : List Nat) (bytesperline bpl : Int) (mem : List Nat)
    (d : Int × Int) : (invalidate_dot bits bytesperline bpl mem d).length = mem.length := by
  unfold invalidate_dot
  split <;> exact byte_store_length _ _ _

/-- One step of the display update sets the bit of its dot to the bit of the dot in
`bits` and changes no other bit. -/
theorem invalidate_dot_bit (bits : List Nat) (bytesperline bpl : Int) (mem : List Nat)
    (d : Int × Int) (h0 : 0 ≤ dot_index bpl d.1 d.2)
    (h1 : (dot_index bpl d.1 d.2).toNat < mem.length) (i j : Nat) :
    bit_at (invalidate_dot bits bytesperline bpl mem d) i j
      = if dot_loc bpl d = (i, j) then dot_bit bits bytesperline d.1 d.2
        else bit_at mem i j := by
  have hbyte : byte_at mem (dot_index bpl d.1 d.2) = mem.getD (dot_index bpl d.1 d.2).toNat 0 := by
    unfold byte_at
    rw [if_neg (by omega)]
  unfold invalidate_dot bit_at dot_loc
  simp only [Prod.mk.injEq]
  by_cases hs : dot_bit bits bytesperline d.1 d.2 = true
  · rw [if_pos hs, byte_store_getD _ _ _ h0 h1, hbyte, dot_mask_eq]
    by_cases hi : i = (dot_index bpl d.1 d.2).toNat
    · subst hi
      rw [if_pos rfl, Nat.testBit_or, Nat.testBit_two_pow]
      by_cases hj : (d.1 % 8).toNat = j
      · simp [hj, hs]
      · simp [hj]
    · rw [if_neg hi, if_neg (fun h => hi h.1.symm)]
  · rw [if_neg hs, byte_store_getD _ _ _ h0 h1, hbyte, dot_mask_eq]
    have hsf : dot_bit bits bytesperline d.1 d.2 = false := by
      cases h : dot_bit bits bytesperline d.1 d.2
      · rfl
      · exact absurd h hs
    by_cases hi : i = (dot_index bpl d.1 d.2).toNat
    · subst hi
      rw [if_pos rfl, Nat.testBit_xor, Nat.testBit_and, Nat.testBit_two_pow]
      by_cases hj : (d.1 % 8).toNat = j
      · simp [hj, hsf]
      · simp [hj]
    · rw [if_neg hi, if_neg (fun h => hi h.1.symm)]

/-- The loops of the display update keep the length of the bitmap. -/
theorem invalidate_fold_length (bits : List Nat) (bytesperline bpl : Int)
    (l : List (Int × Int)) :
    ∀ mem : List Nat,
      (l.foldl (invalidate_dot bits bytesperline bpl) mem).length = mem.length := by
  induction l with
  | nil => intro mem; rfl
  | cons d rest ih =>
    intro mem
    rw [List.foldl_cons, ih, invalidate_dot_length]

/-- The loops of the display update over dots whose bytes lie inside the bitmap: a
bit that is the place of a dot of the list gets the bit of that dot in `bits` (when
all the dots at that place agree on it), every other bit is unchanged. -/
theorem invalidate_fold_bit (bits : List Nat) (bytesperline bpl : Int) (i j : Nat) (s : Bool)
    (l : List (Int × Int)) :
    ∀ mem : List Nat,
      (∀ d ∈ l, 0 ≤ dot_index bpl d.1 d.2 ∧ (dot_index bpl d.1 d.2).toNat < mem.length) →
      (∀ d ∈ l, dot_loc bpl d = (i, j) → dot_bit bits bytesperline d.1 d.2 = s) →
      bit_at (l.foldl (invalidate_dot bits bytesperline bpl) mem) i j
        = if ∃ d ∈ l, dot_loc bpl d = (i, j) then s else bit_at mem i j := by
  induction l with
  | nil =>
    intro mem _ _
    simp
  | cons e rest ih =>
    intro mem hval hs
    have he := hval e (List.mem_cons_self _ _)
    rw [List.foldl_cons, ih]
    · rw [invalidate_dot_bit bits bytesperline bpl mem e he.1 he.2]
      by_cases hrest : ∃ d ∈ rest, dot_loc bpl d = (i, j)
      · have hall : ∃ d ∈ e :: rest, dot_loc bpl d = (i, j) := by
          obtain ⟨d, hd, hl⟩ := hrest
          exact ⟨d, List.mem_cons_of_mem _ hd, hl⟩
        rw [if_pos hrest, if_pos hall]
      · rw [if_neg hrest]
        by_cases hloc : dot_loc bpl e = (i, j)
        · rw [if_pos hloc, if_pos ⟨e, List.mem_cons_self _ _, hloc⟩]
          exact hs e (List.mem_cons_self _ _) hloc
        · rw [if_neg hloc]
          have hall : ¬ ∃ d ∈ e :: rest, dot_loc bpl d = (i, j) := by
            rintro ⟨d, hd, hl⟩
            rcases List.mem_cons.1 hd with h | h
            · exact hloc (h ▸ hl)
            · exact hrest ⟨d, h, hl⟩
          rw [if_neg hall]
    · intro d hd
      rw [invalidate_dot_length]
      exact hval d (List.mem_cons_of_mem _ hd)
    · intro d hd
      exact hs d (List.mem_cons_of_mem _ hd)

/-- Two dots of the display that share their place are the same dot. -/
theorem dot_loc_injective (bpl w : Int) (hb : bpl = (w + 7) >>> 3) (d e : Int × Int)
    (hd0 : 0 ≤ d.1) (hd1 : d.1 < w) (hdv : 0 ≤ d.2)
    (he0 : 0 ≤ e.1) (he1 : e.1 < w) (hev : 0 ≤ e.2)
    (hloc : dot_loc bpl d = dot_loc bpl e) : d = e := by
  rw [shiftRight_three] at hb
  unfold dot_loc dot_index at hloc
  simp only [Prod.mk.injEq, shiftRight_three] at hloc
  obtain ⟨h1, h2⟩ := hloc
  have hbpos : 0 ≤ bpl := by omega
  have a0 : 0 ≤ d.1 / 8 := by omega
  have a1 : d.1 / 8 < bpl := by omega
  have b0 : 0 ≤ e.1 / 8 := by omega
  have b1 : e.1 / 8 < bpl := by omega
  have hdn : 0 ≤ d.2 * bpl := mul_nonneg hdv hbpos
  have hen : 0 ≤ e.2 * bpl := mul_nonneg hev hbpos
  have hidx : d.2 * bpl + d.1 / 8 = e.2 * bpl + e.1 / 8 := by omega
  have hmod : (d.2 * bpl + d.1 / 8) % bpl = (e.2 * bpl + e.1 / 8) % bpl := by rw [hidx]
  rw [Int.add_comm (d.2 * bpl), Int.add_comm (e.2 * bpl), Int.add_mul_emod_self,
    Int.add_mul_emod_self, Int.emod_eq_of_lt a0 a1, Int.emod_eq_of_lt b0 b1] at hmod
  have hv : d.2 * bpl = e.2 * bpl := by omega
  have hbne : bpl ≠ 0 := by omega
  have hveq : d.2 = e.2 := mul_right_cancel₀ hbne hv
  have hheq : d.1 = e.1 := by omega
  exact Prod.ext hheq hveq

/-- C23: after `skin_display_invalidater(bits, bytesperline, x, y, width, height)`
with the rectangle inside the display, every dot `(h, v)` of the rectangle has in
the display bitmap the bit `h mod 8` of `bits[v * bytesperline + h div 8]`, every
dot of the display outside the rectangle has the bit it had, the bitmap stays well
formed, and the same update applied again changes nothing. -/
theorem skin_display_invalidater_rect (g : SkinState) (bits : List Nat)
    (bytesperline x y width height : Int) (hok : display_bitmap_ok g)
    (hx : 0 ≤ x) (hy : 0 ≤ y) (hxw : x + width ≤ g.disp_w) (hyh : y + height ≤ g.disp_h) :
    (∀ h v : Int, x ≤ h → h < x + width → y ≤ v → v < y + height →
        dot_bit (skin_display_invalidater g bits bytesperline x y width height).disp_bits
            (skin_display_invalidater g bits bytesperline x y width height).disp_bpl h v
          = Nat.testBit (byte_at bits (v * bytesperline + h / 8)) (h % 8).toNat)
      ∧ (∀ h v : Int, 0 ≤ h → h < g.disp_w → 0 ≤ v → v < g.disp_h →
          ¬ (x ≤ h ∧ h < x + width ∧ y ≤ v ∧ v < y + height) →
          dot_bit (skin_display_invalidater g bits bytesperline x y width height).disp_bits
              (skin_display_invalidater g bits bytesperline x y width height).disp_bpl h v
            = dot_bit g.disp_bits g.disp_bpl h v)
      ∧ display_bitmap_ok (skin_display_invalidater g bits bytesperline x y width height)
      ∧ skin_display_invalidater
            (skin_display_invalidater g bits bytesperline x y width height)
            bits bytesperline x y width height
          = skin_display_invalidater g bits bytesperline x y width height := by
  have hbpl := hok.2.2.1
  -- every dot of the rectangle is a dot of the display
  have hrect : ∀ d ∈ rect_dots x y width height,
      0 ≤ d.1 ∧ d.1 < g.disp_w ∧ 0 ≤ d.2 ∧ d.2 < g.disp_h := by
    intro d hd
    obtain ⟨h, v⟩ := d
    rw [mem_rect_dots] at hd
    exact ⟨by omega, by omega, by omega, by omega⟩
  have hvalid : ∀ mem : List Nat, mem.length = g.disp_bits.length →
      ∀ d ∈ rect_dots x y width height,
        0 ≤ dot_index g.disp_bpl d.1 d.2 ∧ (dot_index g.disp_bpl d.1 d.2).toNat < mem.length := by
    intro mem hlen d hd
    obtain ⟨a, b, c, e⟩ := hrect d hd
    have := dot_index_in_bitmap g hok d.1 d.2 a b c e
    rw [hlen]
    omega
  have hinj : ∀ d ∈ rect_dots x y width height, ∀ e : Int × Int,
      0 ≤ e.1 → e.1 < g.disp_w → 0 ≤ e.2 → dot_loc g.disp_bpl d = dot_loc g.disp_bpl e →
      d = e := by
    intro d hd e e0 e1 e2 hloc
    obtain ⟨a, b, c, _⟩ := hrect d hd
    exact dot_loc_injective g.disp_bpl g.disp_w hbpl d e a b c e0 e1 e2 hloc
  -- the bit of a dot of the display after the loops, from any bitmap of the same length
  have hbit : ∀ mem : List Nat, mem.length = g.disp_bits.length → ∀ e : Int × Int,
      0 ≤ e.1 → e.1 < g.disp_w → 0 ≤ e.2 → e.2 < g.disp_h →
      dot_bit ((rect_dots x y width height).foldl
          (invalidate_dot bits bytesperline g.disp_bpl) mem) g.disp_bpl e.1 e.2
        = if e ∈ rect_dots x y width height then dot_bit bits bytesperline e.1 e.2
          else dot_bit mem g.disp_bpl e.1 e.2 := by
    intro mem hlen e e0 e1 e2 e3
    have hidx := (dot_index_in_bitmap g hok e.1 e.2 e0 e1 e2 e3).1
    rw [dot_bit_eq_bit_at _ _ e hidx, dot_bit_eq_bit_at mem _ e hidx,
      invalidate_fold_bit bits bytesperline g.disp_bpl _ _ (dot_bit bits bytesperline e.1 e.2)
        _ mem (hvalid mem hlen)]
    · by_cases hmem : e ∈ rect_dots x y width height
      · rw [if_pos hmem, if_pos ⟨e, hmem, rfl⟩]
      · rw [if_neg hmem, if_neg]
        rintro ⟨d, hd, hloc⟩
        exact hmem (hinj d hd e e0 e1 e2 hloc ▸ hd)
    · intro d hd hloc
      rw [hinj d hd e e0 e1 e2 hloc]
  have hlen : (skin_display_invalidater g bits bytesperline x y width height).disp_bits.length
      = g.disp_bits.length := invalidate_fold_length _ _ _ _ _
  refine ⟨?_, ?_, ?_, ?_⟩
  · intro h v h1 h2 v1 v2
    have hmem : (h, v) ∈ rect_dots x y width height :=
      (mem_rect_dots x y width height h v).2 ⟨h1, h2, v1, v2⟩
    obtain ⟨a, b, c, e⟩ := hrect (h, v) hmem
    have := hbit g.disp_bits rfl (h, v) a b c e
    rw [if_pos hmem] at this
    show dot_bit ((rect_dots x y width height).foldl
      (invalidate_dot bits bytesperline g.disp_bpl) g.disp_bits) g.disp_bpl h v = _
    rw [this, dot_bit_eq]
    unfold dot_index
    rw [shiftRight_three]
  · intro h v h0 h1 v0 v1 hout
    have hmem : (h, v) ∉ rect_dots x y width height := by
      rw [mem_rect_dots]
      exact hout
    have := hbit g.disp_bits rfl (h, v) h0 h1 v0 v1
    rw [if_neg hmem] at this
    exact this
  · obtain ⟨a, b, c, d⟩ := hok
    exact ⟨a, b, c, by rw [hlen]; exact d⟩
  · have hbits : (rect_dots x y width height).foldl
        (invalidate_dot bits bytesperline g.disp_bpl)
        ((rect_dots x y width height).foldl
          (invalidate_dot bits bytesperline g.disp_bpl) g.disp_bits)
        = (rect_dots x y width height).foldl
          (invalidate_dot bits bytesperline g.disp_bpl) g.disp_bits := by
      apply List.ext_getElem
      · rw [invalidate_fold_length]
      · intro i hi1 hi2
        apply Nat.eq_of_testBit_eq
        intro j
        have hget : ∀ (mem : List Nat) (hi : i < mem.length),
            Nat.testBit mem[i] j = bit_at mem i j := by
          intro mem hi
          unfold bit_at
          rw [List.getD_eq_getElem?_getD, List.getElem?_eq_getElem hi]
          rfl
        rw [hget _ hi1, hget _ hi2]
        by_cases hhit : ∃ d ∈ rect_dots x y width height, dot_loc g.disp_bpl d = (i, j)
        · obtain ⟨d0, hd0, hloc0⟩ := hhit
          have hagree : ∀ d ∈ rect_dots x y width height, dot_loc g.disp_bpl d = (i, j) →
              dot_bit bits bytesperline d.1 d.2 = dot_bit bits bytesperline d0.1 d0.2 := by
            intro d hd hloc
            obtain ⟨a, b, c, _⟩ := hrect d0 hd0
            rw [hinj d hd d0 a b c (hloc.trans hloc0.symm)]
          rw [invalidate_fold_bit bits bytesperline g.disp_bpl i j _ _ _
              (hvalid _ (invalidate_fold_length _ _ _ _ _)) hagree,
            invalidate_fold_bit bits bytesperline g.disp_bpl i j _ _ _
              (hvalid _ rfl) hagree,
            if_pos ⟨d0, hd0, hloc0⟩, if_pos ⟨d0, hd0, hloc0⟩]
        · rw [invalidate_fold_bit bits bytesperline g.disp_bpl i j false _ _
              (hvalid _ (invalidate_fold_length _ _ _ _ _))
              (fun d hd hloc => absurd ⟨d, hd, hloc⟩ hhit),
            if_neg hhit]
    show ({ (skin_display_invalidater g bits bytesperline x y width height) with
        disp_bits := (rect_dots x y width height).foldl
          (invalidate_dot bits bytesperline g.disp_bpl)
          ((rect_dots x y width height).foldl
            (invalidate_dot bits bytesperline g.disp_bpl) g.disp_bits) } : SkinState) = _
    rw [hbits]
    rfl

set_option maxRecDepth 100000 in
/-- C23 after a load with 2 rows and 22 columns: the update of the rectangle
`2, 9, 3, 1` from a buffer whose byte 9 is 12 (the bits 2 and 3) sets the dots
(2, 9) and (3, 9) and clears the dot (4, 9). -/
theorem skin_display_invalidater_rect_witness :
    display_bitmap_ok (skin_load_pass (fun _ _ => none) SkinState.initial
        ["display: 0,0 1 1 0 0".toList] 2 22).1
      ∧ (2 : Int) + 3 ≤ (skin_load_pass (fun _ _ => none) SkinState.initial
        ["display: 0,0 1 1 0 0".toList] 2 22).1.disp_w
      ∧ (9 : Int) + 1 ≤ (skin_load_pass (fun _ _ => none) SkinState.initial
        ["display: 0,0 1 1 0 0".toList] 2 22).1.disp_h
      ∧ dot_bit (skin_display_invalidater (skin_load_pass (fun _ _ => none) SkinState.initial
            ["display: 0,0 1 1 0 0".toList] 2 22).1
            (List.replicate 9 0 ++ [12]) 1 2 9 3 1).disp_bits
          (skin_display_invalidater (skin_load_pass (fun _ _ => none) SkinState.initial
            ["display: 0,0 1 1 0 0".toList] 2 22).1
            (List.replicate 9 0 ++ [12]) 1 2 9 3 1).disp_bpl 3 9 = true :=
  have hok : display_bitmap_ok (skin_load_pass (fun _ _ => none) SkinState.initial
      ["display: 0,0 1 1 0 0".toList] 2 22).1 :=
    skin_load_finish_bitmap_ok _ (by with_unfolding_all decide) (by with_unfolding_all decide)
  have hw : (2 : Int) + 3 ≤ (skin_load_pass (fun _ _ => none) SkinState.initial
      ["display: 0,0 1 1 0 0".toList] 2 22).1.disp_w := by with_unfolding_all decide
  have hh : (9 : Int) + 1 ≤ (skin_load_pass (fun _ _ => none) SkinState.initial
      ["display: 0,0 1 1 0 0".toList] 2 22).1.disp_h := by with_unfolding_all decide
  ⟨hok, hw, hh,
    ((skin_display_invalidater_rect (skin_load_pass (fun _ _ => none) SkinState.initial
        ["display: 0,0 1 1 0 0".toList] 2 22).1 (List.replicate 9 0 ++ [12]) 1 2 9 3 1
        hok (by decide) (by decide) hw hh).1 3 9 (by decide) (by decide) (by decide)
        (by decide)).trans (by decide)⟩

/-! ## Scanlines of the skin image -/

/-- The byte read back after a store inside the array, at any index. -/
theorem byte_at_store (mem : List Nat) (i : Int) (b : Nat) (h0 : 0 ≤ i)
    (h1 : i < (mem.length : Int)) (q : Int) :
    byte_at (byte_store mem i b) q = if q = i then b else byte_at mem q := by
  unfold byte_at
  by_cases hq : q < 0
  · rw [if_pos hq, if_pos hq, if_neg (by omega)]
  · rw [if_neg hq, if_neg hq, byte_store_getD mem i b h0 (by omega)]
    by_cases h : q = i
    · rw [if_pos h, if_pos (by rw [h])]
    · rw [if_neg h, if_neg (by omega)]

/-- The three stores of one pixel keep the length of the array. -/
theorem put_rgb_length (s : List Nat × Int) (r g b : Nat) :
    (put_rgb s r g b).1.length = s.1.length := by
  unfold put_rgb
  simp only [byte_store_length]

/-- The bytes after the three stores of one pixel inside the array. -/
theorem put_rgb_byte (s : List Nat × Int) (r g b : Nat) (h0 : 0 ≤ s.2)
    (h1 : s.2 + 3 ≤ (s.1.length : Int)) (q : Int) :
    byte_at (put_rgb s r g b).1 q
      = if q = s.2 then r else if q = s.2 + 1 then g else if q = s.2 + 2 then b
        else byte_at s.1 q := by
  unfold put_rgb
  simp only
  rw [byte_at_store _ _ _ (by omega) (by rw [byte_store_length, byte_store_length]; omega),
    byte_at_store _ _ _ (by omega) (by rw [byte_store_length]; omega),
    byte_at_store _ _ _ h0 (by omega)]
  split_ifs <;> first | rfl | (exfalso; omega)

/-- A loop that stores the three bytes `vals x` of the pixels `x = 0, ..., n - 1`
one after the other from the index `p0` on: the pointer after it, the length of the
array and the bytes of each pixel. -/
theorem put_fold_bytes (vals : Nat → Nat × Nat × Nat) (pix : List Nat) (p0 : Int)
    (h0 : 0 ≤ p0) (n : Nat) (hfit : p0 + 3 * (n : Int) ≤ (pix.length : Int)) :
    ((List.range n).foldl
        (fun s x => put_rgb s (vals x).1 (vals x).2.1 (vals x).2.2) (pix, p0)).2
        = p0 + 3 * (n : Int)
      ∧ ((List.range n).foldl
          (fun s x => put_rgb s (vals x).1 (vals x).2.1 (vals x).2.2) (pix, p0)).1.length
        = pix.length
      ∧ (∀ x : Nat, x < n →
          (byte_at ((List.range n).foldl
              (fun s x => put_rgb s (vals x).1 (vals x).2.1 (vals x).2.2) (pix, p0)).1
              (p0 + 3 * (x : Int)),
            byte_at ((List.range n).foldl
              (fun s x => put_rgb s (vals x).1 (vals x).2.1 (vals x).2.2) (pix, p0)).1
              (p0 + 3 * (x : Int) + 1),
            byte_at ((List.range n).foldl
              (fun s x => put_rgb s (vals x).1 (vals x).2.1 (vals x).2.2) (pix, p0)).1
              (p0 + 3 * (x : Int) + 2)) = vals x) := by
  induction n with
  | zero =>
    refine ⟨by simp, rfl, ?_⟩
    intro x hx
    omega
  | succ n ih =>
    obtain ⟨ih1, ih2, ih3⟩ := ih (by push_cast at hfit; omega)
    rw [List.range_succ, List.foldl_append, List.foldl_cons, List.foldl_nil]
    generalize (List.range n).foldl
      (fun s x => put_rgb s (vals x).1 (vals x).2.1 (vals x).2.2) (pix, p0) = r at ih1 ih2 ih3 ⊢
    have hr0 : 0 ≤ r.2 := by omega
    have hr1 : r.2 + 3 ≤ (r.1.length : Int) := by
      rw [ih2, ih1]
      push_cast at hfit
      omega
    refine ⟨?_, ?_, ?_⟩
    · show r.2 + 3 = _
      push_cast
      omega
    · rw [put_rgb_length, ih2]
    · intro x hx
      by_cases hxn : x = n
      · subst hxn
        rw [put_rgb_byte r _ _ _ hr0 hr1, put_rgb_byte r _ _ _ hr0 hr1,
          put_rgb_byte r _ _ _ hr0 hr1]
        split_ifs <;> first | rfl | (exfalso; omega)
      · have hkeep : ∀ q : Int, q < r.2 →
            byte_at (put_rgb r (vals n).1 (vals n).2.1 (vals n).2.2).1 q = byte_at r.1 q := by
          intro q hq
          rw [put_rgb_byte r _ _ _ hr0 hr1]
          split_ifs <;> first | rfl | (exfalso; omega)
        rw [hkeep _ (by omega), hkeep _ (by omega), hkeep _ (by omega)]
        exact ih3 x (by omega)

/-- The truecolor loop stores the bytes `data[3x], data[3x+1], data[3x+2]` for the
pixel `x`: its counter `xx` is `3x` at the start of the step `x`. -/
theorem put_pixel_truecolor_fold (data : List Nat) (pix : List Nat) (p0 : Int) (n : Nat) :
    (List.range n).foldl (put_pixel_truecolor data) ((pix, p0), 0)
      = ((List.range n).foldl
          (fun s x => put_rgb s (data.getD (3 * x) 0, data.getD (3 * x + 1) 0,
              data.getD (3 * x + 2) 0).1
            (data.getD (3 * x) 0, data.getD (3 * x + 1) 0, data.getD (3 * x + 2) 0).2.1
            (data.getD (3 * x) 0, data.getD (3 * x + 1) 0, data.getD (3 * x + 2) 0).2.2)
          (pix, p0), 3 * n) := by
  induction n with
  | zero => rfl
  | succ n ih =>
    rw [List.range_succ, List.foldl_append, List.foldl_append, ih]
    simp only [List.foldl_cons, List.foldl_nil, put_pixel_truecolor]
    rw [Nat.mul_succ]

/-- The test of the monochrome loop reads the bit `x mod 8` of `data[x div 8]`. -/
theorem mono_test (data : List Nat) (x : Nat) :
    ((data.getD (x >>> 3) 0 &&& (1 <<< (x &&& 7))) = 0)
      ↔ Nat.testBit (data.getD (x / 8) 0) (x % 8) = false := by
  have h7 : x &&& 7 = x % 8 := Nat.and_pow_two_sub_one_eq_mod x 3
  have h3 : x >>> 3 = x / 8 := Nat.shiftRight_eq_div_pow x 3
  rw [h7, h3, Nat.one_shiftLeft, ← and_two_pow_ne_zero]
  simp

/-- A loop whose steps keep a measure of the state keeps it. -/
theorem foldl_keeps {σ : Type} (len : σ → Nat) (f : σ → Nat → σ)
    (hf : ∀ s x, len (f s x) = len s) (l : List Nat) :
    ∀ s, len (l.foldl f s) = len s := by
  induction l with
  | nil => intro s; rfl
  | cons x rest ih =>
    intro s
    rw [List.foldl_cons, ih, hf]

/-- A call of `skin_put_pixels` keeps the pixbuf and its size and moves the row
cursor by one. -/
theorem skin_put_pixels_rows (type : Int) (colors : List SkinColor) (width height : Int)
    (n : Nat) (data : List Nat) (st : ImageState)
    (h : image_rows type colors width height n st) :
    image_rows type colors width height (n + 1) (skin_put_pixels data st) := by
  obtain ⟨hy, ht, hc, img, himg, hw, hh, hrs, hlen⟩ := h
  unfold skin_put_pixels
  rw [himg]
  refine ⟨by simp only [hy]; push_cast; rfl, ht, hc, _, rfl, hw, hh, hrs, ?_⟩
  simp only
  rw [← hlen]
  congr 1
  split
  · exact foldl_keeps (fun s : List Nat × Int => s.1.length) _
      (fun s x => put_rgb_length s _ _ _) _ _
  · split
    · exact foldl_keeps (fun s : List Nat × Int => s.1.length) _
        (fun s x => put_rgb_length s _ _ _) _ _
    · split
      · exact foldl_keeps (fun s : List Nat × Int => s.1.length) _
          (fun s x => put_rgb_length s _ _ _) _ _
      · exact foldl_keeps (fun s : (List Nat × Int) × Nat => s.1.1.length) _
          (fun s x => put_rgb_length s.1 _ _ _) _ _

/-- The state after `skin_init_image` with positive dimensions. -/
theorem skin_init_image_rows (type ncolors : Int) (colors : List SkinColor)
    (width height : Int) (hw : 0 < width) (hh : 0 < height) :
    image_rows type colors width height 0
      (skin_init_image type ncolors colors width height).1 := by
  unfold skin_init_image gdk_pixbuf_new
  rw [if_neg (by omega)]
  refine ⟨rfl, rfl, rfl, _, rfl, rfl, rfl, rfl, ?_⟩
  simp only [List.length_replicate]
  have h1 : 0 ≤ (width * 3 + 3) / 4 * 4 := by omega
  exact Int.toNat_of_nonneg (mul_nonneg h1 (by omega))

/-- The state after `skin_init_image` and the calls of `skin_put_pixels` for the
scanlines `rows`. -/
theorem skin_put_pixels_fold_rows (type : Int) (colors : List SkinColor) (width height : Int)
    (rows : List (List Nat)) :
    ∀ (n : Nat) (st : ImageState), image_rows type colors width height n st →
      image_rows type colors width height (n + rows.length)
        (rows.foldl (fun s d => skin_put_pixels d s) st) := by
  induction rows with
  | nil => intro n st h; exact h
  | cons d rest ih =>
    intro n st h
    rw [List.foldl_cons, List.length_cons]
    have := ih (n + 1) _ (skin_put_pixels_rows type colors width height n d st h)
    rw [show n + (rest.length + 1) = n + 1 + rest.length by omega]
    exact this

/-- The row written by one call of `skin_put_pixels` at a cursor inside the image:
its pixels are the ones of the scanline. -/
theorem skin_put_pixels_row_bytes (type : Int) (colors : List SkinColor) (width height : Int)
    (n : Nat) (data : List Nat) (st : ImageState) (hw : 0 < width) (hn : (n : Int) < height)
    (h : image_rows type colors width height n st) :
    ∃ img, (skin_put_pixels data st).skin_image = some img ∧ img.width = width
      ∧ ∀ x : Nat, (x : Int) < width →
          pixel_rgb img (x : Int) (n : Int) = scanline_rgb type colors data x := by
  obtain ⟨hy, ht, hc, img, himg, hiw, hih, hrs, hlen⟩ := h
  have hfit : st.skin_y * img.rowstride + 3 * ((img.width.toNat : Nat) : Int)
      ≤ (img.pixels.length : Int) := by
    rw [hlen, hy, hih, hiw, Int.toNat_of_nonneg (by omega)]
    have hrs3 : 3 * width ≤ img.rowstride := by omega
    have hrs0 : 0 ≤ img.rowstride := by omega
    have h1 : ((n : Int) + 1) * img.rowstride ≤ height * img.rowstride :=
      mul_le_mul_of_nonneg_right (by omega) hrs0
    have h2 : ((n : Int) + 1) * img.rowstride = (n : Int) * img.rowstride + img.rowstride := by
      ring
    have h3 : height * img.rowstride = img.rowstride * height := by ring
    omega
  have hp0 : 0 ≤ st.skin_y * img.rowstride := by
    rw [hy]
    exact mul_nonneg (by omega) (by omega)
  have key : ∀ (vals : Nat → Nat × Nat × Nat) (pix : List Nat),
      pix = ((List.range img.width.toNat).foldl
          (fun s x => put_rgb s (vals x).1 (vals x).2.1 (vals x).2.2)
          (img.pixels, st.skin_y * img.rowstride)).1 →
      ∀ x : Nat, (x : Int) < width →
        pixel_rgb { img with pixels := pix } (x : Int) (n : Int) = vals x := by
    intro vals pix hpix x hx
    obtain ⟨_, _, hb⟩ := put_fold_bytes vals img.pixels (st.skin_y * img.rowstride) hp0
      img.width.toNat hfit
    have := hb x (by omega)
    rw [← hpix, hy] at this
    unfold pixel_rgb
    simp only
    rw [show (n : Int) * img.rowstride + (x : Int) * 3 = (n : Int) * img.rowstride + 3 * (x : Int)
      by ring]
    exact this
  unfold skin_put_pixels
  rw [himg]
  simp only
  refine ⟨_, rfl, hiw, ?_⟩
  intro x hx
  rw [ht, hc]
  unfold scanline_rgb
  by_cases h1 : type = IMGTYPE_MONO
  · rw [if_pos h1, if_pos h1]
    refine (key (fun x =>
      (if (data.getD (x >>> 3) 0 &&& (1 <<< (x &&& 7))) = 0 then 0 else 255,
        if (data.getD (x >>> 3) 0 &&& (1 <<< (x &&& 7))) = 0 then 0 else 255,
        if (data.getD (x >>> 3) 0 &&& (1 <<< (x &&& 7))) = 0 then 0 else 255)) _ rfl x
      hx).trans ?_
    by_cases hbit : (data.getD (x >>> 3) 0 &&& (1 <<< (x &&& 7))) = 0
    · simp only [if_pos hbit, if_pos ((mono_test data x).1 hbit)]
    · simp only [if_neg hbit, if_neg (fun h => hbit ((mono_test data x).2 h))]
  · rw [if_neg h1, if_neg h1]
    by_cases h2 : type = IMGTYPE_GRAY
    · rw [if_pos h2, if_pos h2]
      exact key (fun x => (data.getD x 0, data.getD x 0, data.getD x 0)) _ rfl x hx
    · rw [if_neg h2, if_neg h2]
      by_cases h3 : type = IMGTYPE_COLORMAPPED
      · rw [if_pos h3, if_pos h3]
        exact key (fun x => ((colors.getD (data.getD x 0) ⟨0, 0, 0⟩).r,
          (colors.getD (data.getD x 0) ⟨0, 0, 0⟩).g,
          (colors.getD (data.getD x 0) ⟨0, 0, 0⟩).b)) _ rfl x hx
      · rw [if_neg h3, if_neg h3]
        exact key (fun x => (data.getD (3 * x) 0, data.getD (3 * x + 1) 0,
          data.getD (3 * x + 2) 0)) _
          (by rw [put_pixel_truecolor_fold]) x hx

/-- C22: for an image begun with the width `W` and the height `H`, the row cursor is
0 right after `skin_init_image`; each call of `skin_put_pixels` (while the cursor
is inside the image) writes for every `x` in `[0, W)` the three bytes of the pixel
`x` of the row at the cursor as the encoding says (monochrome: 0, 0, 0 if the bit
`x mod 8` of `data[x div 8]` is 0, else 255, 255, 255; grayscale: `data[x]` three
times; palette-indexed: the r, g, b of `palette[data[x]]`; truecolor:
`data[3x], data[3x+1], data[3x+2]`) and then moves the cursor by exactly 1. -/
theorem skin_put_pixels_scanline (type ncolors : Int) (colors : List SkinColor) (W H : Int)
    (rows : List (List Nat)) (data : List Nat) (hW : 0 < W)
    (hrows : (rows.length : Int) < H) :
    (skin_init_image type ncolors colors W H).1.skin_y = 0
      ∧ (rows.foldl (fun s d => skin_put_pixels d s)
          (skin_init_image type ncolors colors W H).1).skin_y = rows.length
      ∧ (skin_put_pixels data (rows.foldl (fun s d => skin_put_pixels d s)
          (skin_init_image type ncolors colors W H).1)).skin_y
        = (rows.foldl (fun s d => skin_put_pixels d s)
            (skin_init_image type ncolors colors W H).1).skin_y + 1
      ∧ ∃ img, (skin_put_pixels data (rows.foldl (fun s d => skin_put_pixels d s)
            (skin_init_image type ncolors colors W H).1)).skin_image = some img
          ∧ img.width = W
          ∧ ∀ x : Nat, (x : Int) < W →
              pixel_rgb img (x : Int)
                  (rows.foldl (fun s d => skin_put_pixels d s)
                    (skin_init_image type ncolors colors W H).1).skin_y
                = scanline_rgb type colors data x := by
  have h0 := skin_init_image_rows type ncolors colors W H hW (by omega)
  have hn := skin_put_pixels_fold_rows type colors W H rows 0 _ h0
  rw [Nat.zero_add] at hn
  have hn1 := skin_put_pixels_rows type colors W H rows.length data _ hn
  refine ⟨rfl, hn.1, ?_, ?_⟩
  · rw [hn1.1, hn.1]
    push_cast
    rfl
  · rw [hn.1]
    exact skin_put_pixels_row_bytes type colors W H rows.length data _ hW hrows hn

/-- C22 on a monochrome image of the width 10: after one scanline, the scanline
with the bytes 5 and 2 gives the row 1 the pixels white, black, white (the bits of
5) and, from the bit 1 of the second byte, a white pixel 9. -/
theorem skin_put_pixels_scanline_witness :
    (0 : Int) < 10 ∧ (([[0, 0]] : List (List Nat)).length : Int) < 3
      ∧ (skin_put_pixels [5, 2] ([[0, 0]].foldl (fun s d => skin_put_pixels d s)
          (skin_init_image IMGTYPE_MONO 0 [] 10 3).1)).skin_y = 2
      ∧ scanline_rgb IMGTYPE_MONO [] [5, 2] 9 = (255, 255, 255)
      ∧ scanline_rgb IMGTYPE_MONO [] [5, 2] 1 = (0, 0, 0) :=
  ⟨by decide, by decide,
    (skin_put_pixels_scanline IMGTYPE_MONO 0 [] 10 3 [[0, 0]] [5, 2] (by decide)
      (by decide)).2.2.1.trans (by decide),
    by decide, by decide⟩

end ShellSkin
